import Mathlib

/-!
# PagingAuditCommon.c : memory-descriptor reconciliation pipeline

A shallow embedding of the interval algorithms of
`UefiTestingPkg/AuditTests/PagingAudit/UEFI/PagingAuditCommon.c`.

Conventions of the embedding

* `UINT64`/`UINTN`/`EFI_PHYSICAL_ADDRESS` values are natural numbers; every place
  where the C code can wrap is written with an explicit `% 2^64`.
* A descriptor buffer is a `List` of descriptors; the pointer
  `(UINT8 *)Map + i * DescriptorSize` is the list index `i`.  The byte size and the
  stride stay explicit arguments, so a loop guard `Entry < MapEnd` reads
  `i * DescriptorSize < MemoryMapSize`.
* Loops are structural recursions on a fuel argument.  `none` means that the C
  code has no defined result: it reads a slot outside the buffer or it never
  leaves the loop.
-/

namespace PagingAudit

/-- Number of values of a `UINT64`. -/
def U64 : Nat := 2 ^ 64

/-- Bit shift of a page: `EFI_PAGE_SHIFT`. -/
def EFI_PAGE_SHIFT : Nat := 12

/-- Mask of the offset inside a page: `EFI_PAGE_MASK`. -/
def EFI_PAGE_MASK : Nat := 0xFFF

/-- Size of a page in bytes: `EFI_PAGE_SIZE`. -/
def EFI_PAGE_SIZE : Nat := 0x1000

/-- Status codes returned by the functions of the pipeline. -/
inductive EFI_STATUS where
  | EFI_SUCCESS
  | EFI_INVALID_PARAMETER
  | EFI_OUT_OF_RESOURCES
  | EFI_BUFFER_TOO_SMALL
  deriving DecidableEq, Repr

/-- The `EFI_GCD_MEMORY_TYPE` enumeration of the PI specification, in its order. -/
inductive EFI_GCD_MEMORY_TYPE where
  | EfiGcdMemoryTypeNonExistent
  | EfiGcdMemoryTypeReserved
  | EfiGcdMemoryTypeSystemMemory
  | EfiGcdMemoryTypeMemoryMappedIo
  | EfiGcdMemoryTypePersistent
  | EfiGcdMemoryTypeMoreReliable
  | EfiGcdMemoryTypeUnaccepted
  | EfiGcdMemoryTypeMaximum
  deriving DecidableEq, Repr, Inhabited

/-- One entry of the UEFI memory map: `EFI_MEMORY_DESCRIPTOR`. -/
structure EFI_MEMORY_DESCRIPTOR where
  Type_ : Nat
  PhysicalStart : Nat
  VirtualStart : Nat
  NumberOfPages : Nat
  Attribute : Nat
  deriving DecidableEq, Repr, Inhabited

/-- One entry of the GCD memory space map: `EFI_GCD_MEMORY_SPACE_DESCRIPTOR`. -/
structure EFI_GCD_MEMORY_SPACE_DESCRIPTOR where
  BaseAddress : Nat
  Length : Nat
  Capabilities : Nat
  Attributes : Nat
  GcdMemoryType : EFI_GCD_MEMORY_TYPE
  ImageHandle : Nat
  DeviceHandle : Nat
  deriving DecidableEq, Repr, Inhabited

/-- `EfiPagesToSize`: `LShiftU64 (Pages, EFI_PAGE_SHIFT)`, a 64-bit left shift. -/
def EfiPagesToSize (Pages : Nat) : Nat :=
  (Pages * 2 ^ EFI_PAGE_SHIFT) % U64

/-- `EfiSizeToPages`: `RShiftU64 (Size, EFI_PAGE_SHIFT)` plus one when the low
twelve bits of `Size` are not all zero. -/
def EfiSizeToPages (Size : Nat) : Nat :=
  Size / 2 ^ EFI_PAGE_SHIFT + (if Size % (EFI_PAGE_MASK + 1) ≠ 0 then 1 else 0)

/-! ## Sorting -/

/-- Inner loop of `SortMemoryMap`/`SortMemorySpaceMap`:
`while (NextMemoryMapEntry < MemoryMapEnd)`, with `MemoryMapEntry` at slot `i` and
`NextMemoryMapEntry` at slot `j`; the three `CopyMem` calls exchange the two
descriptors when the key of slot `i` is greater than the key of slot `j`. -/
def sortInner {α : Type} (key : α → Nat) (MemoryMapSize DescriptorSize i : Nat) :
    Nat → Nat → List α → Option (List α)
  | 0, _, _ => none
  | fuel + 1, j, m =>
    if j * DescriptorSize < MemoryMapSize then
      match m[i]?, m[j]? with
      | some a, some b =>
        sortInner key MemoryMapSize DescriptorSize i fuel (j + 1)
          (if key a > key b then (m.set i b).set j a else m)
      | _, _ => none
    else some m

/-- Outer loop of `SortMemoryMap`/`SortMemorySpaceMap`:
`while (MemoryMapEntry < MemoryMapEnd)`, with `MemoryMapEntry` at slot `i`; after
the inner loop both pointers move on, the next one to slot `i + 2`. -/
def sortOuter {α : Type} (key : α → Nat) (MemoryMapSize DescriptorSize : Nat) :
    Nat → Nat → List α → Option (List α)
  | 0, _, _ => none
  | fuel + 1, i, m =>
    if i * DescriptorSize < MemoryMapSize then
      match sortInner key MemoryMapSize DescriptorSize i (MemoryMapSize + 1) (i + 1) m with
      | some m1 => sortOuter key MemoryMapSize DescriptorSize fuel (i + 1) m1
      | none => none
    else some m

/-- `SortMemoryMap (MemoryMap, MemoryMapSize, DescriptorSize)`: exchange sort on
`PhysicalStart`.  With a positive stride the loops run at most `MemoryMapSize`
times each, so the fuel `MemoryMapSize + 1` is never the reason for `none`. -/
def SortMemoryMap (MemoryMap : List EFI_MEMORY_DESCRIPTOR)
    (MemoryMapSize DescriptorSize : Nat) : Option (List EFI_MEMORY_DESCRIPTOR) :=
  sortOuter (fun e => e.PhysicalStart) MemoryMapSize DescriptorSize (MemoryMapSize + 1) 0 MemoryMap

/-- `SortMemorySpaceMap (MemoryMap, MemoryMapSize, DescriptorSize)`: the same
exchange sort on `BaseAddress`. -/
def SortMemorySpaceMap (MemoryMap : List EFI_GCD_MEMORY_SPACE_DESCRIPTOR)
    (MemoryMapSize DescriptorSize : Nat) : Option (List EFI_GCD_MEMORY_SPACE_DESCRIPTOR) :=
  sortOuter (fun e => e.BaseAddress) MemoryMapSize DescriptorSize (MemoryMapSize + 1) 0 MemoryMap

/-! ## Merging the memory space map -/

/-- Inner loop of `MergeMemorySpaceMap`: `while (Index + 1 < *NumberOfDescriptors)`.
`New` is the descriptor under construction at `NewMemoryMap`; the loop returns the
final `Index` and descriptor.  The comparison and the `+=` are 64-bit. -/
def mergeInner (NumberOfDescriptors : Nat) (MemorySpaceMap : List EFI_GCD_MEMORY_SPACE_DESCRIPTOR) :
    Nat → Nat → EFI_GCD_MEMORY_SPACE_DESCRIPTOR →
      Option (Nat × EFI_GCD_MEMORY_SPACE_DESCRIPTOR)
  | 0, _, _ => none
  | fuel + 1, Index, New =>
    if Index + 1 < NumberOfDescriptors then
      match MemorySpaceMap[Index + 1]? with
      | none => none
      | some nx =>
        if New.GcdMemoryType = nx.GcdMemoryType ∧
            (New.BaseAddress + New.Length) % U64 = nx.BaseAddress then
          mergeInner NumberOfDescriptors MemorySpaceMap fuel (Index + 1)
            { New with Length := (New.Length + nx.Length) % U64 }
        else some (Index, New)
    else some (Index, New)

/-- Outer loop of `MergeMemorySpaceMap`: `while (Index < *NumberOfDescriptors)`.
`out` is the part of the new buffer already written, so `NewMemoryMap++` appends. -/
def mergeOuter (NumberOfDescriptors : Nat) (MemorySpaceMap : List EFI_GCD_MEMORY_SPACE_DESCRIPTOR) :
    Nat → Nat → List EFI_GCD_MEMORY_SPACE_DESCRIPTOR →
      Option (List EFI_GCD_MEMORY_SPACE_DESCRIPTOR)
  | 0, _, _ => none
  | fuel + 1, Index, out =>
    if Index < NumberOfDescriptors then
      match MemorySpaceMap[Index]? with
      | none => none
      | some d =>
        match mergeInner NumberOfDescriptors MemorySpaceMap (NumberOfDescriptors + 1) Index d with
        | none => none
        | some (Index1, New) =>
          mergeOuter NumberOfDescriptors MemorySpaceMap fuel (Index1 + 1) (out ++ [New])
    else some out

/-- `MergeMemorySpaceMap (&NumberOfDescriptors, &MemorySpaceMap)`.  The two outer
pointers are addresses of caller variables; `MemorySpaceMap = none` is a `NULL`
buffer.  `allocNew` and `allocCopy` say whether `AllocatePool` and
`AllocateCopyPool` succeed.  The result is the status with the values left in
`*NumberOfDescriptors` and `*MemorySpaceMap`. -/
def MergeMemorySpaceMap (allocNew allocCopy : Bool) (NumberOfDescriptors : Nat)
    (MemorySpaceMap : Option (List EFI_GCD_MEMORY_SPACE_DESCRIPTOR)) :
    Option (EFI_STATUS × Nat × Option (List EFI_GCD_MEMORY_SPACE_DESCRIPTOR)) :=
  match MemorySpaceMap with
  | none => some (EFI_STATUS.EFI_INVALID_PARAMETER, NumberOfDescriptors, none)
  | some m =>
    if NumberOfDescriptors ≤ 1 then
      some (EFI_STATUS.EFI_INVALID_PARAMETER, NumberOfDescriptors, some m)
    else if allocNew = false then
      some (EFI_STATUS.EFI_OUT_OF_RESOURCES, NumberOfDescriptors, some m)
    else
      match mergeOuter NumberOfDescriptors m (NumberOfDescriptors + 1) 0 [] with
      | none => none
      | some out =>
        if allocCopy = false then some (EFI_STATUS.EFI_OUT_OF_RESOURCES, out.length, none)
        else some (EFI_STATUS.EFI_SUCCESS, out.length, some out)

/-- Two neighbouring descriptors can be merged, in the words of the specification:
same classification and `a.base + a.length == b.base` (64-bit sum). -/
def Mergeable (a b : EFI_GCD_MEMORY_SPACE_DESCRIPTOR) : Prop :=
  a.GcdMemoryType = b.GcdMemoryType ∧ (a.BaseAddress + a.Length) % U64 = b.BaseAddress

instance (a b : EFI_GCD_MEMORY_SPACE_DESCRIPTOR) : Decidable (Mergeable a b) := by
  unfold Mergeable; infer_instance

/-- The descriptor that stands for a run, in the words of the specification: the
fields of the run's first descriptor, with the 64-bit sum of the run's lengths. -/
def mergeRun (run : List EFI_GCD_MEMORY_SPACE_DESCRIPTOR) : Option EFI_GCD_MEMORY_SPACE_DESCRIPTOR :=
  match run with
  | [] => none
  | h :: _ => some { h with Length := (run.map (fun d => d.Length)).sum % U64 }

/-- A split of the input into maximal runs of mergeable neighbours, in the words of
the specification: the runs are not empty, their concatenation is the input,
neighbours inside a run are mergeable, and the last descriptor of a run is not
mergeable with the first descriptor of the next run. -/
def IsMaximalRuns (m : List EFI_GCD_MEMORY_SPACE_DESCRIPTOR)
    (runs : List (List EFI_GCD_MEMORY_SPACE_DESCRIPTOR)) : Prop :=
  m = runs.flatten ∧ (∀ r ∈ runs, r ≠ []) ∧ (∀ r ∈ runs, List.Chain' Mergeable r) ∧
  List.Chain' (fun r s => ∀ a ∈ r.getLast?, ∀ b ∈ s.head?, ¬ Mergeable a b) runs

/-! ## Filling the gaps of the memory map -/

/-- Unsigned 64-bit subtraction `a - b` of two `UINT64` values. -/
def sub64 (a b : Nat) : Nat := (a + U64 - b) % U64

/-- End of a memory-map entry as the code computes it:
`PhysicalStart + EfiPagesToSize (NumberOfPages)`, a 64-bit sum. -/
def entryEnd (e : EFI_MEMORY_DESCRIPTOR) : Nat :=
  (e.PhysicalStart + EfiPagesToSize e.NumberOfPages) % U64

/-- The macro `FILL_MEMORY_DESCRIPTOR_ENTRY (Entry, Start, Pages)`.  The sentinel
`NONE_EFI_MEMORY_TYPE` comes from `PagingAuditCommon.h`, which is not part of the
sources at hand, so it is an argument. -/
def FILL_MEMORY_DESCRIPTOR_ENTRY (NONE_EFI_MEMORY_TYPE Start Pages : Nat) :
    EFI_MEMORY_DESCRIPTOR :=
  { PhysicalStart := Start
    NumberOfPages := Pages
    Attribute := 0
    Type_ := NONE_EFI_MEMORY_TYPE
    VirtualStart := 0 }

/-- Main loop of `FillInMemoryMap`: `while (OldMemoryMapCurrent < OldMemoryMapEnd)`.
`i` is the slot of `OldMemoryMapCurrent`; `New` is the new buffer from
`NewMemoryMapStart` up to `NewMemoryMapCurrent`. -/
def fillLoop (NONE_EFI_MEMORY_TYPE : Nat) (Old : List EFI_MEMORY_DESCRIPTOR)
    (MemoryMapSize DescriptorSize : Nat) :
    Nat → Nat → List EFI_MEMORY_DESCRIPTOR → Option (List EFI_MEMORY_DESCRIPTOR)
  | 0, _, _ => none
  | fuel + 1, i, New =>
    if i * DescriptorSize < MemoryMapSize then
      match Old[i]? with
      | none => none
      | some cur =>
        if (i + 1) * DescriptorSize < MemoryMapSize then
          match Old[i + 1]? with
          | none => none
          | some nxt =>
            let LastEntryEnd := entryEnd cur
            let NextEntryStart := nxt.PhysicalStart
            if NextEntryStart ≠ LastEntryEnd then
              fillLoop NONE_EFI_MEMORY_TYPE Old MemoryMapSize DescriptorSize fuel (i + 1)
                (New ++ [cur, FILL_MEMORY_DESCRIPTOR_ENTRY NONE_EFI_MEMORY_TYPE LastEntryEnd
                  (EfiSizeToPages (sub64 NextEntryStart LastEntryEnd))])
            else
              fillLoop NONE_EFI_MEMORY_TYPE Old MemoryMapSize DescriptorSize fuel (i + 1)
                (New ++ [cur])
        else
          fillLoop NONE_EFI_MEMORY_TYPE Old MemoryMapSize DescriptorSize fuel (i + 1)
            (New ++ [cur])
    else some New

/-- `FillInMemoryMap (&MemoryMapSize, &MemoryMap, DescriptorSize, StartOfAddressSpace,
EndOfAddressSpace)`.  `MemoryMap = none` is a `NULL` buffer; `allocNew` and
`allocCopy` say whether `AllocatePool` and `AllocateCopyPool` succeed.  The result
is the status with the values left in `*MemoryMapSize` and `*MemoryMap`. -/
def FillInMemoryMap (NONE_EFI_MEMORY_TYPE : Nat) (allocNew allocCopy : Bool)
    (MemoryMapSize : Nat) (MemoryMap : Option (List EFI_MEMORY_DESCRIPTOR))
    (DescriptorSize StartOfAddressSpace EndOfAddressSpace : Nat) :
    Option (EFI_STATUS × Nat × Option (List EFI_MEMORY_DESCRIPTOR)) :=
  match MemoryMap with
  | none => some (EFI_STATUS.EFI_INVALID_PARAMETER, MemoryMapSize, none)
  | some Old =>
    if MemoryMapSize = 0 ∨ DescriptorSize = 0 then
      some (EFI_STATUS.EFI_INVALID_PARAMETER, MemoryMapSize, some Old)
    else if allocNew = false then
      some (EFI_STATUS.EFI_OUT_OF_RESOURCES, MemoryMapSize, some Old)
    else
      match Old[0]? with
      | none => none
      | some first =>
        let New0 :=
          if first.PhysicalStart > StartOfAddressSpace then
            [FILL_MEMORY_DESCRIPTOR_ENTRY NONE_EFI_MEMORY_TYPE StartOfAddressSpace
              (EfiSizeToPages (first.PhysicalStart - StartOfAddressSpace))]
          else []
        match fillLoop NONE_EFI_MEMORY_TYPE Old MemoryMapSize DescriptorSize
            (MemoryMapSize + 1) 0 New0 with
        | none => none
        | some New1 =>
          match New1.getLast? with
          | none => none
          | some prev =>
            let LastEntryEnd := entryEnd prev
            let New2 :=
              if EndOfAddressSpace > LastEntryEnd then
                New1 ++ [FILL_MEMORY_DESCRIPTOR_ENTRY NONE_EFI_MEMORY_TYPE LastEntryEnd
                  (EfiSizeToPages (EndOfAddressSpace - LastEntryEnd))]
              else New1
            if allocCopy = false then
              some (EFI_STATUS.EFI_OUT_OF_RESOURCES, MemoryMapSize, some Old)
            else
              some (EFI_STATUS.EFI_SUCCESS, New2.length * DescriptorSize, some New2)

/-- The new buffer that the main loop of `FillInMemoryMap` writes for the old
entries `l`, as a recursion on the list: each entry, followed by a synthetic
entry when the next entry does not start at its end. -/
def fillBetween (NONE_EFI_MEMORY_TYPE : Nat) :
    List EFI_MEMORY_DESCRIPTOR → List EFI_MEMORY_DESCRIPTOR
  | [] => []
  | [a] => [a]
  | a :: b :: t =>
    if b.PhysicalStart ≠ entryEnd a then
      a :: FILL_MEMORY_DESCRIPTOR_ENTRY NONE_EFI_MEMORY_TYPE (entryEnd a)
          (EfiSizeToPages (sub64 b.PhysicalStart (entryEnd a)))
        :: fillBetween NONE_EFI_MEMORY_TYPE (b :: t)
    else a :: fillBetween NONE_EFI_MEMORY_TYPE (b :: t)

/-- The synthetic entry that `FillInMemoryMap` writes before the first old entry,
if any. -/
def fillLead (NONE_EFI_MEMORY_TYPE : Nat) (first : EFI_MEMORY_DESCRIPTOR)
    (StartOfAddressSpace : Nat) : List EFI_MEMORY_DESCRIPTOR :=
  if first.PhysicalStart > StartOfAddressSpace then
    [FILL_MEMORY_DESCRIPTOR_ENTRY NONE_EFI_MEMORY_TYPE StartOfAddressSpace
      (EfiSizeToPages (first.PhysicalStart - StartOfAddressSpace))]
  else []

/-- The synthetic entry that `FillInMemoryMap` writes after the last old entry, if
any. -/
def fillTrail (NONE_EFI_MEMORY_TYPE : Nat) (prev : EFI_MEMORY_DESCRIPTOR)
    (EndOfAddressSpace : Nat) : List EFI_MEMORY_DESCRIPTOR :=
  if EndOfAddressSpace > entryEnd prev then
    [FILL_MEMORY_DESCRIPTOR_ENTRY NONE_EFI_MEMORY_TYPE (entryEnd prev)
      (EfiSizeToPages (EndOfAddressSpace - entryEnd prev))]
  else []

/-! ## Overlay of the memory space map -/

/-- Scan of `GetOverlappingMemorySpaceRegion`:
`for (Index = 0; Index < NumberOfDescriptors; Index++)`.  The result is the
returned page count with the value stored in `*Type`.  The `ASSERT`s of the C
code are checks of a debug build and are not part of the result. -/
def overlapLoop (MemorySpaceMap : List EFI_GCD_MEMORY_SPACE_DESCRIPTOR)
    (NumberOfDescriptors PhysicalStart PhysicalEnd : Nat) :
    Nat → Nat → Option (Nat × EFI_GCD_MEMORY_TYPE)
  | 0, _ => none
  | fuel + 1, Index =>
    if Index < NumberOfDescriptors then
      match MemorySpaceMap[Index]? with
      | none => none
      | some d =>
        let MapEntryStart := d.BaseAddress
        let MapEntryEnd := (d.BaseAddress + d.Length) % U64
        if MapEntryStart ≤ PhysicalStart ∧ MapEntryEnd > PhysicalStart then
          if MapEntryEnd ≥ PhysicalEnd then some (0, d.GcdMemoryType)
          else some (EfiSizeToPages (PhysicalEnd - MapEntryEnd), d.GcdMemoryType)
        else
          overlapLoop MemorySpaceMap NumberOfDescriptors PhysicalStart PhysicalEnd fuel
            (Index + 1)
    else some (0, EFI_GCD_MEMORY_TYPE.EfiGcdMemoryTypeNonExistent)

/-- `GetOverlappingMemorySpaceRegion (MemorySpaceMap, NumberOfDescriptors,
PhysicalStart, NumberOfPages, &Type)`.  `Type_` is the value of `*Type` before the
call; the result is the returned page count with the value of `*Type` after it. -/
def GetOverlappingMemorySpaceRegion
    (MemorySpaceMap : Option (List EFI_GCD_MEMORY_SPACE_DESCRIPTOR))
    (NumberOfDescriptors PhysicalStart NumberOfPages : Nat) (Type_ : EFI_GCD_MEMORY_TYPE) :
    Option (Nat × EFI_GCD_MEMORY_TYPE) :=
  match MemorySpaceMap with
  | none => some (0, Type_)
  | some m =>
    if NumberOfPages = 0 ∨ NumberOfDescriptors = 0 then some (0, Type_)
    else
      overlapLoop m NumberOfDescriptors PhysicalStart
        ((PhysicalStart + EfiPagesToSize NumberOfPages) % U64) (NumberOfDescriptors + 1) 0

/-- End of a space-map descriptor as the code computes it:
`BaseAddress + Length`, a 64-bit sum (`MapEntryEnd`). -/
def spaceEnd (d : EFI_GCD_MEMORY_SPACE_DESCRIPTOR) : Nat :=
  (d.BaseAddress + d.Length) % U64

/-- The descriptor contains the address: `BaseAddress <= p < BaseAddress + Length`. -/
def Covers (d : EFI_GCD_MEMORY_SPACE_DESCRIPTOR) (p : Nat) : Prop :=
  d.BaseAddress ≤ p ∧ p < spaceEnd d

instance (d : EFI_GCD_MEMORY_SPACE_DESCRIPTOR) (p : Nat) : Decidable (Covers d p) := by
  unfold Covers; infer_instance

/-- End of a query of `NumberOfPages` pages at `PhysicalStart`:
`PhysicalStart + NumberOfPages * 4096`, a 64-bit sum (`PhysicalEnd`). -/
def queryEnd (PhysicalStart NumberOfPages : Nat) : Nat :=
  (PhysicalStart + NumberOfPages * 4096) % 2 ^ 64

/-! ## The reconciliation loop -/

/-- The values that one `"MemoryMap,..."` line of `MemoryMapDumpHandler` prints:
the arguments of `AsciiSPrint`, in their order. -/
structure MemoryMapRecord where
  Type_ : Nat
  PhysicalStart : Nat
  VirtualStart : Nat
  NumberOfPages : Nat
  Attribute : Nat
  MemorySpaceType : EFI_GCD_MEMORY_TYPE
  deriving DecidableEq, Repr

/-- The `while (EfiMemNext < EfiMemoryMapEnd)` loop of `MemoryMapDumpHandler`.
`i` is the slot of `EfiMemNext`, `mm` the memory map (changed in place when an
entry is split), `ty` the variable `MemorySpaceType`, `out` the lines printed so
far.  Every subtraction and sum is 64-bit. -/
def dumpLoop (MemorySpaceMap : Option (List EFI_GCD_MEMORY_SPACE_DESCRIPTOR))
    (NumberOfDescriptors EfiMemoryMapSize EfiDescriptorSize : Nat) :
    Nat → Nat → List EFI_MEMORY_DESCRIPTOR → EFI_GCD_MEMORY_TYPE → List MemoryMapRecord →
      Option (List MemoryMapRecord)
  | 0, _, _, _, _ => none
  | fuel + 1, i, mm, ty, out =>
    if i * EfiDescriptorSize < EfiMemoryMapSize then
      match mm[i]? with
      | none => none
      | some e =>
        match GetOverlappingMemorySpaceRegion MemorySpaceMap NumberOfDescriptors
            e.PhysicalStart e.NumberOfPages ty with
        | none => none
        | some (RemainingPages, ty1) =>
          let line : MemoryMapRecord :=
            { Type_ := e.Type_
              PhysicalStart := e.PhysicalStart
              VirtualStart := e.VirtualStart
              NumberOfPages := sub64 e.NumberOfPages RemainingPages
              Attribute := e.Attribute
              MemorySpaceType := ty1 }
          if RemainingPages > 0 then
            let PhysicalStart1 :=
              (e.PhysicalStart + EfiPagesToSize (sub64 e.NumberOfPages RemainingPages)) % U64
            let NumberOfPages1 := RemainingPages
            let VirtualStart1 :=
              if e.VirtualStart > 0 then
                (e.VirtualStart + EfiPagesToSize (sub64 NumberOfPages1 RemainingPages)) % U64
              else e.VirtualStart
            dumpLoop MemorySpaceMap NumberOfDescriptors EfiMemoryMapSize EfiDescriptorSize fuel i
              (mm.set i { e with PhysicalStart := PhysicalStart1
                                 NumberOfPages := NumberOfPages1
                                 VirtualStart := VirtualStart1 })
              ty1 (out ++ [line])
          else
            dumpLoop MemorySpaceMap NumberOfDescriptors EfiMemoryMapSize EfiDescriptorSize fuel
              (i + 1) mm ty1 (out ++ [line])
    else some out

/-- The part of `MemoryMapDumpHandler` after both maps have been fetched: sort and
merge the space map, sort and fill the memory map, run the reconciliation loop.
`sizeofGcd` is `sizeof (EFI_GCD_MEMORY_SPACE_DESCRIPTOR)`; the four flags say
whether the allocations of `MergeMemorySpaceMap` and `FillInMemoryMap` succeed;
`ty` is the initial content of `MemorySpaceType`.  A failing merge or fill is
only logged, the handler goes on with what the call left behind. -/
def MemoryMapDumpHandler (fuel NONE_EFI_MEMORY_TYPE sizeofGcd : Nat)
    (allocMergeNew allocMergeCopy allocFillNew allocFillCopy : Bool)
    (EfiMemoryMap : List EFI_MEMORY_DESCRIPTOR) (EfiMemoryMapSize EfiDescriptorSize : Nat)
    (NumberOfDescriptors : Nat) (MemorySpaceMap : List EFI_GCD_MEMORY_SPACE_DESCRIPTOR)
    (ty : EFI_GCD_MEMORY_TYPE) : Option (List MemoryMapRecord) :=
  match SortMemorySpaceMap MemorySpaceMap NumberOfDescriptors sizeofGcd with
  | none => none
  | some sorted =>
    match MergeMemorySpaceMap allocMergeNew allocMergeCopy NumberOfDescriptors (some sorted) with
    | none => none
    | some (_, NumberOfDescriptors1, MemorySpaceMap1) =>
      match SortMemoryMap EfiMemoryMap EfiMemoryMapSize EfiDescriptorSize with
      | none => none
      | some sortedMap =>
        match MemorySpaceMap1 with
        | none => none
        | some space =>
          match space[0]?, space[NumberOfDescriptors1 - 1]? with
          | some firstD, some lastD =>
            match FillInMemoryMap NONE_EFI_MEMORY_TYPE allocFillNew allocFillCopy
                EfiMemoryMapSize (some sortedMap) EfiDescriptorSize firstD.BaseAddress
                ((lastD.BaseAddress + lastD.Length) % U64) with
            | none => none
            | some (_, EfiMemoryMapSize1, EfiMemoryMap1) =>
              match EfiMemoryMap1 with
              | none => none
              | some filled =>
                dumpLoop (some space) NumberOfDescriptors1 EfiMemoryMapSize1 EfiDescriptorSize
                  fuel 0 filled ty []
          | _, _ => none

/-- The record that the reconciliation loop prints for entry `e` when the lookup
returned `RemainingPages` and stored `ty1`. -/
def dumpLine (e : EFI_MEMORY_DESCRIPTOR) (RemainingPages : Nat) (ty1 : EFI_GCD_MEMORY_TYPE) :
    MemoryMapRecord :=
  { Type_ := e.Type_
    PhysicalStart := e.PhysicalStart
    VirtualStart := e.VirtualStart
    NumberOfPages := sub64 e.NumberOfPages RemainingPages
    Attribute := e.Attribute
    MemorySpaceType := ty1 }

/-- The entry as the reconciliation loop leaves it after a split: the trailing
`RemainingPages` pages. -/
def dumpShrink (e : EFI_MEMORY_DESCRIPTOR) (RemainingPages : Nat) : EFI_MEMORY_DESCRIPTOR :=
  { e with
    PhysicalStart :=
      (e.PhysicalStart + EfiPagesToSize (sub64 e.NumberOfPages RemainingPages)) % U64
    NumberOfPages := RemainingPages
    VirtualStart :=
      if e.VirtualStart > 0 then
        (e.VirtualStart + EfiPagesToSize (sub64 RemainingPages RemainingPages)) % U64
      else e.VirtualStart }

/-- The records tile the range of `n` pages at `q`: the first record starts at `q`,
each next record starts where the one before it ends (64-bit sum), and the page
counts add up to `n`. -/
def Tiles (q n : Nat) (rs : List MemoryMapRecord) : Prop :=
  rs.head?.map (fun r => r.PhysicalStart) = some q ∧
  List.Chain' (fun a b => (a.PhysicalStart + a.NumberOfPages * 4096) % 2 ^ 64 = b.PhysicalStart) rs ∧
  (rs.map (fun r => r.NumberOfPages)).sum = n

/-- The same tiling without modular arithmetic: the first record starts at `q`,
each next record starts exactly at the end of the one before it, and the last
record ends exactly at `q + n * 4096`; so the records cover the range without
gaps and without overlaps. -/
def TilesExact (q n : Nat) (rs : List MemoryMapRecord) : Prop :=
  rs.head?.map (fun r => r.PhysicalStart) = some q ∧
  List.Chain' (fun a b => a.PhysicalStart + a.NumberOfPages * 4096 = b.PhysicalStart) rs ∧
  rs.getLast?.map (fun r => r.PhysicalStart + r.NumberOfPages * 4096) = some (q + n * 4096)

/-- What is known of one record printed for the range of `n` pages at `q`: it lies
inside the range, and it is empty, or it lies inside a descriptor that contains its
start and has its classification, or no descriptor contains its start and its
classification is `EfiGcdMemoryTypeNonExistent`. -/
def RecordInside (g : List EFI_GCD_MEMORY_SPACE_DESCRIPTOR) (q n : Nat) (r : MemoryMapRecord) :
    Prop :=
  q ≤ r.PhysicalStart ∧ r.PhysicalStart + r.NumberOfPages * 4096 ≤ q + n * 4096 ∧
  (r.NumberOfPages = 0 ∨
    (∃ d ∈ g, Covers d r.PhysicalStart ∧ r.MemorySpaceType = d.GcdMemoryType ∧
      r.PhysicalStart + r.NumberOfPages * 4096 ≤ spaceEnd d) ∨
    ((∀ d ∈ g, ¬ Covers d r.PhysicalStart) ∧
      r.MemorySpaceType = EFI_GCD_MEMORY_TYPE.EfiGcdMemoryTypeNonExistent))

/-- The address is a multiple of the page size. -/
def PageAligned (a : Nat) : Prop := a % EFI_PAGE_SIZE = 0

instance (a : Nat) : Decidable (PageAligned a) := by
  unfold PageAligned; infer_instance

/-- Entry `b` starts at the end of entry `a`:
`a.PhysicalStart + a.NumberOfPages * 4096 = b.PhysicalStart`, an exact sum. -/
def Contiguous (a b : EFI_MEMORY_DESCRIPTOR) : Prop :=
  a.PhysicalStart + a.NumberOfPages * 4096 = b.PhysicalStart

instance (a b : EFI_MEMORY_DESCRIPTOR) : Decidable (Contiguous a b) :=
  inferInstanceAs (Decidable (a.PhysicalStart + a.NumberOfPages * 4096 = b.PhysicalStart))

/-- Entry `a` ends at or below the start of entry `b`: the two are in ascending
order and do not overlap. -/
def NoOverlap (a b : EFI_MEMORY_DESCRIPTOR) : Prop :=
  a.PhysicalStart + a.NumberOfPages * 4096 ≤ b.PhysicalStart

instance (a b : EFI_MEMORY_DESCRIPTOR) : Decidable (NoOverlap a b) :=
  inferInstanceAs (Decidable (a.PhysicalStart + a.NumberOfPages * 4096 ≤ b.PhysicalStart))

/-! ## The page-table walker -/

/-- A page-table entry as the walker reads it.  `Present` and `MustBe1` are the
bits of that name (the same bits in every entry type); `PageTableBaseAddress` is
the frame field read through `PAGE_MAP_AND_DIRECTORY_POINTER`, a bit-field of 40
bits; `Uint64` is the raw entry.  The entry types come from a header that is not
part of the sources at hand, so the fields stand for what the walker reads. -/
structure PAGE_TABLE_ENTRY where
  Present : Bool
  MustBe1 : Bool
  PageTableBaseAddress : Nat
  Uint64 : Nat
  deriving DecidableEq, Repr, Inhabited

/-- What the walker reads from the machine: `Cr3` is the value of `AsmReadCr3 ()`;
`Table a i` is entry `i` of the table at physical address `a`; `IsGuardPage` is
`mMemoryProtectionProtocol->IsGuardPage`, `none` when the protocol pointer is
`NULL`; `IndexToAddress` is the helper of that name, which is not part of the
sources at hand. -/
structure PageTableView where
  Cr3 : Nat
  Table : Nat → Nat → PAGE_TABLE_ENTRY
  IsGuardPage : Option (Nat → Bool)
  IndexToAddress : Nat → Nat → Nat → Nat → Nat

/-- The values of `*Pte1GCount`, ..., `*GuardCount`. -/
structure FlatCounts where
  Pte1GCount : Nat
  Pte2MCount : Nat
  Pte4KCount : Nat
  PdeCount : Nat
  GuardCount : Nat
  deriving DecidableEq, Repr

/-- The local counters of `GetFlatPageTableData` with the stores made so far to
each output buffer, as pairs (index, value) in the order of the stores.  The
`NumPage..NotPresent` counters only feed `DEBUG` messages and are left out; the
counters are `UINTN` and stay below `2^37`, so they are not reduced modulo
`2^64`. -/
structure WalkState where
  MyGuardCount : Nat
  MyPdeCount : Nat
  My4KCount : Nat
  My2MCount : Nat
  My1GCount : Nat
  Pte1GEntries : List (Nat × PAGE_TABLE_ENTRY)
  Pte2MEntries : List (Nat × PAGE_TABLE_ENTRY)
  Pte4KEntries : List (Nat × PAGE_TABLE_ENTRY)
  PdeEntries : List (Nat × Nat)
  GuardEntries : List (Nat × Nat)
  deriving DecidableEq, Repr

/-- `MyPdeCount++; if (MyPdeCount <= *PdeCount) PdeEntries[MyPdeCount-1] = Table;` -/
def addPde (c : FlatCounts) (st : WalkState) (Table : Nat) : WalkState :=
  let n := st.MyPdeCount + 1
  { st with
    MyPdeCount := n
    PdeEntries := if n ≤ c.PdeCount then st.PdeEntries ++ [(n - 1, Table)] else st.PdeEntries }

/-- `My1GCount++; if (My1GCount <= *Pte1GCount) Pte1GEntries[My1GCount-1] = Entry;` -/
def add1G (c : FlatCounts) (st : WalkState) (Entry : PAGE_TABLE_ENTRY) : WalkState :=
  let n := st.My1GCount + 1
  { st with
    My1GCount := n
    Pte1GEntries :=
      if n ≤ c.Pte1GCount then st.Pte1GEntries ++ [(n - 1, Entry)] else st.Pte1GEntries }

/-- `My2MCount++; if (My2MCount <= *Pte2MCount) Pte2MEntries[My2MCount-1] = Entry;` -/
def add2M (c : FlatCounts) (st : WalkState) (Entry : PAGE_TABLE_ENTRY) : WalkState :=
  let n := st.My2MCount + 1
  { st with
    My2MCount := n
    Pte2MEntries :=
      if n ≤ c.Pte2MCount then st.Pte2MEntries ++ [(n - 1, Entry)] else st.Pte2MEntries }

/-- `My4KCount++; if (My4KCount <= *Pte4KCount) Pte4KEntries[My4KCount-1] = Entry;` -/
def add4K (c : FlatCounts) (st : WalkState) (Entry : PAGE_TABLE_ENTRY) : WalkState :=
  let n := st.My4KCount + 1
  { st with
    My4KCount := n
    Pte4KEntries :=
      if n ≤ c.Pte4KCount then st.Pte4KEntries ++ [(n - 1, Entry)] else st.Pte4KEntries }

/-- `MyGuardCount++; if (MyGuardCount <= *GuardCount) GuardEntries[MyGuardCount-1] = Address;` -/
def addGuard (c : FlatCounts) (st : WalkState) (Address : Nat) : WalkState :=
  let n := st.MyGuardCount + 1
  { st with
    MyGuardCount := n
    GuardEntries :=
      if n ≤ c.GuardCount then st.GuardEntries ++ [(n - 1, Address)] else st.GuardEntries }

/-- `(mMemoryProtectionProtocol != NULL) && (mMemoryProtectionProtocol->IsGuardPage (Address))`. -/
def guardHit (v : PageTableView) (Address : Nat) : Bool :=
  match v.IsGuardPage with
  | none => false
  | some f => f Address

/-- Body of the `Index1` loop over the table `Pte4K`: a slot that is not present
and is a guard page is recorded as a guard page and skipped (`continue`); every
other slot, present or not, runs into the 4K count below the `if`. -/
def walkBody1 (v : PageTableView) (c : FlatCounts) (Index4 Index3 Index2 Pte4K : Nat)
    (st : WalkState) (Index1 : Nat) : WalkState :=
  if (v.Table Pte4K Index1).Present = false then
    let Address := v.IndexToAddress Index4 Index3 Index2 Index1
    if guardHit v Address = true then addGuard c st Address
    else add4K c st (v.Table Pte4K Index1)
  else add4K c st (v.Table Pte4K Index1)

/-- Body of the `Index2` loop over the table `Pte2M`.  `Bits.PageTableBaseAddress`
is a bit-field of 40 bits and the shift `<< 12` is carried out in those 40 bits,
so the table address is the shifted frame modulo `2^40`; the same holds in the
`Index3` and `Index4` loops. -/
def walkBody2 (v : PageTableView) (c : FlatCounts) (Index4 Index3 Pte2M : Nat)
    (st : WalkState) (Index2 : Nat) : WalkState :=
  if (v.Table Pte2M Index2).Present = false then st
  else if (v.Table Pte2M Index2).MustBe1 = false then
    let Pte4K := ((v.Table Pte2M Index2).PageTableBaseAddress <<< 12) % 2 ^ 40
    (List.range 0x200).foldl (walkBody1 v c Index4 Index3 Index2 Pte4K) (addPde c st Pte4K)
  else add2M c st (v.Table Pte2M Index2)

/-- Body of the `Index3` loop over the table `Pte1G`. -/
def walkBody3 (v : PageTableView) (c : FlatCounts) (Index4 Pte1G : Nat)
    (st : WalkState) (Index3 : Nat) : WalkState :=
  if (v.Table Pte1G Index3).Present = false then st
  else if (v.Table Pte1G Index3).MustBe1 = false then
    let Pte2M := ((v.Table Pte1G Index3).PageTableBaseAddress <<< 12) % 2 ^ 40
    (List.range 0x200).foldl (walkBody2 v c Index4 Index3 Pte2M) (addPde c st Pte2M)
  else add1G c st (v.Table Pte1G Index3)

/-- Body of the `Index4` loop over the table `Pml4`. -/
def walkBody4 (v : PageTableView) (c : FlatCounts) (Pml4 : Nat)
    (st : WalkState) (Index4 : Nat) : WalkState :=
  if (v.Table Pml4 Index4).Present = false then st
  else
    let Pte1G := ((v.Table Pml4 Index4).PageTableBaseAddress <<< 12) % 2 ^ 40
    (List.range 0x200).foldl (walkBody3 v c Index4 Pte1G) (addPde c st Pte1G)

/-- The walk of `GetFlatPageTableData`, from reading `Cr3` to the end of the
`Index4` loop; `c` holds the capacities, the values of the count arguments at
entry. -/
def walkTables (v : PageTableView) (c : FlatCounts) : WalkState :=
  (List.range 0x200).foldl (walkBody4 v c v.Cr3)
    (addPde c ⟨0, 0, 0, 0, 0, [], [], [], [], []⟩ v.Cr3)

/-- Which output buffers are present (not `NULL`). -/
structure FlatBuffers where
  Pte1GEntries : Bool
  Pte2MEntries : Bool
  Pte4KEntries : Bool
  PdeEntries : Bool
  GuardEntries : Bool
  deriving DecidableEq, Repr

/-- What a call of `GetFlatPageTableData` leaves behind: the status, the values of
the five counts, and the stores made to the five buffers. -/
structure FlatResult where
  Status : EFI_STATUS
  Counts : FlatCounts
  Pte1GEntries : List (Nat × PAGE_TABLE_ENTRY)
  Pte2MEntries : List (Nat × PAGE_TABLE_ENTRY)
  Pte4KEntries : List (Nat × PAGE_TABLE_ENTRY)
  PdeEntries : List (Nat × Nat)
  GuardEntries : List (Nat × Nat)
  deriving DecidableEq, Repr

/-- `GetFlatPageTableData` after its first check, that is with five count pointers
that are not `NULL`: `c` holds the counts at entry, `b` says which buffers are
present. -/
def GetFlatPageTableDataCounts (v : PageTableView) (c : FlatCounts) (b : FlatBuffers) :
    FlatResult :=
  if (c.Pte1GCount > 0 ∧ b.Pte1GEntries = false) ∨ (c.Pte2MCount > 0 ∧ b.Pte2MEntries = false) ∨
      (c.Pte4KCount > 0 ∧ b.Pte4KEntries = false) ∨ (c.PdeCount > 0 ∧ b.PdeEntries = false) ∨
      (c.GuardCount > 0 ∧ b.GuardEntries = false) then
    ⟨EFI_STATUS.EFI_INVALID_PARAMETER, c, [], [], [], [], []⟩
  else
    let st := walkTables v c
    let Status :=
      if (b.Pte1GEntries = true ∧ c.Pte1GCount < st.My1GCount) ∨
          (b.Pte2MEntries = true ∧ c.Pte2MCount < st.My2MCount) ∨
          (b.Pte4KEntries = true ∧ c.Pte4KCount < st.My4KCount) ∨
          (b.PdeEntries = true ∧ c.PdeCount < st.MyPdeCount) ∨
          (b.GuardEntries = true ∧ c.GuardCount < st.MyGuardCount) then
        EFI_STATUS.EFI_BUFFER_TOO_SMALL
      else EFI_STATUS.EFI_SUCCESS
    ⟨Status, ⟨st.My1GCount, st.My2MCount, st.My4KCount, st.MyPdeCount, st.MyGuardCount⟩,
      st.Pte1GEntries, st.Pte2MEntries, st.Pte4KEntries, st.PdeEntries, st.GuardEntries⟩

/-- What `GetFlatPageTableData` leaves behind when a count pointer may be `NULL`:
the status, the five counts (`none` for a `NULL` pointer), and the stores. -/
structure FlatCallResult where
  Status : EFI_STATUS
  Pte1GCount : Option Nat
  Pte2MCount : Option Nat
  Pte4KCount : Option Nat
  PdeCount : Option Nat
  GuardCount : Option Nat
  Pte1GEntries : List (Nat × PAGE_TABLE_ENTRY)
  Pte2MEntries : List (Nat × PAGE_TABLE_ENTRY)
  Pte4KEntries : List (Nat × PAGE_TABLE_ENTRY)
  PdeEntries : List (Nat × Nat)
  GuardEntries : List (Nat × Nat)
  deriving DecidableEq, Repr

/-- `GetFlatPageTableData (Pte1GCount, ..., GuardCount, Pte1GEntries, ..., GuardEntries)`.
A count argument is `none` for a `NULL` pointer and `some n` for a pointer to the
value `n`. -/
def GetFlatPageTableData (v : PageTableView)
    (Pte1GCount Pte2MCount Pte4KCount PdeCount GuardCount : Option Nat) (b : FlatBuffers) :
    FlatCallResult :=
  match Pte1GCount, Pte2MCount, Pte4KCount, PdeCount, GuardCount with
  | some n1, some n2, some n3, some n4, some n5 =>
    let r := GetFlatPageTableDataCounts v ⟨n1, n2, n3, n4, n5⟩ b
    ⟨r.Status, some r.Counts.Pte1GCount, some r.Counts.Pte2MCount, some r.Counts.Pte4KCount,
      some r.Counts.PdeCount, some r.Counts.GuardCount,
      r.Pte1GEntries, r.Pte2MEntries, r.Pte4KEntries, r.PdeEntries, r.GuardEntries⟩
  | _, _, _, _, _ =>
    ⟨EFI_STATUS.EFI_INVALID_PARAMETER, Pte1GCount, Pte2MCount, Pte4KCount, PdeCount, GuardCount,
      [], [], [], [], []⟩

/-! ## The walk as a list of events -/

/-- Physical address of the table an entry points to, as the walker computes it:
`Bits.PageTableBaseAddress << 12`, a shift of the 40-bit bit-field carried out in
40 bits, that is modulo `2^40`. -/
def tableOf (e : PAGE_TABLE_ENTRY) : Nat := (e.PageTableBaseAddress <<< 12) % 2 ^ 40

/-- One occurrence that the walker counts. -/
inductive WalkEvent where
  | pde (Table : Nat)
  | leaf1G (Entry : PAGE_TABLE_ENTRY)
  | leaf2M (Entry : PAGE_TABLE_ENTRY)
  | leaf4K (Entry : PAGE_TABLE_ENTRY)
  | guard (Address : Nat)
  deriving DecidableEq, Repr

/-- The count-and-store step that belongs to an event. -/
def applyEvent (c : FlatCounts) (st : WalkState) : WalkEvent → WalkState
  | .pde t => addPde c st t
  | .leaf1G e => add1G c st e
  | .leaf2M e => add2M c st e
  | .leaf4K e => add4K c st e
  | .guard a => addGuard c st a

/-- The event of slot `Index1` of a level-1 table. -/
def slotEvent (v : PageTableView) (Index4 Index3 Index2 Pte4K Index1 : Nat) : WalkEvent :=
  if (v.Table Pte4K Index1).Present = false ∧
      guardHit v (v.IndexToAddress Index4 Index3 Index2 Index1) = true then
    .guard (v.IndexToAddress Index4 Index3 Index2 Index1)
  else .leaf4K (v.Table Pte4K Index1)

/-- Events of a level-1 table, in the order of the walk. -/
def events1 (v : PageTableView) (Index4 Index3 Index2 Pte4K : Nat) : List WalkEvent :=
  (List.range 0x200).map (slotEvent v Index4 Index3 Index2 Pte4K)

/-- Events of slot `Index2` of a level-2 table. -/
def slotEvents2 (v : PageTableView) (Index4 Index3 Pte2M Index2 : Nat) : List WalkEvent :=
  if (v.Table Pte2M Index2).Present = false then []
  else if (v.Table Pte2M Index2).MustBe1 = false then
    .pde (tableOf (v.Table Pte2M Index2)) ::
      events1 v Index4 Index3 Index2 (tableOf (v.Table Pte2M Index2))
  else [.leaf2M (v.Table Pte2M Index2)]

/-- Events of a level-2 table, in the order of the walk. -/
def events2 (v : PageTableView) (Index4 Index3 Pte2M : Nat) : List WalkEvent :=
  (List.range 0x200).flatMap (slotEvents2 v Index4 Index3 Pte2M)

/-- Events of slot `Index3` of a level-3 table. -/
def slotEvents3 (v : PageTableView) (Index4 Pte1G Index3 : Nat) : List WalkEvent :=
  if (v.Table Pte1G Index3).Present = false then []
  else if (v.Table Pte1G Index3).MustBe1 = false then
    .pde (tableOf (v.Table Pte1G Index3)) ::
      events2 v Index4 Index3 (tableOf (v.Table Pte1G Index3))
  else [.leaf1G (v.Table Pte1G Index3)]

/-- Events of a level-3 table, in the order of the walk. -/
def events3 (v : PageTableView) (Index4 Pte1G : Nat) : List WalkEvent :=
  (List.range 0x200).flatMap (slotEvents3 v Index4 Pte1G)

/-- Events of slot `Index4` of the level-4 table. -/
def slotEvents4 (v : PageTableView) (Pml4 Index4 : Nat) : List WalkEvent :=
  if (v.Table Pml4 Index4).Present = false then []
  else .pde (tableOf (v.Table Pml4 Index4)) :: events3 v Index4 (tableOf (v.Table Pml4 Index4))

/-- All events of a walk, in its order: the root table, then the slots of the
level-4 table. -/
def walkEvents (v : PageTableView) : List WalkEvent :=
  .pde v.Cr3 :: (List.range 0x200).flatMap (slotEvents4 v v.Cr3)

/-- The directory-table addresses among the events. -/
def pdeOf : WalkEvent → Option Nat
  | .pde t => some t
  | _ => none

/-- The 1G leaves among the events. -/
def leaf1GOf : WalkEvent → Option PAGE_TABLE_ENTRY
  | .leaf1G e => some e
  | _ => none

/-- The 2M leaves among the events. -/
def leaf2MOf : WalkEvent → Option PAGE_TABLE_ENTRY
  | .leaf2M e => some e
  | _ => none

/-- The 4K records among the events. -/
def leaf4KOf : WalkEvent → Option PAGE_TABLE_ENTRY
  | .leaf4K e => some e
  | _ => none

/-- The guard-page addresses among the events. -/
def guardOf : WalkEvent → Option Nat
  | .guard a => some a
  | _ => none

/-- The records of each category that a walk meets, in the order of the walk: the
true totals are the lengths of these lists. -/
def records1G (v : PageTableView) : List PAGE_TABLE_ENTRY := (walkEvents v).filterMap leaf1GOf

/-- The 2M records of a walk, in its order. -/
def records2M (v : PageTableView) : List PAGE_TABLE_ENTRY := (walkEvents v).filterMap leaf2MOf

/-- The 4K records of a walk, in its order. -/
def records4K (v : PageTableView) : List PAGE_TABLE_ENTRY := (walkEvents v).filterMap leaf4KOf

/-- The directory-table records of a walk, in its order. -/
def recordsPde (v : PageTableView) : List Nat := (walkEvents v).filterMap pdeOf

/-- The guard-page records of a walk, in its order. -/
def recordsGuard (v : PageTableView) : List Nat := (walkEvents v).filterMap guardOf

/-- The stores that fill a buffer of capacity `cap` with the records `l`: record
number `k` (from 1) goes to index `k - 1` as long as `k <= cap`. -/
def storesOf {α : Type} (cap : Nat) (l : List α) : List (Nat × α) := (l.take cap).enum

/-- The walker state that a list of events leads to from the initial state: each
counter is the number of events of its category, each buffer has received the
stores that its capacity allows. -/
def stateOf (c : FlatCounts) (evs : List WalkEvent) : WalkState :=
  { MyGuardCount := (evs.filterMap guardOf).length
    MyPdeCount := (evs.filterMap pdeOf).length
    My4KCount := (evs.filterMap leaf4KOf).length
    My2MCount := (evs.filterMap leaf2MOf).length
    My1GCount := (evs.filterMap leaf1GOf).length
    Pte1GEntries := storesOf c.Pte1GCount (evs.filterMap leaf1GOf)
    Pte2MEntries := storesOf c.Pte2MCount (evs.filterMap leaf2MOf)
    Pte4KEntries := storesOf c.Pte4KCount (evs.filterMap leaf4KOf)
    PdeEntries := storesOf c.PdeCount (evs.filterMap pdeOf)
    GuardEntries := storesOf c.GuardCount (evs.filterMap guardOf) }

/-! ## What the walk visits, level by level -/

/-- Collect `f Index4 Pte1G` over the present entries of the level-4 table, in
ascending index order; `Pte1G` is the level-3 table the entry points to. -/
def under4 {α : Type} (v : PageTableView) (f : Nat → Nat → List α) : List α :=
  (List.range 0x200).flatMap fun Index4 =>
    if (v.Table v.Cr3 Index4).Present = false then []
    else f Index4 (tableOf (v.Table v.Cr3 Index4))

/-- Collect `f Index4 Index3 Pte2M` over the level-3 entries that are present
without the terminal flag, under a present level-4 entry, in the order of the
walk; `Pte2M` is the level-2 table the entry points to. -/
def under3 {α : Type} (v : PageTableView) (f : Nat → Nat → Nat → List α) : List α :=
  under4 v fun Index4 Pte1G =>
    (List.range 0x200).flatMap fun Index3 =>
      if (v.Table Pte1G Index3).Present = false ∨ (v.Table Pte1G Index3).MustBe1 = true then []
      else f Index4 Index3 (tableOf (v.Table Pte1G Index3))

/-- Collect `f Index4 Index3 Index2 Pte4K` over the level-2 entries that are
present without the terminal flag and are reached by the walk, in its order;
`Pte4K` is the level-1 table the entry points to. -/
def under2 {α : Type} (v : PageTableView) (f : Nat → Nat → Nat → Nat → List α) : List α :=
  under3 v fun Index4 Index3 Pte2M =>
    (List.range 0x200).flatMap fun Index2 =>
      if (v.Table Pte2M Index2).Present = false ∨ (v.Table Pte2M Index2).MustBe1 = true then []
      else f Index4 Index3 Index2 (tableOf (v.Table Pte2M Index2))

/-- The level-1 tables of the walk: one per present non-terminal level-2 entry. -/
def level1Tables (v : PageTableView) : List Nat := under2 v fun _ _ _ Pte4K => [Pte4K]

/-- The slot of a level-1 table is not present and the guard oracle is there and
says that its address is a guard page. -/
def isGuardSlot (v : PageTableView) (Index4 Index3 Index2 Pte4K Index1 : Nat) : Bool :=
  !(v.Table Pte4K Index1).Present && guardHit v (v.IndexToAddress Index4 Index3 Index2 Index1)

/-- The entries of the level-1 slots of the walk that are not guard slots, present
or not, in the order of the walk. -/
def slots4K (v : PageTableView) : List PAGE_TABLE_ENTRY :=
  under2 v fun Index4 Index3 Index2 Pte4K =>
    ((List.range 0x200).filter fun Index1 =>
      !isGuardSlot v Index4 Index3 Index2 Pte4K Index1).map (v.Table Pte4K)

/-- The present level-1 entries of the walk, in its order. -/
def present4K (v : PageTableView) : List PAGE_TABLE_ENTRY :=
  under2 v fun _ _ _ Pte4K => ((List.range 0x200).map (v.Table Pte4K)).filter fun e => e.Present

/-- The addresses `IndexToAddress (Index4, Index3, Index2, Index1)` of the guard
slots of the walk, in its order. -/
def guardAddresses (v : PageTableView) : List Nat :=
  under2 v fun Index4 Index3 Index2 Pte4K =>
    ((List.range 0x200).filter fun Index1 =>
      isGuardSlot v Index4 Index3 Index2 Pte4K Index1).map
        (v.IndexToAddress Index4 Index3 Index2)

/-- A count argument and its buffer do not fit: the count is positive and the
buffer is `NULL`. -/
def BadPairing (Count : Option Nat) (Buffer : Bool) : Prop :=
  ∃ n, Count = some n ∧ 0 < n ∧ Buffer = false

/-- The buffer is present and its declared capacity is below the true count. -/
def TooSmall (Buffer : Bool) (Capacity Total : Nat) : Prop :=
  Buffer = true ∧ Capacity < Total

instance (Buffer : Bool) (Capacity Total : Nat) : Decidable (TooSmall Buffer Capacity Total) := by
  unfold TooSmall; infer_instance

/-- A call of `GetFlatPageTableData` with five count pointers that are not `NULL`,
pointing to the capacities `c`. -/
def callFlat (v : PageTableView) (c : FlatCounts) (b : FlatBuffers) : FlatCallResult :=
  GetFlatPageTableData v (some c.Pte1GCount) (some c.Pte2MCount) (some c.Pte4KCount)
    (some c.PdeCount) (some c.GuardCount) b

/-- No category pairs a positive capacity with an absent buffer. -/
def ValidPairing (c : FlatCounts) (b : FlatBuffers) : Prop :=
  (b.Pte1GEntries = false → c.Pte1GCount = 0) ∧ (b.Pte2MEntries = false → c.Pte2MCount = 0) ∧
  (b.Pte4KEntries = false → c.Pte4KCount = 0) ∧ (b.PdeEntries = false → c.PdeCount = 0) ∧
  (b.GuardEntries = false → c.GuardCount = 0)

instance (c : FlatCounts) (b : FlatBuffers) : Decidable (ValidPairing c b) := by
  unfold ValidPairing; infer_instance

/-- A page table with no present entry at all, rooted at `0x1000`, without a guard
oracle. -/
def emptyView : PageTableView :=
  { Cr3 := 0x1000
    Table := fun _ _ => ⟨false, false, 0, 0⟩
    IsGuardPage := none
    IndexToAddress := fun _ _ _ _ => 0 }

/-- The page-table view without its guard oracle (`mMemoryProtectionProtocol` is
`NULL`). -/
def withoutOracle (v : PageTableView) : PageTableView := { v with IsGuardPage := none }

/-- The `EFI_ERROR` test on the status codes that occur here: every code but
`EFI_SUCCESS` has the high bit set. -/
def EFI_ERROR : EFI_STATUS → Bool
  | EFI_STATUS.EFI_SUCCESS => false
  | _ => true

/-- A buffer that `AllocateZeroPool (Count * sizeof (..))` returned: the number of
entries it has room for, and the stores made to it since. -/
structure PoolBuffer (α : Type) where
  Entries : Nat
  Stores : List (Nat × α)
  deriving DecidableEq, Repr

/-- What `LoadFlatPageTableData` leaves behind: the returned `BOOLEAN`, the five
counts and the five buffer pointers (`none` for `NULL`). -/
structure LoadResult where
  Return : Bool
  Counts : FlatCounts
  Pte1GEntries : Option (PoolBuffer PAGE_TABLE_ENTRY)
  Pte2MEntries : Option (PoolBuffer PAGE_TABLE_ENTRY)
  Pte4KEntries : Option (PoolBuffer PAGE_TABLE_ENTRY)
  PdeEntries : Option (PoolBuffer Nat)
  GuardEntries : Option (PoolBuffer Nat)
  deriving DecidableEq, Repr

/-- The counts after the four `+= 15` that follow the first call of
`GetFlatPageTableData`; `*GuardCount` is not among them.  The counts are `UINTN`
values far below `2^64`, so the sums do not wrap. -/
def firstPadding (c : FlatCounts) : FlatCounts :=
  ⟨c.Pte1GCount + 15, c.Pte2MCount + 15, c.Pte4KCount + 15, c.PdeCount + 15, c.GuardCount⟩

/-- The counts after the five `+= 15` of the retry. -/
def retryPadding (c : FlatCounts) : FlatCounts :=
  ⟨c.Pte1GCount + 15, c.Pte2MCount + 15, c.Pte4KCount + 15, c.PdeCount + 15, c.GuardCount + 15⟩

/-- The capacities that `LoadFlatPageTableData` declares to the second call of
`GetFlatPageTableData`: the counts of the first, count-only call on the page table
`v`, after the first padding. -/
def secondPassCounts (v : PageTableView) : FlatCounts :=
  firstPadding
    (GetFlatPageTableDataCounts v ⟨0, 0, 0, 0, 0⟩ ⟨false, false, false, false, false⟩).Counts

/-- None of the five pointers is `NULL`. -/
def allPresent (b : FlatBuffers) : Bool :=
  b.Pte1GEntries && b.Pte2MEntries && b.Pte4KEntries && b.PdeEntries && b.GuardEntries

/-- The error exit of `LoadFlatPageTableData`: every buffer that is there is freed
and its pointer set to `NULL`, the five counts are set to 0, and the function
returns `FALSE`. -/
def loadError : LoadResult := ⟨false, ⟨0, 0, 0, 0, 0⟩, none, none, none, none, none⟩

/-- The good exit of `LoadFlatPageTableData` after the call with result `r` on
buffers `b` allocated for `cap` entries: the counts are those of the call. -/
def loadDone (cap : FlatCounts) (b : FlatBuffers) (r : FlatResult) : LoadResult :=
  { Return := true
    Counts := r.Counts
    Pte1GEntries := if b.Pte1GEntries then some ⟨cap.Pte1GCount, r.Pte1GEntries⟩ else none
    Pte2MEntries := if b.Pte2MEntries then some ⟨cap.Pte2MCount, r.Pte2MEntries⟩ else none
    Pte4KEntries := if b.Pte4KEntries then some ⟨cap.Pte4KCount, r.Pte4KEntries⟩ else none
    PdeEntries := if b.PdeEntries then some ⟨cap.PdeCount, r.PdeEntries⟩ else none
    GuardEntries := if b.GuardEntries then some ⟨cap.GuardCount, r.GuardEntries⟩ else none }

/-- `LoadFlatPageTableData (Pte1GCount, .., GuardCount, Pte1GEntries, .., GuardEntries)`.
The page table is live, so each call of `GetFlatPageTableData` reads its own view:
`v1`, `v2` and, in the retry, `v3`.  `alloc1` and `alloc2` say which of the five
`AllocateZeroPool` calls return a buffer, in the first round and in the retry; the
retry does not check its allocations.  The pointers that the caller passes are
written before they are read on every path, so they are not arguments. -/
def LoadFlatPageTableData (v1 v2 v3 : PageTableView) (alloc1 alloc2 : FlatBuffers) : LoadResult :=
  let r1 := GetFlatPageTableDataCounts v1 ⟨0, 0, 0, 0, 0⟩ ⟨false, false, false, false, false⟩
  let c1 := secondPassCounts v1
  if EFI_ERROR r1.Status then loadError
  else if allPresent alloc1 = false then loadError
  else
    let r2 := GetFlatPageTableDataCounts v2 c1 alloc1
    if r2.Status = EFI_STATUS.EFI_BUFFER_TOO_SMALL then
      let c2 := retryPadding r2.Counts
      let r3 := GetFlatPageTableDataCounts v3 c2 alloc2
      if EFI_ERROR r3.Status then loadError
      else loadDone c2 alloc2 r3
    else if EFI_ERROR r2.Status then loadError
    else loadDone c1 alloc1 r2

/-- The true totals of the five categories on the page table `v`. -/
def trueCounts (v : PageTableView) : FlatCounts :=
  ⟨(records1G v).length, (records2M v).length, (records4K v).length, (recordsPde v).length,
    (recordsGuard v).length⟩

/-- The view that the last call of `GetFlatPageTableData` in `LoadFlatPageTableData`
reads: `v3` when the second call returns `EFI_BUFFER_TOO_SMALL`, else `v2`. -/
def lastPass (v1 v2 v3 : PageTableView) (alloc1 : FlatBuffers) : PageTableView :=
  if (GetFlatPageTableDataCounts v2 (secondPassCounts v1) alloc1).Status
      = EFI_STATUS.EFI_BUFFER_TOO_SMALL then v3
  else v2

/-- A returned buffer holds all the records `l`: it has room for them and record
`k` is at index `k`. -/
def HoldsAll {α : Type} (l : List α) (p : Option (PoolBuffer α)) : Prop :=
  ∃ B, p = some B ∧ l.length ≤ B.Entries ∧ B.Stores = l.enum

/-! ## The gap fill in the words of the specification -/

/-- A synthetic entry in the words of the specification: sentinel type, zero
attribute and virtual start, the given start, and as many pages as the gap of
`Gap` bytes needs, that is `Gap / 4096` rounded up. -/
def gapEntry (NONE_EFI_MEMORY_TYPE Start Gap : Nat) : EFI_MEMORY_DESCRIPTOR :=
  { Type_ := NONE_EFI_MEMORY_TYPE
    PhysicalStart := Start
    VirtualStart := 0
    NumberOfPages := (Gap + 4095) / 4096
    Attribute := 0 }

/-- The leading synthetic entry in the words of the specification: present when
the first entry starts above `StartOfAddressSpace`, it starts there and fills the
gap up to the first entry. -/
def leadGap (NONE_EFI_MEMORY_TYPE : Nat) (first : EFI_MEMORY_DESCRIPTOR)
    (StartOfAddressSpace : Nat) : List EFI_MEMORY_DESCRIPTOR :=
  if first.PhysicalStart > StartOfAddressSpace then
    [gapEntry NONE_EFI_MEMORY_TYPE StartOfAddressSpace (first.PhysicalStart - StartOfAddressSpace)]
  else []

/-- The input entries with a synthetic entry in every gap between two consecutive
entries, in the words of the specification: there is a gap when the second entry
starts above the end of the first, and the synthetic entry starts at that end and
fills the gap up to the start of the second. -/
def gapsBetween (NONE_EFI_MEMORY_TYPE : Nat) :
    List EFI_MEMORY_DESCRIPTOR → List EFI_MEMORY_DESCRIPTOR
  | [] => []
  | [a] => [a]
  | a :: b :: t =>
    if b.PhysicalStart > a.PhysicalStart + a.NumberOfPages * 4096 then
      a :: gapEntry NONE_EFI_MEMORY_TYPE (a.PhysicalStart + a.NumberOfPages * 4096)
          (b.PhysicalStart - (a.PhysicalStart + a.NumberOfPages * 4096))
        :: gapsBetween NONE_EFI_MEMORY_TYPE (b :: t)
    else a :: gapsBetween NONE_EFI_MEMORY_TYPE (b :: t)

/-- The trailing synthetic entry in the words of the specification: present when
`EndOfAddressSpace` is above the end of the last entry, it starts at that end and
fills the gap up to `EndOfAddressSpace`. -/
def trailGap (NONE_EFI_MEMORY_TYPE : Nat) (prev : EFI_MEMORY_DESCRIPTOR)
    (EndOfAddressSpace : Nat) : List EFI_MEMORY_DESCRIPTOR :=
  if EndOfAddressSpace > prev.PhysicalStart + prev.NumberOfPages * 4096 then
    [gapEntry NONE_EFI_MEMORY_TYPE (prev.PhysicalStart + prev.NumberOfPages * 4096)
      (EndOfAddressSpace - (prev.PhysicalStart + prev.NumberOfPages * 4096))]
  else []

/-! ## Concrete inputs -/

/-- A space map of three descriptors: two adjacent system-memory ranges and an
MMIO range that follows them. -/
def adjacentSpaceMap : List EFI_GCD_MEMORY_SPACE_DESCRIPTOR :=
  [⟨0, 0x1000, 0, 0, EFI_GCD_MEMORY_TYPE.EfiGcdMemoryTypeSystemMemory, 0, 0⟩,
   ⟨0x1000, 0x1000, 0, 0, EFI_GCD_MEMORY_TYPE.EfiGcdMemoryTypeSystemMemory, 0, 0⟩,
   ⟨0x2000, 0x1000, 0, 0, EFI_GCD_MEMORY_TYPE.EfiGcdMemoryTypeMemoryMappedIo, 0, 0⟩]

/-- A memory map of one conventional-memory page at `0x1000`. -/
def onePageAt1000 : List EFI_MEMORY_DESCRIPTOR := [⟨7, 0x1000, 0, 1, 0⟩]

/-- A memory map of one conventional-memory page at `0`. -/
def onePageAt0 : List EFI_MEMORY_DESCRIPTOR := [⟨7, 0, 0, 1, 0⟩]

/-- A memory map with a hole: two pages at `0x1000` and one page at `0x5000`. -/
def mapWithHole : List EFI_MEMORY_DESCRIPTOR := [⟨7, 0x1000, 0, 2, 0⟩, ⟨7, 0x5000, 0, 1, 0⟩]

/-- The classification set of the end-to-end scenario of the specification. -/
def scenarioSpaceMap : List EFI_GCD_MEMORY_SPACE_DESCRIPTOR :=
  [⟨0, 0x1000, 0, 0, EFI_GCD_MEMORY_TYPE.EfiGcdMemoryTypeSystemMemory, 0, 0⟩,
   ⟨0x2000, 0x1000, 0, 0, EFI_GCD_MEMORY_TYPE.EfiGcdMemoryTypeSystemMemory, 0, 0⟩,
   ⟨0x4000, 0x1000, 0, 0, EFI_GCD_MEMORY_TYPE.EfiGcdMemoryTypeMemoryMappedIo, 0, 0⟩]

/-- The memory map of the end-to-end scenario: two pages of conventional memory
(`EfiConventionalMemory = 7`) at `0`. -/
def scenarioMemoryMap : List EFI_MEMORY_DESCRIPTOR := [⟨7, 0, 0, 2, 0⟩]

/-- A space map with a hole: system memory at `[0, 0x1000)` and at `[0x2000, 0x3000)`. -/
def spaceMapWithHole : List EFI_GCD_MEMORY_SPACE_DESCRIPTOR :=
  [⟨0, 0x1000, 0, 0, EFI_GCD_MEMORY_TYPE.EfiGcdMemoryTypeSystemMemory, 0, 0⟩,
   ⟨0x2000, 0x1000, 0, 0, EFI_GCD_MEMORY_TYPE.EfiGcdMemoryTypeSystemMemory, 0, 0⟩]

/-- A memory map of three conventional-memory pages at `0`. -/
def threePagesAt0 : List EFI_MEMORY_DESCRIPTOR := [⟨7, 0, 0, 3, 0⟩]

/-- The start, page count and classification of a printed record. -/
def recordKey (r : MemoryMapRecord) : Nat × Nat × EFI_GCD_MEMORY_TYPE :=
  (r.PhysicalStart, r.NumberOfPages, r.MemorySpaceType)

/-- A page table that reaches one level-1 table, at `0x4000`, through slot 0 of the
tables at `0x1000`, `0x2000` and `0x3000`; no slot of the level-1 table is present
and there is no guard oracle. -/
def deadLeafView : PageTableView :=
  { Cr3 := 0x1000
    Table := fun a i =>
      if a = 0x1000 ∧ i = 0 then ⟨true, false, 2, 0x2003⟩
      else if a = 0x2000 ∧ i = 0 then ⟨true, false, 3, 0x3003⟩
      else if a = 0x3000 ∧ i = 0 then ⟨true, false, 4, 0x4003⟩
      else ⟨false, false, 0, 0⟩
    IsGuardPage := none
    IndexToAddress := fun i4 i3 i2 i1 => ((i4 * 512 + i3) * 512 + i2) * 512 * 4096 + i1 * 4096 }

/-- A page table whose only present entries are slot 0 of the level-4 table at
`0x1000` and a 1G leaf in slot 0 of the level-3 table at `0x2000`. -/
def oneGigabyteView : PageTableView :=
  { Cr3 := 0x1000
    Table := fun a i =>
      if a = 0x1000 ∧ i = 0 then ⟨true, false, 2, 0x2003⟩
      else if a = 0x2000 ∧ i = 0 then ⟨true, true, 0, 0x83⟩
      else ⟨false, false, 0, 0⟩
    IsGuardPage := none
    IndexToAddress := fun i4 i3 i2 i1 => ((i4 * 512 + i3) * 512 + i2) * 512 * 4096 + i1 * 4096 }

/-- A memory map in which the first two entries start at the same address
`0x2000` and differ in their type, followed by an entry at `0`. -/
def tiedMemoryMap : List EFI_MEMORY_DESCRIPTOR :=
  [⟨1, 0x2000, 0, 1, 0⟩, ⟨2, 0x2000, 0, 1, 0⟩, ⟨3, 0, 0, 1, 0⟩]

/-- A space map in which the first two descriptors have the same base `0x2000`
and differ in their length, followed by a descriptor at `0`. -/
def tiedSpaceMap : List EFI_GCD_MEMORY_SPACE_DESCRIPTOR :=
  [⟨0x2000, 0x1000, 0, 0, EFI_GCD_MEMORY_TYPE.EfiGcdMemoryTypeSystemMemory, 0, 0⟩,
   ⟨0x2000, 0x2000, 0, 0, EFI_GCD_MEMORY_TYPE.EfiGcdMemoryTypeSystemMemory, 0, 0⟩,
   ⟨0, 0x1000, 0, 0, EFI_GCD_MEMORY_TYPE.EfiGcdMemoryTypeSystemMemory, 0, 0⟩]

/-- A space map of one descriptor. -/
def singleSpaceMap : List EFI_GCD_MEMORY_SPACE_DESCRIPTOR :=
  [⟨0, 0x1000, 0, 0, EFI_GCD_MEMORY_TYPE.EfiGcdMemoryTypeSystemMemory, 0, 0⟩]

/-- A space map of two descriptors that is not sorted by base address. -/
def unsortedSpaceMap : List EFI_GCD_MEMORY_SPACE_DESCRIPTOR :=
  [⟨0x4000, 0x1000, 0, 0, EFI_GCD_MEMORY_TYPE.EfiGcdMemoryTypeMemoryMappedIo, 0, 0⟩,
   ⟨0, 0x1000, 0, 0, EFI_GCD_MEMORY_TYPE.EfiGcdMemoryTypeSystemMemory, 0, 0⟩]

/-- A space map of two descriptors that touch but differ in their classification:
system memory at `[0, 0x1000)` and MMIO at `[0x1000, 0x2000)`. -/
def twoTypeSpaceMap : List EFI_GCD_MEMORY_SPACE_DESCRIPTOR :=
  [⟨0, 0x1000, 0, 0, EFI_GCD_MEMORY_TYPE.EfiGcdMemoryTypeSystemMemory, 0, 0⟩,
   ⟨0x1000, 0x1000, 0, 0, EFI_GCD_MEMORY_TYPE.EfiGcdMemoryTypeMemoryMappedIo, 0, 0⟩]

/-- A memory map of one entry of two pages at `0` that is mapped at the virtual
address `0x80000000`. -/
def mappedTwoPages : List EFI_MEMORY_DESCRIPTOR := [⟨7, 0, 0x80000000, 2, 0⟩]

/-- A memory map, sorted by start and page-aligned, whose first entry `[0, 0x2000)`
reaches over the start `0x1000` of the second. -/
def overlappingMemoryMap : List EFI_MEMORY_DESCRIPTOR :=
  [⟨7, 0, 0, 2, 0⟩, ⟨7, 0x1000, 0, 1, 0⟩]

/-- A memory map of one page that ends at the top of the 64-bit address space. -/
def topPageMap : List EFI_MEMORY_DESCRIPTOR := [⟨7, 0xFFFFFFFFFFFFF000, 0, 1, 0⟩]

/-- The page table of `deadLeafView` with a guard oracle that claims the page at
`0x1000`, the address of slot 1 of the level-1 table. -/
def guardedView : PageTableView :=
  { deadLeafView with IsGuardPage := some fun Address => Address == 0x1000 }

/-- A page table whose root entry has the frame `0x10000002`: shifted by 12 this is
`2^40 + 0x2000`, and in the 40 bits of the bit-field it is `0x2000`.  The table at
`0x2000` holds two 1G leaves, the table at `2^40 + 0x2000` holds one. -/
def highFrameView : PageTableView :=
  { Cr3 := 0x1000
    Table := fun a i =>
      if a = 0x1000 ∧ i = 0 then ⟨true, false, 0x10000002, 0x10000002003⟩
      else if a = 0x2000 ∧ i = 0 then ⟨true, true, 0x40000, 0x40000083⟩
      else if a = 0x2000 ∧ i = 1 then ⟨true, true, 0x80000, 0x80000083⟩
      else if a = 0x10000002000 ∧ i = 0 then ⟨true, true, 0, 0x83⟩
      else ⟨false, false, 0, 0⟩
    IsGuardPage := none
    IndexToAddress := fun i4 i3 i2 i1 => ((i4 * 512 + i3) * 512 + i2) * 512 * 4096 + i1 * 4096 }

/-! ## Theorems -/

/-! ### Sorting -/

theorem sortInner_spec {α : Type} (key : α → Nat) (n D i : Nat) (hD : 0 < D) (hi : i < n) :
    ∀ (fuel j : Nat) (m : List α), m.length = n → i < j → j ≤ n → n < j + fuel →
      (∀ k a b, i < k → k < j → m[i]? = some a → m[k]? = some b → key a ≤ key b) →
      ∃ m1, sortInner key (n * D) D i fuel j m = some m1 ∧ m1.length = n ∧
        (∀ k, k < i → m1[k]? = m[k]?) ∧
        (∀ q, i ≤ q → q < n → ∃ q1, i ≤ q1 ∧ q1 < n ∧ m1[q]? = m[q1]?) ∧
        (∀ k a b, i < k → k < n → m1[i]? = some a → m1[k]? = some b → key a ≤ key b) := by
  intro fuel
  induction fuel with
  | zero => intro j m _ _ hjn hf; omega
  | succ fuel ih =>
    intro j m hlen hij hjn hf hinv
    unfold sortInner
    by_cases hj : j < n
    · have hguard : j * D < n * D := Nat.mul_lt_mul_of_pos_right hj hD
      rw [if_pos hguard]
      have hi1 : i < m.length := by omega
      have hj1 : j < m.length := by omega
      rw [List.getElem?_eq_getElem hi1, List.getElem?_eq_getElem hj1]
      simp only []
      by_cases hsw : key m[i] > key m[j]
      · rw [if_pos hsw]
        have hlen2 : ((m.set i m[j]).set j m[i]).length = n := by simp [hlen]
        have hget : ∀ k, ((m.set i m[j]).set j m[i])[k]? =
            if j = k then some m[i] else if i = k then some m[j] else m[k]? := by
          intro k
          rw [List.getElem?_set, List.getElem?_set]
          simp [hi1, hj1]
        obtain ⟨m1, h1, h2, h3, h4, h5⟩ := ih (j + 1) _ hlen2 (by omega) (by omega) (by omega) (by
          intro k a b hik hkj ha hb
          rw [hget] at ha hb
          have hji : ¬ j = i := by omega
          simp only [hji, if_false, if_true] at ha
          cases ha
          by_cases hjk : j = k
          · subst hjk
            simp at hb
            subst hb
            omega
          · have hik2 : ¬ i = k := by omega
            simp only [hjk, hik2, if_false] at hb
            have := hinv k m[i] b hik (by omega) (List.getElem?_eq_getElem hi1) hb
            omega)
        refine ⟨m1, h1, h2, ?_, ?_, h5⟩
        · intro k hk
          rw [h3 k hk, hget]
          have : ¬ j = k := by omega
          have : ¬ i = k := by omega
          simp [*]
        · intro q hq hqn
          obtain ⟨q1, hq1, hq1n, he⟩ := h4 q hq hqn
          rw [he, hget]
          by_cases hjq : j = q1
          · exact ⟨i, Nat.le_refl _, hi, by simp [hjq, List.getElem?_eq_getElem hi1]⟩
          · by_cases hiq : i = q1
            · exact ⟨j, by omega, hj, by simp [hjq, hiq, List.getElem?_eq_getElem hj1]⟩
            · exact ⟨q1, hq1, hq1n, by simp [hjq, hiq]⟩
      · rw [if_neg hsw]
        exact ih (j + 1) m hlen (by omega) (by omega) (by omega) (by
          intro k a b hik hkj ha hb
          by_cases hjk : k = j
          · subst hjk
            rw [List.getElem?_eq_getElem hi1] at ha
            rw [List.getElem?_eq_getElem hj1] at hb
            cases ha; cases hb
            omega
          · exact hinv k a b hik (by omega) ha hb)
    · have hguard : ¬ j * D < n * D := by
        have : n * D ≤ j * D := Nat.mul_le_mul_right D (by omega)
        omega
      rw [if_neg hguard]
      have hjeq : j = n := by omega
      subst hjeq
      exact ⟨m, rfl, hlen, fun _ _ => rfl, fun q hq hqn => ⟨q, hq, hqn, rfl⟩, hinv⟩

theorem sortOuter_spec {α : Type} (key : α → Nat) (n D : Nat) (hD : 0 < D) :
    ∀ (fuel i : Nat) (m : List α), m.length = n → i ≤ n → n < i + fuel →
      (∀ p q a b, p < i → p < q → q < n → m[p]? = some a → m[q]? = some b → key a ≤ key b) →
      ∃ r, sortOuter key (n * D) D fuel i m = some r ∧ r.length = n ∧
        (∀ p q a b, p < q → q < n → r[p]? = some a → r[q]? = some b → key a ≤ key b) := by
  have hnD : n ≤ n * D := Nat.le_mul_of_pos_right n hD
  intro fuel
  induction fuel with
  | zero => intro i m _ hin hf; omega
  | succ fuel ih =>
    intro i m hlen hin hf hinv
    unfold sortOuter
    by_cases hi : i < n
    · have hguard : i * D < n * D := Nat.mul_lt_mul_of_pos_right hi hD
      rw [if_pos hguard]
      obtain ⟨m1, h1, h2, h3, h4, h5⟩ :=
        sortInner_spec key n D i hD hi (n * D + 1) (i + 1) m hlen (by omega) (by omega) (by omega)
          (by intro k a b hik hki; omega)
      rw [h1]
      simp only []
      apply ih (i + 1) m1 h2 (by omega) (by omega)
      intro p q a b hp hpq hqn ha hb
      by_cases hpi : p = i
      · subst hpi
        exact h5 q a b hpq hqn ha hb
      · have hp2 : p < i := by omega
        rw [h3 p hp2] at ha
        by_cases hqi : q < i
        · rw [h3 q hqi] at hb
          exact hinv p q a b hp2 hpq hqn ha hb
        · obtain ⟨q1, hq1, hq1n, he⟩ := h4 q (by omega) hqn
          rw [he] at hb
          exact hinv p q1 a b hp2 (by omega) hq1n ha hb
    · have hguard : ¬ i * D < n * D := by
        have : n * D ≤ i * D := Nat.mul_le_mul_right D (by omega)
        omega
      rw [if_neg hguard]
      refine ⟨m, rfl, hlen, ?_⟩
      intro p q a b hpq hqn ha hb
      exact hinv p q a b (by omega) hpq hqn ha hb

/-- C1 (sort correctness).  For a memory map of `MemoryMap.length` descriptors laid
out at a positive stride `DescriptorSize` (byte size `length * DescriptorSize`),
`SortMemoryMap` returns a map of the same length in which every entry's
`PhysicalStart` is at most the next entry's; `SortMemorySpaceMap`, called with
the true byte size, does the same for `BaseAddress`. -/
theorem SortMemoryMap_sorted :
    (∀ (MemoryMap : List EFI_MEMORY_DESCRIPTOR) (DescriptorSize : Nat), 0 < DescriptorSize →
      ∃ r, SortMemoryMap MemoryMap (MemoryMap.length * DescriptorSize) DescriptorSize = some r ∧
        r.length = MemoryMap.length ∧
        ∀ i a b, r[i]? = some a → r[i + 1]? = some b → a.PhysicalStart ≤ b.PhysicalStart) ∧
    (∀ (MemoryMap : List EFI_GCD_MEMORY_SPACE_DESCRIPTOR) (DescriptorSize : Nat),
      0 < DescriptorSize →
      ∃ r, SortMemorySpaceMap MemoryMap (MemoryMap.length * DescriptorSize) DescriptorSize
          = some r ∧
        r.length = MemoryMap.length ∧
        ∀ i a b, r[i]? = some a → r[i + 1]? = some b → a.BaseAddress ≤ b.BaseAddress) := by
  constructor
  · intro m D hD
    have hnD : m.length ≤ m.length * D := Nat.le_mul_of_pos_right _ hD
    obtain ⟨r, h1, h2, h3⟩ := sortOuter_spec (fun e : EFI_MEMORY_DESCRIPTOR => e.PhysicalStart)
      m.length D hD (m.length * D + 1) 0 m rfl (Nat.zero_le _) (by omega)
      (by intro p q a b hp; omega)
    refine ⟨r, h1, h2, ?_⟩
    intro i a b ha hb
    have hlt : i + 1 < r.length := by
      rcases Nat.lt_or_ge (i + 1) r.length with h | h
      · exact h
      · rw [List.getElem?_eq_none h] at hb; cases hb
    exact h3 i (i + 1) a b (by omega) (by omega) ha hb
  · intro m D hD
    have hnD : m.length ≤ m.length * D := Nat.le_mul_of_pos_right _ hD
    obtain ⟨r, h1, h2, h3⟩ := sortOuter_spec
      (fun e : EFI_GCD_MEMORY_SPACE_DESCRIPTOR => e.BaseAddress)
      m.length D hD (m.length * D + 1) 0 m rfl (Nat.zero_le _) (by omega)
      (by intro p q a b hp; omega)
    refine ⟨r, h1, h2, ?_⟩
    intro i a b ha hb
    have hlt : i + 1 < r.length := by
      rcases Nat.lt_or_ge (i + 1) r.length with h | h
      · exact h
      · rw [List.getElem?_eq_none h] at hb; cases hb
    exact h3 i (i + 1) a b (by omega) (by omega) ha hb

/-! ### Merging -/

theorem mergeable_chain_last (h : EFI_GCD_MEMORY_SPACE_DESCRIPTOR) :
    ∀ (t : List EFI_GCD_MEMORY_SPACE_DESCRIPTOR), List.Chain' Mergeable (h :: t) →
      ∀ l ∈ (h :: t).getLast?, l.GcdMemoryType = h.GcdMemoryType ∧
        (l.BaseAddress + l.Length) % U64
          = (h.BaseAddress + ((h :: t).map (fun d => d.Length)).sum) % U64 := by
  intro t
  induction t generalizing h with
  | nil =>
    intro _ l hl
    simp at hl
    subst hl
    simp
  | cons b t ih =>
    intro hc l hl
    rw [List.chain'_cons] at hc
    obtain ⟨hab, hc2⟩ := hc
    have hl2 : l ∈ (b :: t).getLast? := by
      simpa [List.getLast?_cons_cons] using hl
    obtain ⟨h1, h2⟩ := ih b hc2 l hl2
    obtain ⟨ht, hb⟩ := hab
    refine ⟨by rw [h1, ht], ?_⟩
    rw [h2, ← hb]
    simp only [List.map_cons, List.sum_cons]
    rw [Nat.mod_add_mod]
    congr 1
    omega

theorem mergeInner_spec (m pre : List EFI_GCD_MEMORY_SPACE_DESCRIPTOR)
    (h : EFI_GCD_MEMORY_SPACE_DESCRIPTOR) :
    ∀ (rest t : List EFI_GCD_MEMORY_SPACE_DESCRIPTOR) (fuel Index : Nat),
      m = pre ++ (h :: t) ++ rest → Index = pre.length + t.length → rest.length < fuel →
      List.Chain' Mergeable (h :: t) →
      ∃ t1 rest1, mergeInner m.length m fuel Index
            { h with Length := ((h :: t).map (fun d => d.Length)).sum % U64 }
          = some (pre.length + t1.length,
              { h with Length := ((h :: t1).map (fun d => d.Length)).sum % U64 }) ∧
        m = pre ++ (h :: t1) ++ rest1 ∧ List.Chain' Mergeable (h :: t1) ∧
        rest1.length ≤ rest.length ∧
        (∀ a ∈ (h :: t1).getLast?, ∀ b ∈ rest1.head?, ¬ Mergeable a b) := by
  intro rest
  induction rest with
  | nil =>
    intro t fuel Index hm hI hf hc
    obtain ⟨fuel, rfl⟩ : ∃ f, fuel = f + 1 := ⟨fuel - 1, by simp at hf; omega⟩
    unfold mergeInner
    have : ¬ Index + 1 < m.length := by rw [hm]; simp; omega
    rw [if_neg this]
    exact ⟨t, [], by rw [hI], hm, hc, Nat.le_refl _, by simp⟩
  | cons nx rest ih =>
    intro t fuel Index hm hI hf hc
    obtain ⟨fuel, rfl⟩ : ∃ f, fuel = f + 1 := ⟨fuel - 1, by simp at hf; omega⟩
    unfold mergeInner
    have hlt : Index + 1 < m.length := by rw [hm]; simp; omega
    rw [if_pos hlt]
    have hget : m[Index + 1]? = some nx := by
      rw [hm, List.getElem?_append_right (by simp; omega)]
      have : Index + 1 - (pre ++ h :: t).length = 0 := by simp; omega
      rw [this]
      simp
    rw [hget]
    simp only []
    obtain ⟨l, hl⟩ : ∃ l, (h :: t).getLast? = some l := by
      cases hx : (h :: t).getLast? with
      | none => simp at hx
      | some l => exact ⟨l, rfl⟩
    obtain ⟨h1, h2⟩ := mergeable_chain_last h t hc l hl
    have hcond : (h.GcdMemoryType = nx.GcdMemoryType ∧
        (h.BaseAddress + ((h :: t).map (fun d => d.Length)).sum % U64) % U64 = nx.BaseAddress)
        ↔ Mergeable l nx := by
      unfold Mergeable
      rw [h1, h2, Nat.add_mod_mod]
    by_cases hM : Mergeable l nx
    · rw [if_pos (hcond.mpr hM)]
      have hc2 : List.Chain' Mergeable (h :: (t ++ [nx])) := by
        rw [← List.cons_append, List.chain'_append]
        refine ⟨hc, List.chain'_singleton _, ?_⟩
        intro a ha b hb
        rw [hl] at ha
        simp at ha hb
        subst ha; subst hb
        exact hM
      obtain ⟨t1, rest1, e1, e2, e3, e4, e5⟩ := ih (t ++ [nx]) fuel (Index + 1)
        (by rw [hm]; simp) (by simp; omega) (by simp at hf; omega) hc2
      refine ⟨t1, rest1, ?_, e2, e3, by simp; omega, e5⟩
      rw [← e1]
      congr 2
      simp only [List.map_cons, List.map_append, List.sum_cons, List.sum_append, List.map_nil,
        List.sum_nil]
      rw [Nat.mod_add_mod]
      congr 1
      omega
    · rw [if_neg (fun hh => hM (hcond.mp hh))]
      refine ⟨t, nx :: rest, by rw [hI], hm, hc, Nat.le_refl _, ?_⟩
      intro a ha b hb
      rw [hl] at ha
      simp at ha hb
      subst ha; subst hb
      exact hM

theorem mergeOuter_spec (m : List EFI_GCD_MEMORY_SPACE_DESCRIPTOR)
    (hwf : ∀ d ∈ m, d.Length < U64) :
    ∀ (fuel : Nat) (pre rest out : List EFI_GCD_MEMORY_SPACE_DESCRIPTOR),
      m = pre ++ rest → rest.length < fuel →
      ∃ runs outs, IsMaximalRuns rest runs ∧
        (∀ x ∈ rest.head?, ∃ r rs, runs = r :: rs ∧ r.head? = some x) ∧
        runs.map mergeRun = outs.map some ∧
        mergeOuter m.length m fuel pre.length out = some (out ++ outs) := by
  intro fuel
  induction fuel with
  | zero => intro pre rest out _ hf; omega
  | succ fuel ih =>
    intro pre rest out hm hf
    unfold mergeOuter
    cases rest with
    | nil =>
      have : ¬ pre.length < m.length := by rw [hm]; simp
      rw [if_neg this]
      exact ⟨[], [], ⟨by simp, by simp, by simp, List.chain'_nil⟩, by simp, by simp, by simp⟩
    | cons d rest =>
      have hlt : pre.length < m.length := by rw [hm]; simp
      rw [if_pos hlt]
      have hget : m[pre.length]? = some d := by
        rw [hm, List.getElem?_append_right (Nat.le_refl _)]
        simp
      rw [hget]
      simp only []
      have hdwf : d.Length < U64 := hwf d (by rw [hm]; simp)
      have hd : d = { d with Length := (([d] : List EFI_GCD_MEMORY_SPACE_DESCRIPTOR).map
          (fun d => d.Length)).sum % U64 } := by
        simp [Nat.mod_eq_of_lt hdwf]
      obtain ⟨t1, rest1, e1, e2, e3, e4, e5⟩ := mergeInner_spec m pre d rest [] (m.length + 1)
        pre.length (by rw [hm]; simp) (by simp) (by rw [hm]; simp; omega)
        (List.chain'_singleton _)
      rw [← hd] at e1
      rw [e1]
      simp only []
      have hpre : pre.length + t1.length + 1 = (pre ++ d :: t1).length := by simp; omega
      rw [hpre]
      obtain ⟨runs, outs, hruns, hhead, hmap, hres⟩ := ih (pre ++ d :: t1) rest1
        (out ++ [{ d with Length := ((d :: t1).map (fun d => d.Length)).sum % U64 }]) e2
        (by simp at hf; omega)
      have hsplit : d :: rest = (d :: t1) ++ rest1 := by
        have h3 : pre ++ (d :: rest) = pre ++ ((d :: t1) ++ rest1) := by
          rw [← hm, e2]; simp
        exact List.append_cancel_left h3
      obtain ⟨r1, r2, r3, r4⟩ := hruns
      refine ⟨(d :: t1) :: runs,
        { d with Length := ((d :: t1).map (fun d => d.Length)).sum % U64 } :: outs,
        ⟨?_, ?_, ?_, ?_⟩, ?_, ?_, ?_⟩
      · rw [hsplit, r1]; simp
      · intro r hr
        rcases List.mem_cons.mp hr with h | h
        · rw [h]; simp
        · exact r2 r h
      · intro r hr
        rcases List.mem_cons.mp hr with h | h
        · rw [h]; exact e3
        · exact r3 r h
      · cases runs with
        | nil => exact List.chain'_singleton _
        | cons s runs =>
          rw [List.chain'_cons]
          refine ⟨?_, r4⟩
          intro a ha b hb
          cases rest1 with
          | nil =>
            have hne := r2 s (by simp)
            have : s ++ runs.flatten = [] := by simpa using r1.symm
            have : s = [] := (List.append_eq_nil.mp this).1
            exact absurd this hne
          | cons x rest1 =>
            obtain ⟨r, rs, hr1, hr2⟩ := hhead x (by simp)
            have hsr : s = r := by
              have := List.cons.inj hr1
              exact this.1
            subst hsr
            rw [hr2] at hb
            exact e5 a ha b (by simpa using hb)
      · intro x hx
        simp at hx
        exact ⟨d :: t1, runs, rfl, by simp [hx]⟩
      · simp [mergeRun, hmap]
      · rw [hres]; simp

/-! ### Gap filling -/

theorem slot_guard (n D i : Nat) (hD : 0 < D) : i * D < n * D ↔ i < n := by
  constructor
  · intro h
    exact Nat.lt_of_mul_lt_mul_right h
  · intro h
    exact Nat.mul_lt_mul_of_pos_right h hD

theorem fillLoop_eq (NONE : Nat) (Old : List EFI_MEMORY_DESCRIPTOR) (D : Nat) (hD : 0 < D) :
    ∀ (fuel : Nat) (pre rest New : List EFI_MEMORY_DESCRIPTOR),
      Old = pre ++ rest → rest.length < fuel →
      fillLoop NONE Old (Old.length * D) D fuel pre.length New
        = some (New ++ fillBetween NONE rest) := by
  intro fuel
  induction fuel with
  | zero => intro pre rest New _ hf; omega
  | succ fuel ih =>
    intro pre rest New hO hf
    unfold fillLoop
    simp only [slot_guard _ _ _ hD]
    cases rest with
    | nil =>
      have : ¬ pre.length < Old.length := by rw [hO]; simp
      rw [if_neg this]
      simp [fillBetween]
    | cons a rest =>
      have hlt : pre.length < Old.length := by rw [hO]; simp
      rw [if_pos hlt]
      have hget : Old[pre.length]? = some a := by
        rw [hO, List.getElem?_append_right (Nat.le_refl _)]
        simp
      rw [hget]
      simp only []
      have hpre : pre.length + 1 = (pre ++ [a]).length := by simp
      have hO2 : Old = (pre ++ [a]) ++ rest := by rw [hO]; simp
      cases rest with
      | nil =>
        have : ¬ pre.length + 1 < Old.length := by rw [hO]; simp
        rw [if_neg this, hpre, ih (pre ++ [a]) [] (New ++ [a]) hO2 (by simp at hf ⊢; omega)]
        simp [fillBetween]
      | cons b t =>
        have hlt2 : pre.length + 1 < Old.length := by rw [hO]; simp
        rw [if_pos hlt2]
        have hget2 : Old[pre.length + 1]? = some b := by
          rw [hO2, List.getElem?_append_right (by simp)]
          simp
        rw [hget2]
        simp only []
        by_cases hgap : b.PhysicalStart ≠ entryEnd a
        · rw [if_pos hgap, hpre, ih (pre ++ [a]) (b :: t) _ hO2 (by simp at hf ⊢; omega)]
          simp [fillBetween, hgap]
        · rw [if_neg hgap, hpre, ih (pre ++ [a]) (b :: t) _ hO2 (by simp at hf ⊢; omega)]
          simp only [fillBetween, if_neg hgap]
          simp

theorem entryEnd_eq (a : EFI_MEMORY_DESCRIPTOR) :
    entryEnd a = (a.PhysicalStart + a.NumberOfPages * 4096) % 2 ^ 64 := by
  simp only [entryEnd, EfiPagesToSize, U64, EFI_PAGE_SHIFT]
  norm_num

theorem entryEnd_lt (a : EFI_MEMORY_DESCRIPTOR) : entryEnd a < U64 := by
  unfold entryEnd
  exact Nat.mod_lt _ (by unfold U64; norm_num)

theorem entryEnd_aligned (a : EFI_MEMORY_DESCRIPTOR) (h : PageAligned a.PhysicalStart) :
    PageAligned (entryEnd a) := by
  rw [entryEnd_eq]
  unfold PageAligned EFI_PAGE_SIZE at *
  norm_num at *
  omega

theorem gap_pages_exact (L N : Nat) (hL : PageAligned L) (hN : PageAligned N)
    (hL64 : L < U64) (hN64 : N < U64) :
    (L + EfiSizeToPages (sub64 N L) * 4096) % 2 ^ 64 = N := by
  unfold PageAligned EFI_PAGE_SIZE at *
  simp only [EfiSizeToPages, sub64, U64, EFI_PAGE_SHIFT, EFI_PAGE_MASK] at *
  norm_num at *
  split_ifs <;> omega

theorem lead_pages_exact (S F : Nat) (hS : PageAligned S) (hF : PageAligned F)
    (hlt : S < F) : S + EfiSizeToPages (F - S) * 4096 = F := by
  unfold PageAligned EFI_PAGE_SIZE at *
  simp only [EfiSizeToPages, EFI_PAGE_SHIFT, EFI_PAGE_MASK] at *
  norm_num at *
  split_ifs <;> omega

theorem fillBetween_head (NONE : Nat) (l : List EFI_MEMORY_DESCRIPTOR) :
    (fillBetween NONE l).head? = l.head? := by
  match l with
  | [] => rfl
  | [a] => rfl
  | a :: b :: t =>
    unfold fillBetween
    split <;> rfl

theorem fillBetween_getLast (NONE : Nat) :
    ∀ (l : List EFI_MEMORY_DESCRIPTOR), (fillBetween NONE l).getLast? = l.getLast?
  | [] => rfl
  | [a] => rfl
  | a :: b :: t => by
    have ih := fillBetween_getLast NONE (b :: t)
    have hne : fillBetween NONE (b :: t) ≠ [] := by
      intro h
      have := fillBetween_head NONE (b :: t)
      rw [h] at this
      simp at this
    obtain ⟨x, xs, hx⟩ := List.exists_cons_of_ne_nil hne
    unfold fillBetween
    split
    · rw [hx, List.getLast?_cons_cons, List.getLast?_cons_cons, ← hx, ih,
        List.getLast?_cons_cons]
    · rw [hx, List.getLast?_cons_cons, ← hx, ih, List.getLast?_cons_cons]

theorem gap_pages_exact_le (L N : Nat) (hL : PageAligned L) (hN : PageAligned N)
    (hle : L ≤ N) (hN64 : N < U64) : L + EfiSizeToPages (sub64 N L) * 4096 = N := by
  unfold PageAligned EFI_PAGE_SIZE at *
  simp only [EfiSizeToPages, sub64, U64, EFI_PAGE_SHIFT, EFI_PAGE_MASK] at *
  norm_num at *
  split_ifs <;> omega

theorem entryEnd_exact (a : EFI_MEMORY_DESCRIPTOR)
    (h : a.PhysicalStart + a.NumberOfPages * 4096 < 2 ^ 64) :
    entryEnd a = a.PhysicalStart + a.NumberOfPages * 4096 := by
  rw [entryEnd_eq]
  exact Nat.mod_eq_of_lt h

theorem fillBetween_chain (NONE : Nat) :
    ∀ (l : List EFI_MEMORY_DESCRIPTOR),
      (∀ e ∈ l, PageAligned e.PhysicalStart ∧
        e.PhysicalStart + e.NumberOfPages * 4096 < 2 ^ 64) →
      List.Chain' NoOverlap l →
      List.Chain' Contiguous (fillBetween NONE l)
  | [], _, _ => List.chain'_nil
  | [a], _, _ => List.chain'_singleton a
  | a :: b :: t, hl, hc => by
    have hab : NoOverlap a b := (List.chain'_cons.mp hc).1
    have ih := fillBetween_chain NONE (b :: t) (fun e he => hl e (List.mem_cons_of_mem _ he))
      (List.chain'_cons.mp hc).2
    have hhead := fillBetween_head NONE (b :: t)
    obtain ⟨ha, ha64⟩ := hl a (by simp)
    obtain ⟨hb, hb64⟩ := hl b (by simp)
    have hE := entryEnd_exact a ha64
    have hbU : b.PhysicalStart < U64 := by
      unfold U64
      omega
    unfold NoOverlap at hab
    unfold fillBetween
    split
    · rw [List.chain'_cons', List.chain'_cons']
      refine ⟨?_, ?_, ih⟩
      · intro y hy
        simp at hy
        subst hy
        simp only [Contiguous, FILL_MEMORY_DESCRIPTOR_ENTRY]
        exact hE.symm
      · intro y hy
        rw [hhead] at hy
        simp at hy
        subst hy
        simp only [Contiguous, FILL_MEMORY_DESCRIPTOR_ENTRY]
        exact gap_pages_exact_le _ _ (entryEnd_aligned a ha) hb (by rw [hE]; exact hab) hbU
    · rename_i hgap
      rw [List.chain'_cons']
      refine ⟨?_, ih⟩
      intro y hy
      rw [hhead] at hy
      simp at hy
      subst hy
      simp only [Contiguous]
      rw [← hE]
      simp at hgap
      exact hgap.symm

theorem FillInMemoryMap_eq (NONE D Start End : Nat) (first prev : EFI_MEMORY_DESCRIPTOR)
    (tl : List EFI_MEMORY_DESCRIPTOR) (hD : 0 < D)
    (hprev : (first :: tl).getLast? = some prev) :
    FillInMemoryMap NONE true true ((first :: tl).length * D) (some (first :: tl)) D Start End
      = some (EFI_STATUS.EFI_SUCCESS,
          (fillLead NONE first Start ++ fillBetween NONE (first :: tl)
            ++ fillTrail NONE prev End).length * D,
          some (fillLead NONE first Start ++ fillBetween NONE (first :: tl)
            ++ fillTrail NONE prev End)) := by
  have hlen : (first :: tl).length ≤ (first :: tl).length * D := Nat.le_mul_of_pos_right _ hD
  have hS : ¬ ((first :: tl).length * D = 0 ∨ D = 0) := by
    simp only [List.length_cons] at hlen ⊢
    omega
  have hloop := fillLoop_eq NONE (first :: tl) D hD ((first :: tl).length * D + 1) []
    (first :: tl) (fillLead NONE first Start) rfl (by omega)
  have hne : fillBetween NONE (first :: tl) ≠ [] := by
    intro h
    have := fillBetween_head NONE (first :: tl)
    rw [h] at this
    simp at this
  have hlast : (fillLead NONE first Start ++ fillBetween NONE (first :: tl)).getLast?
      = some prev := by
    rw [List.getLast?_append_of_ne_nil _ hne, fillBetween_getLast, hprev]
  have h0 : (first :: tl)[0]? = some first := by simp
  have hb : ¬ (true = false) := by decide
  unfold FillInMemoryMap
  simp only [if_neg hS, if_neg hb, h0]
  unfold fillLead at hloop hlast
  simp only [List.length_nil] at hloop
  rw [hloop]
  simp only [hlast, fillLead, fillTrail]
  split
  · rfl
  · simp only [List.append_nil]

/-- C3 (gap-fill contiguity, amended).  For a non-empty memory map whose entries
start page-aligned and end below `2^64`, sorted so that each entry ends at or
below the start of the next (no overlap), and a page-aligned
`StartOfAddressSpace`, `FillInMemoryMap` succeeds and in its result every entry's
`PhysicalStart + NumberOfPages * 4096` equals the `PhysicalStart` of the next
entry. -/
theorem FillInMemoryMap_contiguous (NONE D Start End : Nat)
    (MemoryMap : List EFI_MEMORY_DESCRIPTOR) (hD : 0 < D) (hne : MemoryMap ≠ [])
    (hal : ∀ e ∈ MemoryMap, PageAligned e.PhysicalStart ∧
      e.PhysicalStart + e.NumberOfPages * 4096 < 2 ^ 64)
    (hsorted : List.Chain' NoOverlap MemoryMap)
    (hS : PageAligned Start) :
    ∃ r, FillInMemoryMap NONE true true (MemoryMap.length * D) (some MemoryMap) D Start End
        = some (EFI_STATUS.EFI_SUCCESS, r.length * D, some r) ∧
      List.Chain' Contiguous r := by
  obtain ⟨first, tl, rfl⟩ := List.exists_cons_of_ne_nil hne
  obtain ⟨prev, hprev⟩ : ∃ prev, (first :: tl).getLast? = some prev := by
    cases hx : (first :: tl).getLast? with
    | none => simp at hx
    | some l => exact ⟨l, rfl⟩
  refine ⟨_, FillInMemoryMap_eq NONE D Start End first prev tl hD hprev, ?_⟩
  have hbetween := fillBetween_chain NONE (first :: tl) hal hsorted
  have hnil : fillBetween NONE (first :: tl) ≠ [] := by
    intro h
    have := fillBetween_head NONE (first :: tl)
    rw [h] at this
    simp at this
  obtain ⟨hf, hf64⟩ := hal first (by simp)
  have h1 : List.Chain' Contiguous
      (fillLead NONE first Start ++ fillBetween NONE (first :: tl)) := by
    rw [List.chain'_append]
    refine ⟨?_, hbetween, ?_⟩
    · unfold fillLead
      split
      · exact List.chain'_singleton _
      · exact List.chain'_nil
    · intro x hx y hy
      rw [fillBetween_head] at hy
      simp at hy
      subst hy
      unfold fillLead at hx
      split at hx
      · rename_i hgt
        simp at hx
        subst hx
        simp only [Contiguous, FILL_MEMORY_DESCRIPTOR_ENTRY]
        exact lead_pages_exact Start first.PhysicalStart hS hf hgt
      · simp at hx
  rw [List.chain'_append]
  refine ⟨h1, ?_, ?_⟩
  · unfold fillTrail
    split
    · exact List.chain'_singleton _
    · exact List.chain'_nil
  · have hp64 := (hal prev (List.mem_of_mem_getLast? hprev)).2
    intro x hx y hy
    rw [List.getLast?_append_of_ne_nil _ hnil, fillBetween_getLast, hprev] at hx
    simp at hx
    subst hx
    unfold fillTrail at hy
    split at hy
    · simp at hy
      subst hy
      simp only [Contiguous, FILL_MEMORY_DESCRIPTOR_ENTRY]
      exact (entryEnd_exact _ hp64).symm
    · simp at hy

/-- C4 (gap-fill start, amended).  For a non-empty memory map, the first entry of
the result of `FillInMemoryMap` starts at the smaller of `StartOfAddressSpace` and
the first input entry's `PhysicalStart`; so it starts at `StartOfAddressSpace`
whenever the first input entry does not start below it. -/
theorem FillInMemoryMap_first (NONE D Start End : Nat) (first : EFI_MEMORY_DESCRIPTOR)
    (tl : List EFI_MEMORY_DESCRIPTOR) (hD : 0 < D) :
    ∃ r e, FillInMemoryMap NONE true true ((first :: tl).length * D) (some (first :: tl)) D
          Start End
        = some (EFI_STATUS.EFI_SUCCESS, r.length * D, some r) ∧
      r.head? = some e ∧ e.PhysicalStart = min Start first.PhysicalStart ∧
      (Start ≤ first.PhysicalStart → e.PhysicalStart = Start) := by
  obtain ⟨prev, hprev⟩ : ∃ prev, (first :: tl).getLast? = some prev := by
    cases hx : (first :: tl).getLast? with
    | none => simp at hx
    | some l => exact ⟨l, rfl⟩
  have hhead := fillBetween_head NONE (first :: tl)
  obtain ⟨x, xs, hx⟩ : ∃ x xs, fillBetween NONE (first :: tl) = x :: xs := by
    cases hfb : fillBetween NONE (first :: tl) with
    | nil => rw [hfb] at hhead; simp at hhead
    | cons x xs => exact ⟨x, xs, rfl⟩
  have hxf : x = first := by
    rw [hx] at hhead
    simpa using hhead
  subst hxf
  by_cases hgt : x.PhysicalStart > Start
  · refine ⟨_, FILL_MEMORY_DESCRIPTOR_ENTRY NONE Start (EfiSizeToPages (x.PhysicalStart - Start)),
      FillInMemoryMap_eq NONE D Start End x prev tl hD hprev, ?_, ?_, ?_⟩
    · simp [fillLead, hgt]
    · simp only [FILL_MEMORY_DESCRIPTOR_ENTRY]
      omega
    · intro _; rfl
  · refine ⟨_, x, FillInMemoryMap_eq NONE D Start End x prev tl hD hprev, ?_, ?_, ?_⟩
    · simp [fillLead, hgt, hx]
    · omega
    · intro _; omega

/-- C5 (gap-fill end).  For a non-empty memory map whose final entry starts
page-aligned and ends without 64-bit overflow, and a page-aligned
`EndOfAddressSpace`, the last entry of the result of `FillInMemoryMap` ends exactly
at the larger of `EndOfAddressSpace` and the end of the final input entry, hence at
or above `EndOfAddressSpace`. -/
theorem FillInMemoryMap_last (NONE D Start End : Nat) (MemoryMap : List EFI_MEMORY_DESCRIPTOR)
    (prev : EFI_MEMORY_DESCRIPTOR) (hD : 0 < D) (hprev : MemoryMap.getLast? = some prev)
    (hal : PageAligned prev.PhysicalStart)
    (hno : prev.PhysicalStart + prev.NumberOfPages * 4096 < 2 ^ 64)
    (hE : PageAligned End) :
    ∃ r e, FillInMemoryMap NONE true true (MemoryMap.length * D) (some MemoryMap) D Start End
        = some (EFI_STATUS.EFI_SUCCESS, r.length * D, some r) ∧
      r.getLast? = some e ∧
      e.PhysicalStart + e.NumberOfPages * 4096
        = max End (prev.PhysicalStart + prev.NumberOfPages * 4096) ∧
      End ≤ e.PhysicalStart + e.NumberOfPages * 4096 := by
  obtain ⟨first, tl, rfl⟩ : ∃ first tl, MemoryMap = first :: tl := by
    cases MemoryMap with
    | nil => simp at hprev
    | cons a t => exact ⟨a, t, rfl⟩
  have hnil : fillBetween NONE (first :: tl) ≠ [] := by
    intro h
    have := fillBetween_head NONE (first :: tl)
    rw [h] at this
    simp at this
  have hend : entryEnd prev = prev.PhysicalStart + prev.NumberOfPages * 4096 := by
    rw [entryEnd_eq]
    exact Nat.mod_eq_of_lt hno
  by_cases hgt : End > entryEnd prev
  · refine ⟨_, FILL_MEMORY_DESCRIPTOR_ENTRY NONE (entryEnd prev)
        (EfiSizeToPages (End - entryEnd prev)),
      FillInMemoryMap_eq NONE D Start End first prev tl hD hprev, ?_, ?_, ?_⟩
    · simp [fillTrail, hgt]
    · simp only [FILL_MEMORY_DESCRIPTOR_ENTRY]
      rw [lead_pages_exact (entryEnd prev) End (entryEnd_aligned prev hal) hE hgt]
      omega
    · simp only [FILL_MEMORY_DESCRIPTOR_ENTRY]
      rw [lead_pages_exact (entryEnd prev) End (entryEnd_aligned prev hal) hE hgt]
  · refine ⟨_, prev, FillInMemoryMap_eq NONE D Start End first prev tl hD hprev, ?_, ?_, ?_⟩
    · simp only [fillTrail, if_neg hgt, List.append_nil]
      rw [List.getLast?_append_of_ne_nil _ hnil, fillBetween_getLast, hprev]
    · omega
    · omega

/-- C2 (merge semantics).  For an input of two or more descriptors with 64-bit
lengths, `MergeMemorySpaceMap` succeeds and its output is, in order, one descriptor
per maximal run of mergeable neighbours of the input: the run's first descriptor
with the 64-bit sum of the run's lengths (a descriptor that is alone in its run is
copied unchanged). -/
theorem MergeMemorySpaceMap_runs (m : List EFI_GCD_MEMORY_SPACE_DESCRIPTOR)
    (hN : 2 ≤ m.length) (hwf : ∀ d ∈ m, d.Length < U64) :
    ∃ runs outs, IsMaximalRuns m runs ∧ runs.map mergeRun = outs.map some ∧
      MergeMemorySpaceMap true true m.length (some m)
        = some (EFI_STATUS.EFI_SUCCESS, outs.length, some outs) := by
  obtain ⟨runs, outs, h1, _, h3, h4⟩ := mergeOuter_spec m hwf (m.length + 1) [] m [] rfl
    (Nat.lt_succ_self _)
  refine ⟨runs, outs, h1, h3, ?_⟩
  have hle : ¬ m.length ≤ 1 := by omega
  have hb : ¬ (true = false) := by decide
  unfold MergeMemorySpaceMap
  simp only [if_neg hle, if_neg hb]
  simp only [List.length_nil, List.nil_append] at h4
  rw [h4]

theorem SortMemoryMap_sorted_witness :
    (0 < 48 ∧ ∃ r, SortMemoryMap [⟨7, 0x2000, 0, 1, 0⟩, ⟨7, 0, 0, 2, 0⟩]
        (([⟨7, 0x2000, 0, 1, 0⟩, ⟨7, 0, 0, 2, 0⟩] : List EFI_MEMORY_DESCRIPTOR).length * 48) 48
          = some r ∧
      r.length = ([⟨7, 0x2000, 0, 1, 0⟩, ⟨7, 0, 0, 2, 0⟩] : List EFI_MEMORY_DESCRIPTOR).length ∧
      ∀ i a b, r[i]? = some a → r[i + 1]? = some b → a.PhysicalStart ≤ b.PhysicalStart) ∧
    (0 < 56 ∧ ∃ r, SortMemorySpaceMap scenarioSpaceMap.reverse
        (scenarioSpaceMap.reverse.length * 56) 56 = some r ∧
      r.length = scenarioSpaceMap.reverse.length ∧
      ∀ i a b, r[i]? = some a → r[i + 1]? = some b → a.BaseAddress ≤ b.BaseAddress) :=
  ⟨⟨by decide, SortMemoryMap_sorted.1 [⟨7, 0x2000, 0, 1, 0⟩, ⟨7, 0, 0, 2, 0⟩] 48 (by decide)⟩,
    ⟨by decide, SortMemoryMap_sorted.2 scenarioSpaceMap.reverse 56 (by decide)⟩⟩

theorem SortMemoryMap_example :
    SortMemoryMap [⟨7, 0x2000, 0, 1, 0⟩, ⟨7, 0, 0, 2, 0⟩] 96 48
      = some [⟨7, 0, 0, 2, 0⟩, ⟨7, 0x2000, 0, 1, 0⟩] := by
  decide

theorem SortMemorySpaceMap_example :
    SortMemorySpaceMap scenarioSpaceMap.reverse 168 56 = some scenarioSpaceMap := by
  decide

theorem MergeMemorySpaceMap_runs_witness :
    ∃ runs outs, IsMaximalRuns adjacentSpaceMap runs ∧ runs.map mergeRun = outs.map some ∧
      MergeMemorySpaceMap true true adjacentSpaceMap.length (some adjacentSpaceMap)
        = some (EFI_STATUS.EFI_SUCCESS, outs.length, some outs) :=
  MergeMemorySpaceMap_runs adjacentSpaceMap (by decide) (by decide)

theorem MergeMemorySpaceMap_example :
    MergeMemorySpaceMap true true 3 (some adjacentSpaceMap)
      = some (EFI_STATUS.EFI_SUCCESS, 2,
          some [⟨0, 0x2000, 0, 0, EFI_GCD_MEMORY_TYPE.EfiGcdMemoryTypeSystemMemory, 0, 0⟩,
            ⟨0x2000, 0x1000, 0, 0, EFI_GCD_MEMORY_TYPE.EfiGcdMemoryTypeMemoryMappedIo, 0, 0⟩]) := by
  decide

/-- C3 (as stated) fails in three ways, each on a sorted map with page-aligned
starts and start <= end.  With the unaligned `StartOfAddressSpace = 0x800` the
leading synthetic entry before the page at `0x1000` has one page and ends at
`0x1800`.  With overlapping neighbours `[0, 0x2000)` and `[0x1000, 0x2000)` the
entry before the second input entry does not end at its start `0x1000` (nor does
the first input entry, which is kept as it is).  With a page that ends at `2^64`
the trailing synthetic entry starts at `0`, while the sum of the page's start and
length is `2^64`. -/
theorem FillInMemoryMap_contiguous_counterexample :
    (FillInMemoryMap 15 true true 48 (some onePageAt1000) 48 0x800 0x2000
        = some (EFI_STATUS.EFI_SUCCESS, 96, some [⟨15, 0x800, 0, 1, 0⟩, ⟨7, 0x1000, 0, 1, 0⟩]) ∧
      0x800 + 1 * 4096 ≠ 0x1000 ∧ ¬ Contiguous ⟨15, 0x800, 0, 1, 0⟩ ⟨7, 0x1000, 0, 1, 0⟩) ∧
    (FillInMemoryMap 15 true true 96 (some overlappingMemoryMap) 48 0 0x2000
        = some (EFI_STATUS.EFI_SUCCESS, 144,
            some [⟨7, 0, 0, 2, 0⟩, ⟨15, 0x2000, 0, 2 ^ 52 - 1, 0⟩, ⟨7, 0x1000, 0, 1, 0⟩]) ∧
      ¬ Contiguous ⟨15, 0x2000, 0, 2 ^ 52 - 1, 0⟩ ⟨7, 0x1000, 0, 1, 0⟩ ∧
      ¬ Contiguous ⟨7, 0, 0, 2, 0⟩ ⟨7, 0x1000, 0, 1, 0⟩) ∧
    (FillInMemoryMap 15 true true 48 (some topPageMap) 48 0xFFFFFFFFFFFFF000 0xFFFFFFFFFFFFF000
        = some (EFI_STATUS.EFI_SUCCESS, 96,
            some [⟨7, 0xFFFFFFFFFFFFF000, 0, 1, 0⟩, ⟨15, 0, 0, 2 ^ 52 - 1, 0⟩]) ∧
      ¬ Contiguous ⟨7, 0xFFFFFFFFFFFFF000, 0, 1, 0⟩ ⟨15, 0, 0, 2 ^ 52 - 1, 0⟩) :=
  ⟨by decide, by decide, by decide⟩

theorem FillInMemoryMap_contiguous_witness :
    ∃ r, FillInMemoryMap 15 true true (mapWithHole.length * 48) (some mapWithHole) 48 0 0x8000
        = some (EFI_STATUS.EFI_SUCCESS, r.length * 48, some r) ∧
      List.Chain' Contiguous r :=
  FillInMemoryMap_contiguous 15 48 0 0x8000 mapWithHole (by decide) (by decide) (by decide)
    (by simp [mapWithHole, NoOverlap]) (by decide)

theorem FillInMemoryMap_example :
    FillInMemoryMap 15 true true 96 (some mapWithHole) 48 0 0x8000
      = some (EFI_STATUS.EFI_SUCCESS, 240,
          some [⟨15, 0, 0, 1, 0⟩, ⟨7, 0x1000, 0, 2, 0⟩, ⟨15, 0x3000, 0, 2, 0⟩,
            ⟨7, 0x5000, 0, 1, 0⟩, ⟨15, 0x6000, 0, 2, 0⟩]) := by
  decide

/-- C4 (as stated) fails: with the one-page map at `0` and
`StartOfAddressSpace = 0x1000 <= EndOfAddressSpace = 0x2000`, the first entry of the
result is the input entry, which starts at `0`. -/
theorem FillInMemoryMap_first_counterexample :
    FillInMemoryMap 15 true true 48 (some onePageAt0) 48 0x1000 0x2000
      = some (EFI_STATUS.EFI_SUCCESS, 96, some [⟨7, 0, 0, 1, 0⟩, ⟨15, 0x1000, 0, 1, 0⟩]) ∧
    (⟨7, 0, 0, 1, 0⟩ : EFI_MEMORY_DESCRIPTOR).PhysicalStart ≠ 0x1000 := by
  decide

theorem FillInMemoryMap_first_witness :
    ∃ r e, FillInMemoryMap 15 true true
          ((⟨7, 0x1000, 0, 2, 0⟩ :: [⟨7, 0x5000, 0, 1, 0⟩] : List EFI_MEMORY_DESCRIPTOR).length * 48)
          (some (⟨7, 0x1000, 0, 2, 0⟩ :: [⟨7, 0x5000, 0, 1, 0⟩])) 48 0 0x8000
        = some (EFI_STATUS.EFI_SUCCESS, r.length * 48, some r) ∧
      r.head? = some e ∧
      e.PhysicalStart = min 0 (⟨7, 0x1000, 0, 2, 0⟩ : EFI_MEMORY_DESCRIPTOR).PhysicalStart ∧
      (0 ≤ (⟨7, 0x1000, 0, 2, 0⟩ : EFI_MEMORY_DESCRIPTOR).PhysicalStart → e.PhysicalStart = 0) :=
  FillInMemoryMap_first 15 48 0 0x8000 ⟨7, 0x1000, 0, 2, 0⟩ [⟨7, 0x5000, 0, 1, 0⟩] (by decide)

theorem FillInMemoryMap_last_witness :
    ∃ r e, FillInMemoryMap 15 true true (mapWithHole.length * 48) (some mapWithHole) 48 0 0x8000
        = some (EFI_STATUS.EFI_SUCCESS, r.length * 48, some r) ∧
      r.getLast? = some e ∧
      e.PhysicalStart + e.NumberOfPages * 4096
        = max 0x8000 ((⟨7, 0x5000, 0, 1, 0⟩ : EFI_MEMORY_DESCRIPTOR).PhysicalStart
            + (⟨7, 0x5000, 0, 1, 0⟩ : EFI_MEMORY_DESCRIPTOR).NumberOfPages * 4096) ∧
      0x8000 ≤ e.PhysicalStart + e.NumberOfPages * 4096 :=
  FillInMemoryMap_last 15 48 0 0x8000 mapWithHole ⟨7, 0x5000, 0, 1, 0⟩ (by decide) (by decide)
    (by decide) (by decide) (by decide)

/-! ### Overlay lookup -/

theorem EfiSizeToPages_eq_ceil (Size : Nat) : EfiSizeToPages Size = (Size + 4095) / 4096 := by
  simp only [EfiSizeToPages, EFI_PAGE_SHIFT, EFI_PAGE_MASK]
  norm_num
  split_ifs <;> omega

theorem queryEnd_eq (PhysicalStart NumberOfPages : Nat) :
    (PhysicalStart + EfiPagesToSize NumberOfPages) % U64 = queryEnd PhysicalStart NumberOfPages := by
  simp only [queryEnd, EfiPagesToSize, U64, EFI_PAGE_SHIFT]
  norm_num

theorem overlapLoop_found (m : List EFI_GCD_MEMORY_SPACE_DESCRIPTOR) (PhysicalStart PhysicalEnd : Nat)
    (i : Nat) (d : EFI_GCD_MEMORY_SPACE_DESCRIPTOR) (hget : m[i]? = some d)
    (hc : Covers d PhysicalStart)
    (hmin : ∀ j d1, j < i → m[j]? = some d1 → ¬ Covers d1 PhysicalStart) :
    ∀ (fuel Index : Nat), Index ≤ i → m.length < Index + fuel →
      overlapLoop m m.length PhysicalStart PhysicalEnd fuel Index
        = some (if spaceEnd d ≥ PhysicalEnd then 0
                else EfiSizeToPages (PhysicalEnd - spaceEnd d), d.GcdMemoryType) := by
  have hi : i < m.length := by
    rcases Nat.lt_or_ge i m.length with h | h
    · exact h
    · rw [List.getElem?_eq_none h] at hget; cases hget
  intro fuel
  induction fuel with
  | zero => intro Index h1 h2; omega
  | succ fuel ih =>
    intro Index h1 h2
    unfold overlapLoop
    have hlt : Index < m.length := by omega
    rw [if_pos hlt]
    by_cases hIi : Index = i
    · subst hIi
      rw [hget]
      simp only []
      have hc2 : d.BaseAddress ≤ PhysicalStart ∧ (d.BaseAddress + d.Length) % U64 > PhysicalStart := hc
      rw [if_pos hc2]
      unfold spaceEnd
      split <;> rfl
    · rw [List.getElem?_eq_getElem hlt]
      simp only []
      have hn : ¬ (m[Index].BaseAddress ≤ PhysicalStart ∧
          (m[Index].BaseAddress + m[Index].Length) % U64 > PhysicalStart) :=
        hmin Index m[Index] (by omega) (List.getElem?_eq_getElem hlt)
      rw [if_neg hn]
      exact ih (Index + 1) (by omega) (by omega)

theorem overlapLoop_none (m : List EFI_GCD_MEMORY_SPACE_DESCRIPTOR) (PhysicalStart PhysicalEnd : Nat)
    (hno : ∀ d ∈ m, ¬ Covers d PhysicalStart) :
    ∀ (fuel Index : Nat), Index ≤ m.length → m.length < Index + fuel →
      overlapLoop m m.length PhysicalStart PhysicalEnd fuel Index
        = some (0, EFI_GCD_MEMORY_TYPE.EfiGcdMemoryTypeNonExistent) := by
  intro fuel
  induction fuel with
  | zero =>
    intro Index h0 h
    omega
  | succ fuel ih =>
    intro Index h0 h
    unfold overlapLoop
    by_cases hlt : Index < m.length
    · rw [if_pos hlt, List.getElem?_eq_getElem hlt]
      simp only []
      have hn : ¬ (m[Index].BaseAddress ≤ PhysicalStart ∧
          (m[Index].BaseAddress + m[Index].Length) % U64 > PhysicalStart) :=
        hno m[Index] (List.getElem_mem hlt)
      rw [if_neg hn]
      exact ih (Index + 1) (by omega) (by omega)
    · rw [if_neg hlt]

/-- C6 (overlay lookup, start covered).  For a non-empty classification array and a
query of `NumberOfPages > 0` pages, if descriptor `i` is the lowest-index descriptor
that contains `PhysicalStart`, then `GetOverlappingMemorySpaceRegion` stores that
descriptor's `GcdMemoryType` in `*Type`; it returns 0 when the descriptor's end is
at or above the query's end, and otherwise the number of pages from the
descriptor's end to the query's end (rounded up; exactly the byte distance divided
by 4096 when `PhysicalStart` and the descriptor's end are page-aligned). -/
theorem GetOverlappingMemorySpaceRegion_covered (m : List EFI_GCD_MEMORY_SPACE_DESCRIPTOR)
    (PhysicalStart NumberOfPages : Nat) (ty : EFI_GCD_MEMORY_TYPE) (i : Nat)
    (d : EFI_GCD_MEMORY_SPACE_DESCRIPTOR) (hne : m ≠ []) (hpages : 0 < NumberOfPages)
    (hget : m[i]? = some d) (hc : Covers d PhysicalStart)
    (hmin : ∀ j d1, j < i → m[j]? = some d1 → ¬ Covers d1 PhysicalStart) :
    ∃ ret, GetOverlappingMemorySpaceRegion (some m) m.length PhysicalStart NumberOfPages ty
        = some (ret, d.GcdMemoryType) ∧
      (queryEnd PhysicalStart NumberOfPages ≤ spaceEnd d → ret = 0) ∧
      (spaceEnd d < queryEnd PhysicalStart NumberOfPages →
        ret = (queryEnd PhysicalStart NumberOfPages - spaceEnd d + 4095) / 4096 ∧
        (PageAligned PhysicalStart → PageAligned (spaceEnd d) →
          ret * 4096 = queryEnd PhysicalStart NumberOfPages - spaceEnd d)) := by
  have hlen : 0 < m.length := List.length_pos.mpr hne
  have hg : ¬ (NumberOfPages = 0 ∨ m.length = 0) := by omega
  unfold GetOverlappingMemorySpaceRegion
  simp only [if_neg hg]
  rw [queryEnd_eq, overlapLoop_found m PhysicalStart _ i d hget hc hmin (m.length + 1) 0
    (Nat.zero_le _) (by omega)]
  refine ⟨_, rfl, ?_, ?_⟩
  · intro h
    rw [if_pos h]
  · intro h
    have h2 : ¬ spaceEnd d ≥ queryEnd PhysicalStart NumberOfPages := by omega
    rw [if_neg h2, EfiSizeToPages_eq_ceil]
    refine ⟨rfl, ?_⟩
    intro ha hd
    unfold PageAligned EFI_PAGE_SIZE at ha hd
    have hq : queryEnd PhysicalStart NumberOfPages % 4096 = 0 := by
      unfold queryEnd
      norm_num at ha ⊢
      omega
    omega

/-- C7 (overlay lookup, start not covered).  For a non-empty classification array
and a query of `NumberOfPages > 0` pages, if no descriptor contains `PhysicalStart`
then `GetOverlappingMemorySpaceRegion` stores `EfiGcdMemoryTypeNonExistent` in
`*Type` and returns 0. -/
theorem GetOverlappingMemorySpaceRegion_uncovered (m : List EFI_GCD_MEMORY_SPACE_DESCRIPTOR)
    (PhysicalStart NumberOfPages : Nat) (ty : EFI_GCD_MEMORY_TYPE)
    (hne : m ≠ []) (hpages : 0 < NumberOfPages)
    (hno : ∀ d ∈ m, ¬ Covers d PhysicalStart) :
    GetOverlappingMemorySpaceRegion (some m) m.length PhysicalStart NumberOfPages ty
      = some (0, EFI_GCD_MEMORY_TYPE.EfiGcdMemoryTypeNonExistent) := by
  have hlen : 0 < m.length := List.length_pos.mpr hne
  have hg : ¬ (NumberOfPages = 0 ∨ m.length = 0) := by omega
  unfold GetOverlappingMemorySpaceRegion
  simp only [if_neg hg]
  exact overlapLoop_none m PhysicalStart _ hno (m.length + 1) 0 (by omega) (by omega)

/-! ### The reconciliation loop -/

theorem overlapLoop_cases (g : List EFI_GCD_MEMORY_SPACE_DESCRIPTOR)
    (PhysicalStart PhysicalEnd : Nat) :
    ∀ (fuel Index : Nat), Index ≤ g.length → g.length < Index + fuel →
      ∃ rem ty1, overlapLoop g g.length PhysicalStart PhysicalEnd fuel Index = some (rem, ty1) ∧
        ((∃ d ∈ g, Covers d PhysicalStart ∧ ty1 = d.GcdMemoryType ∧
            rem = if spaceEnd d ≥ PhysicalEnd then 0
                  else EfiSizeToPages (PhysicalEnd - spaceEnd d)) ∨
          ((∀ j d, Index ≤ j → g[j]? = some d → ¬ Covers d PhysicalStart) ∧
            ty1 = EFI_GCD_MEMORY_TYPE.EfiGcdMemoryTypeNonExistent ∧ rem = 0)) := by
  intro fuel
  induction fuel with
  | zero => intro Index h0 h; omega
  | succ fuel ih =>
    intro Index h0 h
    unfold overlapLoop
    by_cases hlt : Index < g.length
    · rw [if_pos hlt, List.getElem?_eq_getElem hlt]
      simp only []
      by_cases hc : g[Index].BaseAddress ≤ PhysicalStart ∧
          (g[Index].BaseAddress + g[Index].Length) % U64 > PhysicalStart
      · rw [if_pos hc]
        refine ⟨_, g[Index].GcdMemoryType, ?_, Or.inl ⟨g[Index], List.getElem_mem hlt, hc, rfl, rfl⟩⟩
        unfold spaceEnd
        split <;> rfl
      · rw [if_neg hc]
        obtain ⟨rem, ty1, e1, e2⟩ := ih (Index + 1) (by omega) (by omega)
        refine ⟨rem, ty1, e1, ?_⟩
        rcases e2 with e2 | ⟨e2, e3, e4⟩
        · exact Or.inl e2
        · refine Or.inr ⟨?_, e3, e4⟩
          intro j d hj hd
          by_cases hji : j = Index
          · subst hji
            rw [List.getElem?_eq_getElem hlt] at hd
            cases hd
            exact hc
          · exact e2 j d (by omega) hd
    · rw [if_neg hlt]
      refine ⟨0, _, rfl, Or.inr ⟨?_, rfl, rfl⟩⟩
      intro j d hj hd
      rw [List.getElem?_eq_none (by omega)] at hd
      cases hd

theorem overlap_step (g : List EFI_GCD_MEMORY_SPACE_DESCRIPTOR) (q n : Nat)
    (ty : EFI_GCD_MEMORY_TYPE) (hq : PageAligned q) (hn : 0 < n)
    (hg : ∀ d ∈ g, PageAligned (spaceEnd d)) :
    ∃ rem ty1, GetOverlappingMemorySpaceRegion (some g) g.length q n ty = some (rem, ty1) ∧
      rem < n ∧
      (g ≠ [] → q + n * 4096 < 2 ^ 64 →
        ((∃ d ∈ g, Covers d q ∧ ty1 = d.GcdMemoryType ∧ q + (n - rem) * 4096 ≤ spaceEnd d) ∨
          ((∀ d ∈ g, ¬ Covers d q) ∧
            ty1 = EFI_GCD_MEMORY_TYPE.EfiGcdMemoryTypeNonExistent ∧ rem = 0))) := by
  unfold GetOverlappingMemorySpaceRegion
  by_cases hlen : g.length = 0
  · have : n = 0 ∨ g.length = 0 := Or.inr hlen
    simp only [if_pos this]
    refine ⟨0, ty, rfl, hn, ?_⟩
    intro hne
    exact absurd (List.length_eq_zero.mp hlen) hne
  · have : ¬ (n = 0 ∨ g.length = 0) := by omega
    simp only [if_neg this]
    rw [queryEnd_eq]
    obtain ⟨rem, ty1, e1, e2⟩ := overlapLoop_cases g q (queryEnd q n) (g.length + 1) 0
      (Nat.zero_le _) (by omega)
    refine ⟨rem, ty1, e1, ?_⟩
    rcases e2 with ⟨d, hd, hc, ht, hr⟩ | ⟨e2, e3, e4⟩
    · have hda := hg d hd
      obtain ⟨hc1, hc2⟩ := hc
      unfold PageAligned EFI_PAGE_SIZE at hq hda
      have hqe : queryEnd q n % 4096 = 0 := by
        unfold queryEnd
        norm_num at hq ⊢
        omega
      have hqle : queryEnd q n ≤ q + n * 4096 := by
        unfold queryEnd
        exact Nat.mod_le _ _
      by_cases hge : spaceEnd d ≥ queryEnd q n
      · rw [if_pos hge] at hr
        subst hr
        refine ⟨hn, ?_⟩
        intro _ hno
        refine Or.inl ⟨d, hd, ⟨hc1, hc2⟩, ht, ?_⟩
        have : queryEnd q n = q + n * 4096 := by
          unfold queryEnd
          exact Nat.mod_eq_of_lt hno
        omega
      · rw [if_neg hge, EfiSizeToPages_eq_ceil] at hr
        have hrem : rem * 4096 = queryEnd q n - spaceEnd d := by omega
        refine ⟨by omega, ?_⟩
        intro _ hno
        refine Or.inl ⟨d, hd, ⟨hc1, hc2⟩, ht, ?_⟩
        have : queryEnd q n = q + n * 4096 := by
          unfold queryEnd
          exact Nat.mod_eq_of_lt hno
        omega
    · subst e4
      refine ⟨hn, ?_⟩
      intro _ _
      refine Or.inr ⟨?_, e3, rfl⟩
      intro d hd
      obtain ⟨j, hj, hjd⟩ := List.getElem_of_mem hd
      exact e2 j d (Nat.zero_le _) (by rw [List.getElem?_eq_getElem hj, hjd])

theorem dumpLoop_step (g : List EFI_GCD_MEMORY_SPACE_DESCRIPTOR) (N S D fuel i : Nat)
    (mm : List EFI_MEMORY_DESCRIPTOR) (ty ty1 : EFI_GCD_MEMORY_TYPE) (out : List MemoryMapRecord)
    (e : EFI_MEMORY_DESCRIPTOR) (rem : Nat) (hguard : i * D < S) (hget : mm[i]? = some e)
    (hG : GetOverlappingMemorySpaceRegion (some g) N e.PhysicalStart e.NumberOfPages ty
      = some (rem, ty1)) :
    dumpLoop (some g) N S D (fuel + 1) i mm ty out
      = if rem > 0 then
          dumpLoop (some g) N S D fuel i (mm.set i (dumpShrink e rem)) ty1
            (out ++ [dumpLine e rem ty1])
        else dumpLoop (some g) N S D fuel (i + 1) mm ty1 (out ++ [dumpLine e rem ty1]) := by
  conv => lhs; unfold dumpLoop
  simp only [if_pos hguard, hget, hG]
  rfl

theorem shrink_start (q n rem : Nat) (hrem : rem ≤ n) :
    (q + EfiPagesToSize (sub64 n rem)) % U64 = (q + (n - rem) * 4096) % 2 ^ 64 := by
  simp only [EfiPagesToSize, sub64, U64, EFI_PAGE_SHIFT] at *
  norm_num at *
  omega

theorem sub64_of_le (n rem : Nat) (hrem : rem ≤ n) (hn : n < U64) : sub64 n rem = n - rem := by
  simp only [sub64, U64] at *
  omega

theorem entry_run (g : List EFI_GCD_MEMORY_SPACE_DESCRIPTOR)
    (hg : ∀ d ∈ g, PageAligned (spaceEnd d)) (S D i : Nat) (hguard : i * D < S) :
    ∀ (n : Nat) (e : EFI_MEMORY_DESCRIPTOR) (mm : List EFI_MEMORY_DESCRIPTOR)
      (ty : EFI_GCD_MEMORY_TYPE),
      e.NumberOfPages = n → mm[i]? = some e → PageAligned e.PhysicalStart → n < U64 →
      ∃ k rs mm1 ty1,
        (∀ fuel out, dumpLoop (some g) g.length S D (fuel + k) i mm ty out
          = dumpLoop (some g) g.length S D fuel (i + 1) mm1 ty1 (out ++ rs)) ∧
        mm1.length = mm.length ∧ (∀ j, j ≠ i → mm1[j]? = mm[j]?) ∧
        Tiles e.PhysicalStart n rs ∧
        (g ≠ [] → e.PhysicalStart + n * 4096 < 2 ^ 64 →
          ∀ r ∈ rs, RecordInside g e.PhysicalStart n r) := by
  intro n
  induction n using Nat.strong_induction_on with
  | _ n ih =>
    intro e mm ty hen hget hal hn64
    have hi : i < mm.length := by
      rcases Nat.lt_or_ge i mm.length with h | h
      · exact h
      · rw [List.getElem?_eq_none h] at hget; cases hget
    by_cases hn0 : n = 0
    · have hG : GetOverlappingMemorySpaceRegion (some g) g.length e.PhysicalStart
          e.NumberOfPages ty = some (0, ty) := by
        unfold GetOverlappingMemorySpaceRegion
        have : e.NumberOfPages = 0 ∨ g.length = 0 := Or.inl (by omega)
        simp only [if_pos this]
      refine ⟨1, [dumpLine e 0 ty], mm, ty, ?_, rfl, fun _ _ => rfl, ?_, ?_⟩
      · intro fuel out
        rw [dumpLoop_step g g.length S D fuel i mm ty ty out e 0 hguard hget hG]
        simp
      · refine ⟨rfl, List.chain'_singleton _, ?_⟩
        simp [dumpLine, hen, hn0, sub64, U64]
      · intro _ _ r hr
        simp at hr
        subst hr
        refine ⟨Nat.le_refl _, ?_, Or.inl ?_⟩
        · simp [dumpLine, hen, hn0, sub64, U64]
        · simp [dumpLine, hen, hn0, sub64, U64]
    · obtain ⟨rem, ty1, hG, hlt, hcase⟩ := overlap_step g e.PhysicalStart n ty hal (by omega) hg
      rw [← hen] at hG
      have hpages : sub64 e.NumberOfPages rem = n - rem := by
        rw [hen]
        exact sub64_of_le n rem (by omega) hn64
      by_cases hrem : rem = 0
      · subst hrem
        refine ⟨1, [dumpLine e 0 ty1], mm, ty1, ?_, rfl, fun _ _ => rfl, ?_, ?_⟩
        · intro fuel out
          rw [dumpLoop_step g g.length S D fuel i mm ty ty1 out e 0 hguard hget hG]
          simp
        · refine ⟨rfl, List.chain'_singleton _, ?_⟩
          simp [dumpLine, hpages]
        · intro hne hno r hr
          simp at hr
          subst hr
          refine ⟨Nat.le_refl _, ?_, ?_⟩
          · simp [dumpLine, hpages]
          · rcases hcase hne hno with ⟨d, hd, hc, ht, hin⟩ | ⟨hnc, ht, _⟩
            · refine Or.inr (Or.inl ⟨d, hd, hc, ht, ?_⟩)
              simpa [dumpLine, hpages] using hin
            · exact Or.inr (Or.inr ⟨hnc, ht⟩)
      · have hq1 : (dumpShrink e rem).PhysicalStart
            = (e.PhysicalStart + (n - rem) * 4096) % 2 ^ 64 := by
          simp only [dumpShrink]
          rw [hen]
          exact shrink_start e.PhysicalStart n rem (by omega)
        have hal1 : PageAligned (dumpShrink e rem).PhysicalStart := by
          rw [hq1]
          unfold PageAligned EFI_PAGE_SIZE at hal ⊢
          norm_num at hal ⊢
          omega
        obtain ⟨k, rs, mm1, ty2, h1, h2, h3, h4, h5⟩ := ih rem hlt (dumpShrink e rem)
          (mm.set i (dumpShrink e rem)) ty1 rfl (by simp [hi]) hal1 (by omega)
        refine ⟨k + 1, dumpLine e rem ty1 :: rs, mm1, ty2, ?_, ?_, ?_, ?_, ?_⟩
        · intro fuel out
          have : fuel + (k + 1) = (fuel + k) + 1 := by omega
          rw [this, dumpLoop_step g g.length S D (fuel + k) i mm ty ty1 out e rem hguard hget hG,
            if_pos (by omega), h1]
          simp
        · rw [h2]; simp
        · intro j hj
          rw [h3 j hj, List.getElem?_set_ne (Ne.symm hj)]
        · obtain ⟨t1, t2, t3⟩ := h4
          refine ⟨rfl, ?_, ?_⟩
          · rw [List.chain'_cons']
            refine ⟨?_, t2⟩
            intro y hy
            have : y.PhysicalStart = (dumpShrink e rem).PhysicalStart := by
              cases rs with
              | nil => simp at hy
              | cons x xs =>
                simp at hy t1
                rw [← hy, t1]
            rw [this, hq1]
            simp [dumpLine, hpages]
          · simp only [List.map_cons, List.sum_cons, t3]
            simp only [dumpLine, hpages]
            omega
        · intro hne hno r hr
          have hq1e : (dumpShrink e rem).PhysicalStart = e.PhysicalStart + (n - rem) * 4096 := by
            rw [hq1]
            exact Nat.mod_eq_of_lt (by omega)
          rcases List.mem_cons.mp hr with hr | hr
          · subst hr
            refine ⟨Nat.le_refl _, ?_, ?_⟩
            · simp only [dumpLine, hpages]
              omega
            · rcases hcase hne hno with ⟨d, hd, hc, ht, hin⟩ | ⟨_, _, h0⟩
              · refine Or.inr (Or.inl ⟨d, hd, hc, ht, ?_⟩)
                simpa [dumpLine, hpages] using hin
              · exact absurd h0 hrem
          · obtain ⟨r1, r2, r3⟩ := h5 hne (by rw [hq1e]; omega) r hr
            rw [hq1e] at r1 r2
            exact ⟨by omega, by omega, r3⟩

theorem dumpLoop_run (g : List EFI_GCD_MEMORY_SPACE_DESCRIPTOR)
    (hg : ∀ d ∈ g, PageAligned (spaceEnd d)) (D : Nat) (hD : 0 < D) :
    ∀ (rest mm : List EFI_MEMORY_DESCRIPTOR) (i : Nat) (ty : EFI_GCD_MEMORY_TYPE)
      (out : List MemoryMapRecord),
      mm.drop i = rest → i ≤ mm.length →
      (∀ e ∈ rest, PageAligned e.PhysicalStart ∧ e.NumberOfPages < U64) →
      ∃ K groups,
        (∀ f, dumpLoop (some g) g.length (mm.length * D) D (f + K) i mm ty out
          = some (out ++ groups.flatten)) ∧
        List.Forall₂ (fun e rs => Tiles e.PhysicalStart e.NumberOfPages rs ∧
          (g ≠ [] → e.PhysicalStart + e.NumberOfPages * 4096 < 2 ^ 64 →
            ∀ r ∈ rs, RecordInside g e.PhysicalStart e.NumberOfPages r)) rest groups := by
  intro rest
  induction rest with
  | nil =>
    intro mm i ty out hdrop hi _
    have hlen : mm.length ≤ i := by
      have := congrArg List.length hdrop
      simp at this
      omega
    refine ⟨1, [], ?_, List.Forall₂.nil⟩
    intro f
    unfold dumpLoop
    have : ¬ i * D < mm.length * D := by
      rw [slot_guard _ _ _ hD]
      omega
    rw [if_neg this]
    simp
  | cons e rest ih =>
    intro mm i ty out hdrop hi hwf
    have hlen : i < mm.length := by
      have := congrArg List.length hdrop
      simp at this
      omega
    have hget : mm[i]? = some e := by
      have h0 : (mm.drop i)[0]? = some e := by rw [hdrop]; simp
      rw [List.getElem?_drop] at h0
      simpa using h0
    obtain ⟨hal, hn64⟩ := hwf e (by simp)
    obtain ⟨k, rs, mm1, ty1, h1, h2, h3, h4, h5⟩ := entry_run g hg (mm.length * D) D i
      ((slot_guard _ _ _ hD).mpr hlen) e.NumberOfPages e mm ty rfl hget hal hn64
    have hdrop1 : mm1.drop (i + 1) = rest := by
      apply List.ext_getElem?
      intro j
      rw [List.getElem?_drop, h3 (i + 1 + j) (by omega)]
      have : rest[j]? = (mm.drop i)[j + 1]? := by rw [hdrop]; simp
      rw [this, List.getElem?_drop]
      congr 1
      omega
    obtain ⟨K, groups, e1, e2⟩ := ih mm1 (i + 1) ty1 (out ++ rs) hdrop1 (by omega)
      (fun x hx => hwf x (List.mem_cons_of_mem _ hx))
    refine ⟨K + k, rs :: groups, ?_, List.Forall₂.cons ⟨h4, h5⟩ e2⟩
    intro f
    have : f + (K + k) = (f + K) + k := by omega
    rw [this, h1, ← h2, e1]
    simp

theorem forall2_right_mem {α β : Type} (P : α → β → Prop) :
    ∀ (l : List α) (m : List β), List.Forall₂ P l m → ∀ b ∈ m, ∃ a ∈ l, P a b := by
  intro l m h
  induction h with
  | nil => intro b hb; simp at hb
  | cons hab _ ih =>
    intro b hb
    rcases List.mem_cons.mp hb with hb | hb
    · subst hb
      exact ⟨_, List.mem_cons_self _ _, hab⟩
    · obtain ⟨a, ha, hp⟩ := ih b hb
      exact ⟨a, List.mem_cons_of_mem _ ha, hp⟩

theorem span_cover (p : Nat) :
    ∀ (g : List EFI_GCD_MEMORY_SPACE_DESCRIPTOR) (first last : EFI_GCD_MEMORY_SPACE_DESCRIPTOR),
      List.Chain' (fun a b => a.BaseAddress + a.Length = b.BaseAddress) g →
      g.head? = some first → g.getLast? = some last →
      first.BaseAddress ≤ p → p < last.BaseAddress + last.Length →
      ∃ d ∈ g, d.BaseAddress ≤ p ∧ p < d.BaseAddress + d.Length
  | [], _, _, _, h, _, _, _ => by simp at h
  | [a], first, last, _, h1, h2, h3, h4 => by
    simp at h1 h2
    subst h1; subst h2
    exact ⟨_, by simp, h3, h4⟩
  | a :: b :: t, first, last, hc, h1, h2, h3, h4 => by
    simp at h1
    subst h1
    rw [List.chain'_cons] at hc
    by_cases hp : p < a.BaseAddress + a.Length
    · exact ⟨a, by simp, h3, hp⟩
    · obtain ⟨d, hd, hd2⟩ := span_cover p (b :: t) b last hc.2 rfl
        (by rw [List.getLast?_cons_cons] at h2; exact h2) (by rw [← hc.1]; omega) h4
      exact ⟨d, List.mem_cons_of_mem _ hd, hd2⟩

theorem disjoint_of_chain :
    ∀ (g : List EFI_GCD_MEMORY_SPACE_DESCRIPTOR),
      List.Chain' (fun a b => a.BaseAddress + a.Length = b.BaseAddress) g →
      List.Pairwise (fun a b => a.BaseAddress + a.Length ≤ b.BaseAddress) g
  | [], _ => List.Pairwise.nil
  | [a], _ => List.pairwise_singleton _ _
  | a :: b :: t, hc => by
    rw [List.chain'_cons] at hc
    have ih := disjoint_of_chain (b :: t) hc.2
    rw [List.pairwise_cons]
    refine ⟨?_, ih⟩
    intro x hx
    rcases List.mem_cons.mp hx with hx | hx
    · subst hx; omega
    · have := (List.pairwise_cons.mp ih).1 x hx
      omega

theorem tiles_exact :
    ∀ (rs : List MemoryMapRecord) (q n : Nat), Tiles q n rs → q + n * 4096 < 2 ^ 64 →
      TilesExact q n rs
  | [], _, _, h, _ => by
    have := h.1
    simp at this
  | [r], q, n, h, _ => by
    obtain ⟨h1, _, h3⟩ := h
    simp at h1 h3
    refine ⟨by simp [h1], List.chain'_singleton _, ?_⟩
    simp [h1, h3]
  | r :: r2 :: t, q, n, h, hno => by
    obtain ⟨h1, h2, h3⟩ := h
    simp at h1
    rw [List.chain'_cons] at h2
    simp only [List.map_cons, List.sum_cons] at h3
    have hle : r.NumberOfPages ≤ n := by omega
    have hstart : r.PhysicalStart + r.NumberOfPages * 4096 = r2.PhysicalStart := by
      rw [← h2.1]
      exact (Nat.mod_eq_of_lt (by omega)).symm
    have ih := tiles_exact (r2 :: t) r2.PhysicalStart (n - r.NumberOfPages)
      ⟨rfl, h2.2, by simp only [List.map_cons, List.sum_cons]; omega⟩ (by omega)
    obtain ⟨_, i2, i3⟩ := ih
    refine ⟨by simp [h1], ?_, ?_⟩
    · rw [List.chain'_cons]
      exact ⟨hstart, i2⟩
    · rw [List.getLast?_cons_cons, i3]
      congr 1
      have : (n - r.NumberOfPages) * 4096 = n * 4096 - r.NumberOfPages * 4096 := by omega
      omega

/-- C8 (overlay conservation).  For every classification array whose descriptor
ends are page-aligned and every memory map whose entries start page-aligned (the
invariant of a memory-map entry) with 64-bit page counts, the reconciliation loop
of `MemoryMapDumpHandler` finishes, and the records it prints split into one
group per memory-map entry such that the group tiles its entry: the first record
starts at the entry's start, each next record starts where the previous one ended,
and the page counts of the group add up to the entry's page count.  When the entry
does not wrap around the 64-bit address space the sums are exact and the last
record ends at the entry's end: no gaps and no overlaps. -/
theorem dumpLoop_tiles (g : List EFI_GCD_MEMORY_SPACE_DESCRIPTOR)
    (mm : List EFI_MEMORY_DESCRIPTOR) (D : Nat) (ty : EFI_GCD_MEMORY_TYPE) (hD : 0 < D)
    (hg : ∀ d ∈ g, PageAligned (spaceEnd d))
    (hmm : ∀ e ∈ mm, PageAligned e.PhysicalStart ∧ e.NumberOfPages < U64) :
    ∃ K groups,
      (∀ f, dumpLoop (some g) g.length (mm.length * D) D (f + K) 0 mm ty []
        = some groups.flatten) ∧
      List.Forall₂ (fun e rs => Tiles e.PhysicalStart e.NumberOfPages rs ∧
        (e.PhysicalStart + e.NumberOfPages * 4096 < 2 ^ 64 →
          TilesExact e.PhysicalStart e.NumberOfPages rs)) mm groups := by
  obtain ⟨K, groups, h1, h2⟩ := dumpLoop_run g hg D hD mm mm 0 ty [] rfl (Nat.zero_le _) hmm
  refine ⟨K, groups, ?_, ?_⟩
  · intro f
    rw [h1 f]
    simp
  · exact h2.imp (fun e rs h => ⟨h.1, tiles_exact rs _ _ h.1⟩)

/-- C9 (per-page classification, amended).  For a classification array without
gaps (each descriptor starts where the one before it ends, so the array is sorted
and its descriptors do not overlap), with page-aligned ends and no 64-bit
wrap-around, and a memory map whose entries start page-aligned and lie inside the
span `[first base, last base + last length)`, the reconciliation loop finishes
and every page of every record lies in a descriptor of the record's
classification, and in no descriptor of another classification. -/
theorem dumpLoop_classified (g : List EFI_GCD_MEMORY_SPACE_DESCRIPTOR)
    (mm : List EFI_MEMORY_DESCRIPTOR) (D : Nat) (ty : EFI_GCD_MEMORY_TYPE)
    (first last : EFI_GCD_MEMORY_SPACE_DESCRIPTOR) (hD : 0 < D)
    (hchain : List.Chain' (fun a b => a.BaseAddress + a.Length = b.BaseAddress) g)
    (hgwf : ∀ d ∈ g, PageAligned (d.BaseAddress + d.Length) ∧ d.BaseAddress + d.Length < 2 ^ 64)
    (hfirst : g.head? = some first) (hlast : g.getLast? = some last)
    (hmm : ∀ e ∈ mm, PageAligned e.PhysicalStart ∧ first.BaseAddress ≤ e.PhysicalStart ∧
      e.PhysicalStart + e.NumberOfPages * 4096 ≤ last.BaseAddress + last.Length) :
    ∃ K out,
      (∀ f, dumpLoop (some g) g.length (mm.length * D) D (f + K) 0 mm ty [] = some out) ∧
      ∀ r ∈ out, ∀ p, r.PhysicalStart ≤ p → p < r.PhysicalStart + r.NumberOfPages * 4096 →
        (∃ d ∈ g, d.GcdMemoryType = r.MemorySpaceType ∧
          d.BaseAddress ≤ p ∧ p < d.BaseAddress + d.Length) ∧
        (∀ d ∈ g, d.BaseAddress ≤ p → p < d.BaseAddress + d.Length →
          d.GcdMemoryType = r.MemorySpaceType) := by
  have hend : ∀ d ∈ g, spaceEnd d = d.BaseAddress + d.Length := by
    intro d hd
    unfold spaceEnd U64
    exact Nat.mod_eq_of_lt (hgwf d hd).2
  have hg : ∀ d ∈ g, PageAligned (spaceEnd d) := by
    intro d hd
    rw [hend d hd]
    exact (hgwf d hd).1
  have hlastmem : last ∈ g := List.mem_of_getLast?_eq_some hlast
  have hlast64 := (hgwf last hlastmem).2
  have hne : g ≠ [] := List.ne_nil_of_mem hlastmem
  have hmm2 : ∀ e ∈ mm, PageAligned e.PhysicalStart ∧ e.NumberOfPages < U64 := by
    intro e he
    obtain ⟨h1, _, h3⟩ := hmm e he
    refine ⟨h1, ?_⟩
    unfold U64
    omega
  have hpair := disjoint_of_chain g hchain
  have huniq : ∀ a ∈ g, ∀ b ∈ g, a = b ∨ a.BaseAddress + a.Length ≤ b.BaseAddress ∨
      b.BaseAddress + b.Length ≤ a.BaseAddress := by
    intro a ha b hb
    exact List.Pairwise.forall_of_forall
      (R := fun a b : EFI_GCD_MEMORY_SPACE_DESCRIPTOR =>
        a = b ∨ a.BaseAddress + a.Length ≤ b.BaseAddress ∨
          b.BaseAddress + b.Length ≤ a.BaseAddress)
      (by
        intro x y h
        rcases h with h | h | h
        · exact Or.inl h.symm
        · exact Or.inr (Or.inr h)
        · exact Or.inr (Or.inl h))
      (fun x _ => Or.inl rfl)
      (hpair.imp (fun h => Or.inr (Or.inl h))) ha hb
  obtain ⟨K, groups, h1, h2⟩ := dumpLoop_run g hg D hD mm mm 0 ty [] rfl (Nat.zero_le _) hmm2
  refine ⟨K, groups.flatten, ?_, ?_⟩
  · intro f
    rw [h1 f]
    simp
  · intro r hr p hp1 hp2
    obtain ⟨rs, hrs, hrrs⟩ := List.mem_flatten.mp hr
    obtain ⟨e, he, _, hins⟩ := forall2_right_mem _ mm groups h2 rs hrs
    obtain ⟨ha, hlo, hhi⟩ := hmm e he
    obtain ⟨r1, r2, r3⟩ := hins hne (by omega) r hrrs
    have hcov : ∃ d ∈ g, Covers d r.PhysicalStart ∧ r.MemorySpaceType = d.GcdMemoryType ∧
        r.PhysicalStart + r.NumberOfPages * 4096 ≤ spaceEnd d := by
      rcases r3 with h0 | h | ⟨hnc, _⟩
      · rw [h0] at hp2
        omega
      · exact h
      · obtain ⟨d, hd, hd1, hd2⟩ := span_cover r.PhysicalStart g first last hchain hfirst hlast
          (by omega) (by omega)
        exfalso
        apply hnc d hd
        unfold Covers
        rw [hend d hd]
        exact ⟨hd1, hd2⟩
    obtain ⟨d, hd, hc, ht, hin⟩ := hcov
    rw [hend d hd] at hin
    obtain ⟨hc1, _⟩ := hc
    refine ⟨⟨d, hd, ht.symm, by omega, by omega⟩, ?_⟩
    intro d1 hd1 hb1 hb2
    rcases huniq d hd d1 hd1 with h | h | h
    · rw [← h, ht]
    · omega
    · omega

theorem GetOverlappingMemorySpaceRegion_covered_witness :
    ∃ ret, GetOverlappingMemorySpaceRegion (some adjacentSpaceMap) adjacentSpaceMap.length
          0x1000 2 EFI_GCD_MEMORY_TYPE.EfiGcdMemoryTypeMaximum
        = some (ret, (⟨0x1000, 0x1000, 0, 0, EFI_GCD_MEMORY_TYPE.EfiGcdMemoryTypeSystemMemory,
            0, 0⟩ : EFI_GCD_MEMORY_SPACE_DESCRIPTOR).GcdMemoryType) ∧
      (queryEnd 0x1000 2 ≤ spaceEnd ⟨0x1000, 0x1000, 0, 0,
          EFI_GCD_MEMORY_TYPE.EfiGcdMemoryTypeSystemMemory, 0, 0⟩ → ret = 0) ∧
      (spaceEnd ⟨0x1000, 0x1000, 0, 0, EFI_GCD_MEMORY_TYPE.EfiGcdMemoryTypeSystemMemory, 0, 0⟩
          < queryEnd 0x1000 2 →
        ret = (queryEnd 0x1000 2 - spaceEnd ⟨0x1000, 0x1000, 0, 0,
          EFI_GCD_MEMORY_TYPE.EfiGcdMemoryTypeSystemMemory, 0, 0⟩ + 4095) / 4096 ∧
        (PageAligned 0x1000 → PageAligned (spaceEnd ⟨0x1000, 0x1000, 0, 0,
            EFI_GCD_MEMORY_TYPE.EfiGcdMemoryTypeSystemMemory, 0, 0⟩) →
          ret * 4096 = queryEnd 0x1000 2 - spaceEnd ⟨0x1000, 0x1000, 0, 0,
            EFI_GCD_MEMORY_TYPE.EfiGcdMemoryTypeSystemMemory, 0, 0⟩)) :=
  GetOverlappingMemorySpaceRegion_covered adjacentSpaceMap 0x1000 2
    EFI_GCD_MEMORY_TYPE.EfiGcdMemoryTypeMaximum 1
    ⟨0x1000, 0x1000, 0, 0, EFI_GCD_MEMORY_TYPE.EfiGcdMemoryTypeSystemMemory, 0, 0⟩
    (by decide) (by decide) (by decide) (by decide)
    (by
      intro j d1 hj h
      have hj0 : j = 0 := by omega
      subst hj0
      simp [adjacentSpaceMap] at h
      subst h
      decide)

theorem GetOverlappingMemorySpaceRegion_covered_example :
    GetOverlappingMemorySpaceRegion (some adjacentSpaceMap) 3 0x1000 2
        EFI_GCD_MEMORY_TYPE.EfiGcdMemoryTypeMaximum
      = some (1, EFI_GCD_MEMORY_TYPE.EfiGcdMemoryTypeSystemMemory) := by
  decide

theorem GetOverlappingMemorySpaceRegion_uncovered_witness :
    GetOverlappingMemorySpaceRegion (some adjacentSpaceMap) adjacentSpaceMap.length 0x5000 1
        EFI_GCD_MEMORY_TYPE.EfiGcdMemoryTypeMaximum
      = some (0, EFI_GCD_MEMORY_TYPE.EfiGcdMemoryTypeNonExistent) :=
  GetOverlappingMemorySpaceRegion_uncovered adjacentSpaceMap 0x5000 1
    EFI_GCD_MEMORY_TYPE.EfiGcdMemoryTypeMaximum (by decide) (by decide) (by decide)

theorem dumpLoop_tiles_witness :
    ∃ K groups,
      (∀ f, dumpLoop (some scenarioSpaceMap) scenarioSpaceMap.length
          (scenarioMemoryMap.length * 48) 48 (f + K) 0 scenarioMemoryMap
          EFI_GCD_MEMORY_TYPE.EfiGcdMemoryTypeMaximum []
        = some groups.flatten) ∧
      List.Forall₂ (fun e rs => Tiles e.PhysicalStart e.NumberOfPages rs ∧
        (e.PhysicalStart + e.NumberOfPages * 4096 < 2 ^ 64 →
          TilesExact e.PhysicalStart e.NumberOfPages rs)) scenarioMemoryMap groups :=
  dumpLoop_tiles scenarioSpaceMap scenarioMemoryMap 48
    EFI_GCD_MEMORY_TYPE.EfiGcdMemoryTypeMaximum (by decide) (by decide) (by decide)

theorem dumpLoop_example :
    dumpLoop (some scenarioSpaceMap) 3 48 48 10 0 scenarioMemoryMap
        EFI_GCD_MEMORY_TYPE.EfiGcdMemoryTypeMaximum []
      = some [⟨7, 0, 0, 1, 0, EFI_GCD_MEMORY_TYPE.EfiGcdMemoryTypeSystemMemory⟩,
          ⟨7, 0x1000, 0, 1, 0, EFI_GCD_MEMORY_TYPE.EfiGcdMemoryTypeNonExistent⟩] := by
  decide

/-- C9 (as stated) fails: the space map with a hole is sorted and its descriptors
do not overlap, and the three pages at `0` lie inside its span `[0, 0x3000)`; the
loop prints `(0, 1 page, SystemMemory)` and `(0x1000, 2 pages, NonExistent)`.  The
page `0x2000` of the second record lies in a system-memory descriptor, and no
descriptor of the recorded classification contains it. -/
theorem dumpLoop_classified_counterexample :
    dumpLoop (some spaceMapWithHole) 2 48 48 10 0 threePagesAt0
        EFI_GCD_MEMORY_TYPE.EfiGcdMemoryTypeMaximum []
      = some [⟨7, 0, 0, 1, 0, EFI_GCD_MEMORY_TYPE.EfiGcdMemoryTypeSystemMemory⟩,
          ⟨7, 0x1000, 0, 2, 0, EFI_GCD_MEMORY_TYPE.EfiGcdMemoryTypeNonExistent⟩] ∧
    (0x1000 ≤ 0x2000 ∧ 0x2000 < 0x1000 + 2 * 4096) ∧
    (∃ d ∈ spaceMapWithHole, Covers d 0x2000 ∧
      d.GcdMemoryType = EFI_GCD_MEMORY_TYPE.EfiGcdMemoryTypeSystemMemory) ∧
    ¬ ∃ d ∈ spaceMapWithHole, Covers d 0x2000 ∧
      d.GcdMemoryType = EFI_GCD_MEMORY_TYPE.EfiGcdMemoryTypeNonExistent := by
  decide

theorem dumpLoop_classified_witness :
    ∃ K out,
      (∀ f, dumpLoop (some adjacentSpaceMap) adjacentSpaceMap.length
          (threePagesAt0.length * 48) 48 (f + K) 0 threePagesAt0
          EFI_GCD_MEMORY_TYPE.EfiGcdMemoryTypeMaximum [] = some out) ∧
      ∀ r ∈ out, ∀ p, r.PhysicalStart ≤ p → p < r.PhysicalStart + r.NumberOfPages * 4096 →
        (∃ d ∈ adjacentSpaceMap, d.GcdMemoryType = r.MemorySpaceType ∧
          d.BaseAddress ≤ p ∧ p < d.BaseAddress + d.Length) ∧
        (∀ d ∈ adjacentSpaceMap, d.BaseAddress ≤ p → p < d.BaseAddress + d.Length →
          d.GcdMemoryType = r.MemorySpaceType) :=
  dumpLoop_classified adjacentSpaceMap threePagesAt0 48
    EFI_GCD_MEMORY_TYPE.EfiGcdMemoryTypeMaximum
    ⟨0, 0x1000, 0, 0, EFI_GCD_MEMORY_TYPE.EfiGcdMemoryTypeSystemMemory, 0, 0⟩
    ⟨0x2000, 0x1000, 0, 0, EFI_GCD_MEMORY_TYPE.EfiGcdMemoryTypeMemoryMappedIo, 0, 0⟩
    (by decide) (by simp [adjacentSpaceMap]) (by decide) (by decide) (by decide) (by decide)

/-- C10 (as stated) fails: on the scenario the handler prints four records, not
the three records of the claim.  The two system-memory ranges of the scenario are
not adjacent (`0 + 0x1000` is not `0x2000`), so nothing is merged, and the pages at
`0x1000` and `0x3000` lie in no descriptor. -/
theorem MemoryMapDumpHandler_scenario_counterexample :
    (MemoryMapDumpHandler 10 15 56 true true true true scenarioMemoryMap 48 48 3
        scenarioSpaceMap EFI_GCD_MEMORY_TYPE.EfiGcdMemoryTypeMaximum).map
        (fun out => out.map recordKey)
      = some [(0, 1, EFI_GCD_MEMORY_TYPE.EfiGcdMemoryTypeSystemMemory),
          (0x1000, 1, EFI_GCD_MEMORY_TYPE.EfiGcdMemoryTypeNonExistent),
          (0x2000, 1, EFI_GCD_MEMORY_TYPE.EfiGcdMemoryTypeSystemMemory),
          (0x3000, 2, EFI_GCD_MEMORY_TYPE.EfiGcdMemoryTypeNonExistent)] ∧
    (MemoryMapDumpHandler 10 15 56 true true true true scenarioMemoryMap 48 48 3
        scenarioSpaceMap EFI_GCD_MEMORY_TYPE.EfiGcdMemoryTypeMaximum).map
        (fun out => out.map recordKey)
      ≠ some [(0, 2, EFI_GCD_MEMORY_TYPE.EfiGcdMemoryTypeSystemMemory),
          (0x2000, 1, EFI_GCD_MEMORY_TYPE.EfiGcdMemoryTypeSystemMemory),
          (0x3000, 1, EFI_GCD_MEMORY_TYPE.EfiGcdMemoryTypeMemoryMappedIo)] := by
  decide

/-- C10 (end-to-end scenario, amended).  On the scenario, with every allocation
succeeding and whatever the sentinel type, the initial content of
`MemorySpaceType` and the fuel above five steps, the pipeline prints exactly four
records: `(0, 1 page, SystemMemory)`, `(0x1000, 1 page, NonExistent)`,
`(0x2000, 1 page, SystemMemory)`, `(0x3000, 2 pages, NonExistent)`. -/
theorem MemoryMapDumpHandler_scenario (f NONE : Nat) (ty : EFI_GCD_MEMORY_TYPE) :
    MemoryMapDumpHandler (f + 5) NONE 56 true true true true scenarioMemoryMap 48 48 3
        scenarioSpaceMap ty
      = some [⟨7, 0, 0, 1, 0, EFI_GCD_MEMORY_TYPE.EfiGcdMemoryTypeSystemMemory⟩,
          ⟨7, 0x1000, 0, 1, 0, EFI_GCD_MEMORY_TYPE.EfiGcdMemoryTypeNonExistent⟩,
          ⟨NONE, 0x2000, 0, 1, 0, EFI_GCD_MEMORY_TYPE.EfiGcdMemoryTypeSystemMemory⟩,
          ⟨NONE, 0x3000, 0, 2, 0, EFI_GCD_MEMORY_TYPE.EfiGcdMemoryTypeNonExistent⟩] := by
  have h1 : SortMemorySpaceMap scenarioSpaceMap 3 56 = some scenarioSpaceMap := by decide
  have h2 : MergeMemorySpaceMap true true 3 (some scenarioSpaceMap)
      = some (EFI_STATUS.EFI_SUCCESS, 3, some scenarioSpaceMap) := by decide
  have h3 : SortMemoryMap scenarioMemoryMap 48 48 = some scenarioMemoryMap := by decide
  have h4 : scenarioSpaceMap[0]? = some ⟨0, 0x1000, 0, 0,
      EFI_GCD_MEMORY_TYPE.EfiGcdMemoryTypeSystemMemory, 0, 0⟩ := by decide
  have h5 : scenarioSpaceMap[3 - 1]? = some ⟨0x4000, 0x1000, 0, 0,
      EFI_GCD_MEMORY_TYPE.EfiGcdMemoryTypeMemoryMappedIo, 0, 0⟩ := by decide
  have h6 : FillInMemoryMap NONE true true 48 (some scenarioMemoryMap) 48 0
      ((0x4000 + 0x1000) % U64)
      = some (EFI_STATUS.EFI_SUCCESS, 96, some [⟨7, 0, 0, 2, 0⟩, ⟨NONE, 0x2000, 0, 3, 0⟩]) := by
    rfl
  have h7 : dumpLoop (some scenarioSpaceMap) 3 96 48 (f + 5) 0
      [⟨7, 0, 0, 2, 0⟩, ⟨NONE, 0x2000, 0, 3, 0⟩] ty []
      = some [⟨7, 0, 0, 1, 0, EFI_GCD_MEMORY_TYPE.EfiGcdMemoryTypeSystemMemory⟩,
          ⟨7, 0x1000, 0, 1, 0, EFI_GCD_MEMORY_TYPE.EfiGcdMemoryTypeNonExistent⟩,
          ⟨NONE, 0x2000, 0, 1, 0, EFI_GCD_MEMORY_TYPE.EfiGcdMemoryTypeSystemMemory⟩,
          ⟨NONE, 0x3000, 0, 2, 0, EFI_GCD_MEMORY_TYPE.EfiGcdMemoryTypeNonExistent⟩] := by
    have g1 : ∀ t, GetOverlappingMemorySpaceRegion (some scenarioSpaceMap) 3 0 2 t
        = some (1, EFI_GCD_MEMORY_TYPE.EfiGcdMemoryTypeSystemMemory) := by
      intro t; cases t <;> decide
    have g2 : ∀ t, GetOverlappingMemorySpaceRegion (some scenarioSpaceMap) 3 0x1000 1 t
        = some (0, EFI_GCD_MEMORY_TYPE.EfiGcdMemoryTypeNonExistent) := by
      intro t; cases t <;> decide
    have g3 : ∀ t, GetOverlappingMemorySpaceRegion (some scenarioSpaceMap) 3 0x2000 3 t
        = some (2, EFI_GCD_MEMORY_TYPE.EfiGcdMemoryTypeSystemMemory) := by
      intro t; cases t <;> decide
    have g4 : ∀ t, GetOverlappingMemorySpaceRegion (some scenarioSpaceMap) 3 0x3000 2 t
        = some (0, EFI_GCD_MEMORY_TYPE.EfiGcdMemoryTypeNonExistent) := by
      intro t; cases t <;> decide
    rw [dumpLoop_step scenarioSpaceMap 3 96 48 (f + 4) 0 _ ty _ [] ⟨7, 0, 0, 2, 0⟩ 1
      (by decide) rfl (g1 ty)]
    rw [if_pos (by decide)]
    have s1 : dumpShrink ⟨7, 0, 0, 2, 0⟩ 1 = ⟨7, 0x1000, 0, 1, 0⟩ := by decide
    have l1 : ∀ t, dumpLine ⟨7, 0, 0, 2, 0⟩ 1 t = ⟨7, 0, 0, 1, 0, t⟩ := by
      intro t; cases t <;> decide
    rw [s1, l1]
    rw [dumpLoop_step scenarioSpaceMap 3 96 48 (f + 3) 0 _ _ _ _ ⟨7, 0x1000, 0, 1, 0⟩ 0
      (by decide) rfl (g2 _)]
    rw [if_neg (by decide)]
    have l2 : ∀ t, dumpLine ⟨7, 0x1000, 0, 1, 0⟩ 0 t = ⟨7, 0x1000, 0, 1, 0, t⟩ := by
      intro t; cases t <;> decide
    rw [l2]
    rw [dumpLoop_step scenarioSpaceMap 3 96 48 (f + 2) 1 _ _ _ _ ⟨NONE, 0x2000, 0, 3, 0⟩ 2
      (by decide) rfl (g3 _)]
    rw [if_pos (by decide)]
    have a1 : (0x2000 + EfiPagesToSize (sub64 3 2)) % U64 = 0x3000 := by decide
    have a2 : ¬ (0 > 0) := by decide
    have a3 : sub64 3 2 = 1 := by decide
    have a4 : sub64 2 0 = 2 := by decide
    have s3 : dumpShrink ⟨NONE, 0x2000, 0, 3, 0⟩ 2 = ⟨NONE, 0x3000, 0, 2, 0⟩ := by
      simp only [dumpShrink, a1, a2, if_false]
    have l3 : ∀ t, dumpLine ⟨NONE, 0x2000, 0, 3, 0⟩ 2 t = ⟨NONE, 0x2000, 0, 1, 0, t⟩ := by
      intro t
      simp only [dumpLine, a3]
    rw [s3, l3]
    rw [dumpLoop_step scenarioSpaceMap 3 96 48 (f + 1) 1 _ _ _ _ ⟨NONE, 0x3000, 0, 2, 0⟩ 0
      (by decide) rfl (g4 _)]
    rw [if_neg (by decide)]
    have l4 : ∀ t, dumpLine ⟨NONE, 0x3000, 0, 2, 0⟩ 0 t = ⟨NONE, 0x3000, 0, 2, 0, t⟩ := by
      intro t
      simp only [dumpLine, a4]
    rw [l4]
    unfold dumpLoop
    rw [if_neg (by decide)]
    rfl
  unfold MemoryMapDumpHandler
  simp only [h1, h2, h3, h4, h5, h6, h7]

/-! ### The page-table walker -/

theorem foldl_flatMap_eq {α β σ : Type} (f : σ → β → σ) (g : α → List β) :
    ∀ (l : List α) (st : σ),
      (l.flatMap g).foldl f st = l.foldl (fun st x => (g x).foldl f st) st := by
  intro l
  induction l with
  | nil => intro st; rfl
  | cons a l ih =>
    intro st
    rw [List.flatMap_cons, List.foldl_append, ih]
    rfl

theorem foldl_congr_fun {α σ : Type} (f g : σ → α → σ) (h : ∀ st x, f st x = g st x) :
    ∀ (l : List α) (st : σ), l.foldl f st = l.foldl g st := by
  intro l
  induction l with
  | nil => intro st; rfl
  | cons a l ih =>
    intro st
    simp only [List.foldl_cons]
    rw [h, ih]

theorem walkBody1_eq (v : PageTableView) (c : FlatCounts) (i4 i3 i2 t : Nat) (st : WalkState)
    (i1 : Nat) : walkBody1 v c i4 i3 i2 t st i1 = applyEvent c st (slotEvent v i4 i3 i2 t i1) := by
  unfold walkBody1 slotEvent
  by_cases hp : (v.Table t i1).Present = false
  · by_cases hg : guardHit v (v.IndexToAddress i4 i3 i2 i1) = true
    · simp [hp, hg, applyEvent]
    · simp [hp, hg, applyEvent]
  · simp [hp, applyEvent]

theorem walk1_eq (v : PageTableView) (c : FlatCounts) (i4 i3 i2 t : Nat) (st : WalkState) :
    (List.range 0x200).foldl (walkBody1 v c i4 i3 i2 t) st
      = (events1 v i4 i3 i2 t).foldl (applyEvent c) st := by
  unfold events1
  rw [List.foldl_map]
  exact foldl_congr_fun _ _ (walkBody1_eq v c i4 i3 i2 t) _ _

theorem walkBody2_eq (v : PageTableView) (c : FlatCounts) (i4 i3 t : Nat) (st : WalkState)
    (i2 : Nat) :
    walkBody2 v c i4 i3 t st i2 = (slotEvents2 v i4 i3 t i2).foldl (applyEvent c) st := by
  unfold walkBody2 slotEvents2
  by_cases hp : (v.Table t i2).Present = false
  · simp [hp]
  · by_cases hm : (v.Table t i2).MustBe1 = false
    · rw [if_neg hp, if_neg hp, if_pos hm, if_pos hm, List.foldl_cons]
      exact walk1_eq v c i4 i3 i2 _ _
    · simp [hp, hm, applyEvent]

theorem walk2_eq (v : PageTableView) (c : FlatCounts) (i4 i3 t : Nat) (st : WalkState) :
    (List.range 0x200).foldl (walkBody2 v c i4 i3 t) st
      = (events2 v i4 i3 t).foldl (applyEvent c) st := by
  unfold events2
  rw [foldl_flatMap_eq]
  exact foldl_congr_fun _ _ (walkBody2_eq v c i4 i3 t) _ _

theorem walkBody3_eq (v : PageTableView) (c : FlatCounts) (i4 t : Nat) (st : WalkState)
    (i3 : Nat) :
    walkBody3 v c i4 t st i3 = (slotEvents3 v i4 t i3).foldl (applyEvent c) st := by
  unfold walkBody3 slotEvents3
  by_cases hp : (v.Table t i3).Present = false
  · simp [hp]
  · by_cases hm : (v.Table t i3).MustBe1 = false
    · rw [if_neg hp, if_neg hp, if_pos hm, if_pos hm, List.foldl_cons]
      exact walk2_eq v c i4 i3 _ _
    · simp [hp, hm, applyEvent]

theorem walk3_eq (v : PageTableView) (c : FlatCounts) (i4 t : Nat) (st : WalkState) :
    (List.range 0x200).foldl (walkBody3 v c i4 t) st
      = (events3 v i4 t).foldl (applyEvent c) st := by
  unfold events3
  rw [foldl_flatMap_eq]
  exact foldl_congr_fun _ _ (walkBody3_eq v c i4 t) _ _

theorem walkBody4_eq (v : PageTableView) (c : FlatCounts) (t : Nat) (st : WalkState)
    (i4 : Nat) :
    walkBody4 v c t st i4 = (slotEvents4 v t i4).foldl (applyEvent c) st := by
  unfold walkBody4 slotEvents4
  by_cases hp : (v.Table t i4).Present = false
  · simp [hp]
  · rw [if_neg hp, if_neg hp, List.foldl_cons]
    exact walk3_eq v c i4 _ _

theorem walkTables_eq (v : PageTableView) (c : FlatCounts) :
    walkTables v c
      = (walkEvents v).foldl (applyEvent c) ⟨0, 0, 0, 0, 0, [], [], [], [], []⟩ := by
  unfold walkTables walkEvents
  rw [List.foldl_cons, foldl_flatMap_eq]
  exact foldl_congr_fun _ _ (walkBody4_eq v c v.Cr3) _ _

theorem storesOf_snoc {α : Type} (cap : Nat) (l : List α) (x : α) :
    storesOf cap (l ++ [x])
      = if l.length + 1 ≤ cap then storesOf cap l ++ [(l.length + 1 - 1, x)]
        else storesOf cap l := by
  unfold storesOf
  by_cases h : l.length + 1 ≤ cap
  · rw [if_pos h, List.take_of_length_le (by simp; omega), List.take_of_length_le (by omega),
      List.enum_append]
    simp [List.enumFrom]
  · rw [if_neg h, List.take_append_of_le_length (by omega)]

theorem stateOf_snoc (c : FlatCounts) (evs : List WalkEvent) (ev : WalkEvent) :
    applyEvent c (stateOf c evs) ev = stateOf c (evs ++ [ev]) := by
  cases ev <;>
    simp [applyEvent, stateOf, addPde, add1G, add2M, add4K, addGuard, pdeOf, leaf1GOf, leaf2MOf,
      leaf4KOf, guardOf, List.filterMap_append, storesOf_snoc]

theorem foldl_applyEvent (c : FlatCounts) (evs : List WalkEvent) :
    evs.foldl (applyEvent c) ⟨0, 0, 0, 0, 0, [], [], [], [], []⟩ = stateOf c evs := by
  induction evs using List.reverseRecOn with
  | nil => simp [stateOf, storesOf]
  | append_singleton l a ih =>
    rw [List.foldl_append, ih]
    simp only [List.foldl_cons, List.foldl_nil]
    exact stateOf_snoc c l a

theorem walkTables_stateOf (v : PageTableView) (c : FlatCounts) :
    walkTables v c = stateOf c (walkEvents v) := by
  rw [walkTables_eq, foldl_applyEvent]

theorem validPairing_iff (c : FlatCounts) (b : FlatBuffers) :
    ValidPairing c b ↔
      ¬ ((c.Pte1GCount > 0 ∧ b.Pte1GEntries = false) ∨ (c.Pte2MCount > 0 ∧ b.Pte2MEntries = false) ∨
        (c.Pte4KCount > 0 ∧ b.Pte4KEntries = false) ∨ (c.PdeCount > 0 ∧ b.PdeEntries = false) ∨
        (c.GuardCount > 0 ∧ b.GuardEntries = false)) := by
  unfold ValidPairing
  constructor
  · rintro ⟨h1, h2, h3, h4, h5⟩ (h | h | h | h | h)
    · have := h1 h.2; omega
    · have := h2 h.2; omega
    · have := h3 h.2; omega
    · have := h4 h.2; omega
    · have := h5 h.2; omega
  · intro h
    refine ⟨?_, ?_, ?_, ?_, ?_⟩ <;> intro hb <;> by_contra hc
    · exact h (Or.inl ⟨by omega, hb⟩)
    · exact h (Or.inr (Or.inl ⟨by omega, hb⟩))
    · exact h (Or.inr (Or.inr (Or.inl ⟨by omega, hb⟩)))
    · exact h (Or.inr (Or.inr (Or.inr (Or.inl ⟨by omega, hb⟩))))
    · exact h (Or.inr (Or.inr (Or.inr (Or.inr ⟨by omega, hb⟩))))

theorem GetFlatPageTableDataCounts_valid (v : PageTableView) (c : FlatCounts) (b : FlatBuffers)
    (hv : ValidPairing c b) :
    GetFlatPageTableDataCounts v c b
      = ⟨if TooSmall b.Pte1GEntries c.Pte1GCount (records1G v).length ∨
            TooSmall b.Pte2MEntries c.Pte2MCount (records2M v).length ∨
            TooSmall b.Pte4KEntries c.Pte4KCount (records4K v).length ∨
            TooSmall b.PdeEntries c.PdeCount (recordsPde v).length ∨
            TooSmall b.GuardEntries c.GuardCount (recordsGuard v).length then
          EFI_STATUS.EFI_BUFFER_TOO_SMALL
        else EFI_STATUS.EFI_SUCCESS,
        ⟨(records1G v).length, (records2M v).length, (records4K v).length,
          (recordsPde v).length, (recordsGuard v).length⟩,
        storesOf c.Pte1GCount (records1G v), storesOf c.Pte2MCount (records2M v),
        storesOf c.Pte4KCount (records4K v), storesOf c.PdeCount (recordsPde v),
        storesOf c.GuardCount (recordsGuard v)⟩ := by
  unfold GetFlatPageTableDataCounts
  rw [if_neg ((validPairing_iff c b).mp hv), walkTables_stateOf]
  unfold records1G records2M records4K recordsPde recordsGuard
  generalize walkEvents v = evs
  rfl

theorem GetFlatPageTableDataCounts_invalid (v : PageTableView) (c : FlatCounts) (b : FlatBuffers)
    (hv : ¬ ValidPairing c b) :
    GetFlatPageTableDataCounts v c b = ⟨EFI_STATUS.EFI_INVALID_PARAMETER, c, [], [], [], [], []⟩ := by
  unfold GetFlatPageTableDataCounts
  rw [if_pos (by
    by_contra h
    exact hv ((validPairing_iff c b).mpr h))]

theorem callFlat_valid (v : PageTableView) (c : FlatCounts) (b : FlatBuffers)
    (hv : ValidPairing c b) :
    callFlat v c b
      = ⟨if TooSmall b.Pte1GEntries c.Pte1GCount (records1G v).length ∨
            TooSmall b.Pte2MEntries c.Pte2MCount (records2M v).length ∨
            TooSmall b.Pte4KEntries c.Pte4KCount (records4K v).length ∨
            TooSmall b.PdeEntries c.PdeCount (recordsPde v).length ∨
            TooSmall b.GuardEntries c.GuardCount (recordsGuard v).length then
          EFI_STATUS.EFI_BUFFER_TOO_SMALL
        else EFI_STATUS.EFI_SUCCESS,
        some (records1G v).length, some (records2M v).length, some (records4K v).length,
        some (recordsPde v).length, some (recordsGuard v).length,
        storesOf c.Pte1GCount (records1G v), storesOf c.Pte2MCount (records2M v),
        storesOf c.Pte4KCount (records4K v), storesOf c.PdeCount (recordsPde v),
        storesOf c.GuardCount (recordsGuard v)⟩ := by
  unfold callFlat GetFlatPageTableData
  simp only []
  rw [GetFlatPageTableDataCounts_valid v _ b hv]

theorem storesOf_index_lt {α : Type} (cap : Nat) (l : List α) :
    ∀ p ∈ storesOf cap l, p.1 < cap ∧ l[p.1]? = some p.2 := by
  intro p hp
  unfold storesOf at hp
  obtain ⟨i, x⟩ := p
  obtain ⟨h1, h2⟩ := List.mem_enum hp
  rw [List.length_take] at h1
  have hl : i < l.length := by omega
  refine ⟨by omega, ?_⟩
  rw [List.getElem?_eq_getElem hl, h2]
  simp

theorem storesOf_zero {α : Type} (l : List α) : storesOf 0 l = [] := by
  simp [storesOf]

theorem recordsPde_cons (v : PageTableView) :
    recordsPde v = v.Cr3 :: ((List.range 0x200).flatMap (slotEvents4 v v.Cr3)).filterMap pdeOf := by
  unfold recordsPde walkEvents
  rw [List.filterMap_cons]
  rfl

/-- C11 (walker counts are unconditional).  For every page-table view (structure
and guard oracle) and every two valid calls of `GetFlatPageTableData` on it, with
any capacities and any buffers present or absent, the five counts left behind are
the same: each is the true total of its category, whatever the status. -/
theorem callFlat_counts_unconditional (v : PageTableView) (c c1 : FlatCounts)
    (b b1 : FlatBuffers) (h : ValidPairing c b) (h1 : ValidPairing c1 b1) :
    (callFlat v c b).Pte1GCount = (callFlat v c1 b1).Pte1GCount ∧
    (callFlat v c b).Pte2MCount = (callFlat v c1 b1).Pte2MCount ∧
    (callFlat v c b).Pte4KCount = (callFlat v c1 b1).Pte4KCount ∧
    (callFlat v c b).PdeCount = (callFlat v c1 b1).PdeCount ∧
    (callFlat v c b).GuardCount = (callFlat v c1 b1).GuardCount ∧
    (callFlat v c b).Pte1GCount = some (records1G v).length ∧
    (callFlat v c b).Pte2MCount = some (records2M v).length ∧
    (callFlat v c b).Pte4KCount = some (records4K v).length ∧
    (callFlat v c b).PdeCount = some (recordsPde v).length ∧
    (callFlat v c b).GuardCount = some (recordsGuard v).length := by
  rw [callFlat_valid v c b h, callFlat_valid v c1 b1 h1]
  exact ⟨rfl, rfl, rfl, rfl, rfl, rfl, rfl, rfl, rfl, rfl⟩

/-- C12 (walker writes are conditional and bounded).  For every valid call of
`GetFlatPageTableData` and every category with declared capacity `cap`, the stores
made to the buffer are exactly: record number `k` of the category, in the order of
the walk, at index `k - 1`, for every `k <= cap` (`storesOf`: the first `cap`
records, numbered from 0).  So no index at or above the capacity is written, and
an absent buffer receives no store. -/
theorem callFlat_stores (v : PageTableView) (c : FlatCounts) (b : FlatBuffers)
    (h : ValidPairing c b) :
    ((callFlat v c b).Pte1GEntries = storesOf c.Pte1GCount (records1G v) ∧
      (callFlat v c b).Pte2MEntries = storesOf c.Pte2MCount (records2M v) ∧
      (callFlat v c b).Pte4KEntries = storesOf c.Pte4KCount (records4K v) ∧
      (callFlat v c b).PdeEntries = storesOf c.PdeCount (recordsPde v) ∧
      (callFlat v c b).GuardEntries = storesOf c.GuardCount (recordsGuard v)) ∧
    ((∀ p ∈ (callFlat v c b).Pte1GEntries, p.1 < c.Pte1GCount ∧ (records1G v)[p.1]? = some p.2) ∧
      (∀ p ∈ (callFlat v c b).Pte2MEntries, p.1 < c.Pte2MCount ∧ (records2M v)[p.1]? = some p.2) ∧
      (∀ p ∈ (callFlat v c b).Pte4KEntries, p.1 < c.Pte4KCount ∧ (records4K v)[p.1]? = some p.2) ∧
      (∀ p ∈ (callFlat v c b).PdeEntries, p.1 < c.PdeCount ∧ (recordsPde v)[p.1]? = some p.2) ∧
      (∀ p ∈ (callFlat v c b).GuardEntries,
        p.1 < c.GuardCount ∧ (recordsGuard v)[p.1]? = some p.2)) ∧
    ((b.Pte1GEntries = false → (callFlat v c b).Pte1GEntries = []) ∧
      (b.Pte2MEntries = false → (callFlat v c b).Pte2MEntries = []) ∧
      (b.Pte4KEntries = false → (callFlat v c b).Pte4KEntries = []) ∧
      (b.PdeEntries = false → (callFlat v c b).PdeEntries = []) ∧
      (b.GuardEntries = false → (callFlat v c b).GuardEntries = [])) := by
  rw [callFlat_valid v c b h]
  obtain ⟨h1, h2, h3, h4, h5⟩ := h
  refine ⟨⟨rfl, rfl, rfl, rfl, rfl⟩,
    ⟨storesOf_index_lt _ _, storesOf_index_lt _ _, storesOf_index_lt _ _,
      storesOf_index_lt _ _, storesOf_index_lt _ _⟩, ?_, ?_, ?_, ?_, ?_⟩
  · intro hb
    show storesOf c.Pte1GCount (records1G v) = []
    rw [h1 hb, storesOf_zero]
  · intro hb
    show storesOf c.Pte2MCount (records2M v) = []
    rw [h2 hb, storesOf_zero]
  · intro hb
    show storesOf c.Pte4KCount (records4K v) = []
    rw [h3 hb, storesOf_zero]
  · intro hb
    show storesOf c.PdeCount (recordsPde v) = []
    rw [h4 hb, storesOf_zero]
  · intro hb
    show storesOf c.GuardCount (recordsGuard v) = []
    rw [h5 hb, storesOf_zero]

/-- C13 (count-only pass).  For every page-table view, the call of
`GetFlatPageTableData` with the five capacities zero and the five buffers absent
returns success, sets the five counts to the true totals and stores nothing. -/
theorem callFlat_count_only (v : PageTableView) :
    callFlat v ⟨0, 0, 0, 0, 0⟩ ⟨false, false, false, false, false⟩
      = ⟨EFI_STATUS.EFI_SUCCESS, some (records1G v).length, some (records2M v).length,
          some (records4K v).length, some (recordsPde v).length, some (recordsGuard v).length,
          [], [], [], [], []⟩ := by
  rw [callFlat_valid v _ _ (by decide)]
  simp only [storesOf_zero]
  rw [if_neg (by simp [TooSmall])]

/-- C14 (as stated) fails: the count-only call on the empty page table is valid and
the true directory count (the root) exceeds the declared capacity 0, yet the call
returns success, because the buffer is absent. -/
theorem callFlat_too_small_counterexample :
    ValidPairing ⟨0, 0, 0, 0, 0⟩ ⟨false, false, false, false, false⟩ ∧
    (0 : Nat) < (recordsPde emptyView).length ∧
    (callFlat emptyView ⟨0, 0, 0, 0, 0⟩ ⟨false, false, false, false, false⟩).Status
      = EFI_STATUS.EFI_SUCCESS ∧
    (callFlat emptyView ⟨0, 0, 0, 0, 0⟩ ⟨false, false, false, false, false⟩).Status
      ≠ EFI_STATUS.EFI_BUFFER_TOO_SMALL := by
  have h : (callFlat emptyView ⟨0, 0, 0, 0, 0⟩ ⟨false, false, false, false, false⟩).Status
      = EFI_STATUS.EFI_SUCCESS := by
    rw [callFlat_valid emptyView _ _ (by decide)]
    dsimp only
    rw [if_neg (by simp [TooSmall])]
  refine ⟨by decide, ?_, h, ?_⟩
  · rw [recordsPde_cons]
    simp
  · rw [h]
    decide

/-- C14 (walker buffer-too-small, amended).  For every valid call of
`GetFlatPageTableData`, the call returns `EFI_BUFFER_TOO_SMALL` exactly when some
category whose buffer is present has a true count above its declared capacity
(otherwise it returns success); in both cases the five counts are the true
totals. -/
theorem callFlat_too_small (v : PageTableView) (c : FlatCounts) (b : FlatBuffers)
    (h : ValidPairing c b) :
    ((callFlat v c b).Status = EFI_STATUS.EFI_BUFFER_TOO_SMALL ↔
      (TooSmall b.Pte1GEntries c.Pte1GCount (records1G v).length ∨
        TooSmall b.Pte2MEntries c.Pte2MCount (records2M v).length ∨
        TooSmall b.Pte4KEntries c.Pte4KCount (records4K v).length ∨
        TooSmall b.PdeEntries c.PdeCount (recordsPde v).length ∨
        TooSmall b.GuardEntries c.GuardCount (recordsGuard v).length)) ∧
    ((callFlat v c b).Status = EFI_STATUS.EFI_BUFFER_TOO_SMALL ∨
      (callFlat v c b).Status = EFI_STATUS.EFI_SUCCESS) ∧
    (callFlat v c b).Pte1GCount = some (records1G v).length ∧
    (callFlat v c b).Pte2MCount = some (records2M v).length ∧
    (callFlat v c b).Pte4KCount = some (records4K v).length ∧
    (callFlat v c b).PdeCount = some (recordsPde v).length ∧
    (callFlat v c b).GuardCount = some (recordsGuard v).length := by
  rw [callFlat_valid v c b h]
  refine ⟨?_, ?_, rfl, rfl, rfl, rfl, rfl⟩
  · dsimp only
    split
    · rename_i hc
      exact ⟨fun _ => hc, fun _ => rfl⟩
    · rename_i hc
      constructor
      · intro h0
        cases h0
      · intro h0
        exact absurd h0 hc
  · dsimp only
    split
    · exact Or.inl rfl
    · exact Or.inr rfl

theorem validPairing_of_not_bad (c : FlatCounts) (b : FlatBuffers)
    (h : ¬ (BadPairing (some c.Pte1GCount) b.Pte1GEntries ∨
      BadPairing (some c.Pte2MCount) b.Pte2MEntries ∨
      BadPairing (some c.Pte4KCount) b.Pte4KEntries ∨ BadPairing (some c.PdeCount) b.PdeEntries ∨
      BadPairing (some c.GuardCount) b.GuardEntries)) : ValidPairing c b := by
  unfold ValidPairing
  refine ⟨?_, ?_, ?_, ?_, ?_⟩ <;> intro hb <;> by_contra hc
  · exact h (Or.inl ⟨_, rfl, by omega, hb⟩)
  · exact h (Or.inr (Or.inl ⟨_, rfl, by omega, hb⟩))
  · exact h (Or.inr (Or.inr (Or.inl ⟨_, rfl, by omega, hb⟩)))
  · exact h (Or.inr (Or.inr (Or.inr (Or.inl ⟨_, rfl, by omega, hb⟩))))
  · exact h (Or.inr (Or.inr (Or.inr (Or.inr ⟨_, rfl, by omega, hb⟩))))

theorem bad_of_not_validPairing (c : FlatCounts) (b : FlatBuffers) (h : ¬ ValidPairing c b) :
    BadPairing (some c.Pte1GCount) b.Pte1GEntries ∨ BadPairing (some c.Pte2MCount) b.Pte2MEntries ∨
      BadPairing (some c.Pte4KCount) b.Pte4KEntries ∨ BadPairing (some c.PdeCount) b.PdeEntries ∨
      BadPairing (some c.GuardCount) b.GuardEntries := by
  by_contra hc
  exact h (validPairing_of_not_bad c b hc)

theorem GetFlatPageTableData_null (v : PageTableView)
    (p1 p2 p3 p4 p5 : Option Nat) (b : FlatBuffers)
    (h : p1 = none ∨ p2 = none ∨ p3 = none ∨ p4 = none ∨ p5 = none) :
    GetFlatPageTableData v p1 p2 p3 p4 p5 b
      = ⟨EFI_STATUS.EFI_INVALID_PARAMETER, p1, p2, p3, p4, p5, [], [], [], [], []⟩ := by
  unfold GetFlatPageTableData
  cases p1 <;> cases p2 <;> cases p3 <;> cases p4 <;> cases p5 <;> first | rfl | simp at h

/-- C15 (walker argument validation).  `GetFlatPageTableData` returns
`EFI_INVALID_PARAMETER` exactly when one of the five count pointers is `NULL` or
some category pairs a positive declared capacity with an absent buffer; in that
case it leaves the five counts as they were and stores nothing in any buffer. -/
theorem GetFlatPageTableData_invalid (v : PageTableView)
    (p1 p2 p3 p4 p5 : Option Nat) (b : FlatBuffers) :
    ((GetFlatPageTableData v p1 p2 p3 p4 p5 b).Status = EFI_STATUS.EFI_INVALID_PARAMETER ↔
      (p1 = none ∨ p2 = none ∨ p3 = none ∨ p4 = none ∨ p5 = none ∨
        BadPairing p1 b.Pte1GEntries ∨ BadPairing p2 b.Pte2MEntries ∨
        BadPairing p3 b.Pte4KEntries ∨ BadPairing p4 b.PdeEntries ∨
        BadPairing p5 b.GuardEntries)) ∧
    ((GetFlatPageTableData v p1 p2 p3 p4 p5 b).Status = EFI_STATUS.EFI_INVALID_PARAMETER →
      GetFlatPageTableData v p1 p2 p3 p4 p5 b
        = ⟨EFI_STATUS.EFI_INVALID_PARAMETER, p1, p2, p3, p4, p5, [], [], [], [], []⟩) := by
  by_cases hnull : p1 = none ∨ p2 = none ∨ p3 = none ∨ p4 = none ∨ p5 = none
  · rw [GetFlatPageTableData_null v p1 p2 p3 p4 p5 b hnull]
    refine ⟨⟨fun _ => ?_, fun _ => rfl⟩, fun _ => rfl⟩
    exact Or.imp_right (Or.imp_right (Or.imp_right (Or.imp_right Or.inl))) hnull
  · obtain ⟨n1, rfl⟩ : ∃ n, p1 = some n := by
      cases p1 with
      | none => exact absurd (Or.inl rfl) hnull
      | some n => exact ⟨n, rfl⟩
    obtain ⟨n2, rfl⟩ : ∃ n, p2 = some n := by
      cases p2 with
      | none => exact absurd (Or.inr (Or.inl rfl)) hnull
      | some n => exact ⟨n, rfl⟩
    obtain ⟨n3, rfl⟩ : ∃ n, p3 = some n := by
      cases p3 with
      | none => exact absurd (Or.inr (Or.inr (Or.inl rfl))) hnull
      | some n => exact ⟨n, rfl⟩
    obtain ⟨n4, rfl⟩ : ∃ n, p4 = some n := by
      cases p4 with
      | none => exact absurd (Or.inr (Or.inr (Or.inr (Or.inl rfl)))) hnull
      | some n => exact ⟨n, rfl⟩
    obtain ⟨n5, rfl⟩ : ∃ n, p5 = some n := by
      cases p5 with
      | none => exact absurd (Or.inr (Or.inr (Or.inr (Or.inr rfl)))) hnull
      | some n => exact ⟨n, rfl⟩
    have hcall : GetFlatPageTableData v (some n1) (some n2) (some n3) (some n4) (some n5) b
        = callFlat v ⟨n1, n2, n3, n4, n5⟩ b := rfl
    rw [hcall]
    by_cases hv : ValidPairing ⟨n1, n2, n3, n4, n5⟩ b
    · rw [callFlat_valid v _ b hv]
      dsimp only
      have hst : (if TooSmall b.Pte1GEntries n1 (records1G v).length ∨
            TooSmall b.Pte2MEntries n2 (records2M v).length ∨
            TooSmall b.Pte4KEntries n3 (records4K v).length ∨
            TooSmall b.PdeEntries n4 (recordsPde v).length ∨
            TooSmall b.GuardEntries n5 (recordsGuard v).length then
          EFI_STATUS.EFI_BUFFER_TOO_SMALL
        else EFI_STATUS.EFI_SUCCESS) ≠ EFI_STATUS.EFI_INVALID_PARAMETER := by
        split <;> decide
      refine ⟨⟨fun h => absurd h hst, fun h => ?_⟩, fun h => absurd h hst⟩
      exfalso
      obtain ⟨v1, v2, v3, v4, v5⟩ := hv
      rcases h with h | h | h | h | h | h | h | h | h | h
      · cases h
      · cases h
      · cases h
      · cases h
      · cases h
      · obtain ⟨n, hn, hpos, hb⟩ := h
        cases hn
        have := v1 hb
        simp only at this
        omega
      · obtain ⟨n, hn, hpos, hb⟩ := h
        cases hn
        have := v2 hb
        simp only at this
        omega
      · obtain ⟨n, hn, hpos, hb⟩ := h
        cases hn
        have := v3 hb
        simp only at this
        omega
      · obtain ⟨n, hn, hpos, hb⟩ := h
        cases hn
        have := v4 hb
        simp only at this
        omega
      · obtain ⟨n, hn, hpos, hb⟩ := h
        cases hn
        have := v5 hb
        simp only at this
        omega
    · have hres : callFlat v ⟨n1, n2, n3, n4, n5⟩ b
          = ⟨EFI_STATUS.EFI_INVALID_PARAMETER, some n1, some n2, some n3, some n4, some n5,
              [], [], [], [], []⟩ := by
        unfold callFlat GetFlatPageTableData
        simp only []
        rw [GetFlatPageTableDataCounts_invalid v _ b hv]
      rw [hres]
      refine ⟨⟨fun _ => ?_, fun _ => rfl⟩, fun _ => rfl⟩
      have hbad := bad_of_not_validPairing _ b hv
      exact Or.inr (Or.inr (Or.inr (Or.inr (Or.inr hbad))))

/-! ### What the records are -/

theorem filterMap_ite_none {α β : Type} (g : α → β) (p : α → Bool) :
    ∀ (l : List α), (l.filterMap fun i => if p i = true then none else some (g i))
      = (l.filter fun i => !p i).map g := by
  intro l
  induction l with
  | nil => rfl
  | cons a l ih =>
    rw [List.filterMap_cons, List.filter_cons]
    by_cases h : p a = true
    · simp [h, ih]
    · simp [h, ih]

theorem filterMap_ite_some {α β : Type} (g : α → β) (p : α → Bool) :
    ∀ (l : List α), (l.filterMap fun i => if p i = true then some (g i) else none)
      = (l.filter p).map g := by
  intro l
  induction l with
  | nil => rfl
  | cons a l ih =>
    rw [List.filterMap_cons, List.filter_cons]
    by_cases h : p a = true
    · simp [h, ih]
    · simp [h, ih]

theorem events1_leaf4K (v : PageTableView) (i4 i3 i2 t : Nat) :
    (events1 v i4 i3 i2 t).filterMap leaf4KOf
      = ((List.range 0x200).filter fun i1 => !isGuardSlot v i4 i3 i2 t i1).map (v.Table t) := by
  unfold events1
  rw [List.filterMap_map, ← filterMap_ite_none]
  apply List.filterMap_congr
  intro i _
  simp only [Function.comp, slotEvent, isGuardSlot]
  by_cases hp : (v.Table t i).Present = false
  · by_cases hg : guardHit v (v.IndexToAddress i4 i3 i2 i) = true
    · simp [hp, hg, leaf4KOf]
    · simp [hp, hg, leaf4KOf]
  · simp at hp
    simp [hp, leaf4KOf]

theorem events1_guard (v : PageTableView) (i4 i3 i2 t : Nat) :
    (events1 v i4 i3 i2 t).filterMap guardOf
      = ((List.range 0x200).filter fun i1 => isGuardSlot v i4 i3 i2 t i1).map
          (v.IndexToAddress i4 i3 i2) := by
  unfold events1
  rw [List.filterMap_map, ← filterMap_ite_some]
  apply List.filterMap_congr
  intro i _
  simp only [Function.comp, slotEvent, isGuardSlot]
  by_cases hp : (v.Table t i).Present = false
  · by_cases hg : guardHit v (v.IndexToAddress i4 i3 i2 i) = true
    · simp [hp, hg, guardOf]
    · simp [hp, hg, guardOf]
  · simp at hp
    simp [hp, guardOf]

theorem walk_under2 {α : Type} (v : PageTableView) (sel : WalkEvent → Option α)
    (hpde : ∀ t, sel (.pde t) = none) (h1G : ∀ e, sel (.leaf1G e) = none)
    (h2M : ∀ e, sel (.leaf2M e) = none) :
    (walkEvents v).filterMap sel
      = under2 v fun i4 i3 i2 t => (events1 v i4 i3 i2 t).filterMap sel := by
  unfold walkEvents under2 under3 under4
  rw [List.filterMap_cons, hpde, List.filterMap_flatMap]
  apply List.flatMap_congr
  intro i4 _
  unfold slotEvents4
  split
  · rfl
  · rw [List.filterMap_cons, hpde]
    unfold events3
    rw [List.filterMap_flatMap]
    apply List.flatMap_congr
    intro i3 _
    unfold slotEvents3
    by_cases hp : (v.Table (tableOf (v.Table v.Cr3 i4)) i3).Present = false
    · simp [hp]
    · by_cases hm : (v.Table (tableOf (v.Table v.Cr3 i4)) i3).MustBe1 = false
      · rw [if_neg hp, if_pos hm, List.filterMap_cons, hpde, if_neg (by simp [hp, hm])]
        unfold events2
        rw [List.filterMap_flatMap]
        apply List.flatMap_congr
        intro i2 _
        unfold slotEvents2
        by_cases hp2 : (v.Table (tableOf (v.Table (tableOf (v.Table v.Cr3 i4)) i3)) i2).Present
            = false
        · simp [hp2]
        · by_cases hm2 : (v.Table (tableOf (v.Table (tableOf (v.Table v.Cr3 i4)) i3)) i2).MustBe1
              = false
          · rw [if_neg hp2, if_pos hm2, List.filterMap_cons, hpde, if_neg (by simp [hp2, hm2])]
          · simp at hp2 hm2
            simp [hp2, hm2, h2M]
      · simp at hp hm
        simp [hp, hm, h1G]

theorem records4K_eq (v : PageTableView) : records4K v = slots4K v := by
  unfold records4K slots4K
  rw [walk_under2 v leaf4KOf (fun _ => rfl) (fun _ => rfl) (fun _ => rfl)]
  simp only [events1_leaf4K]

theorem recordsGuard_eq (v : PageTableView) : recordsGuard v = guardAddresses v := by
  unfold recordsGuard guardAddresses
  rw [walk_under2 v guardOf (fun _ => rfl) (fun _ => rfl) (fun _ => rfl)]
  simp only [events1_guard]

set_option maxRecDepth 100000 in
/-- C16 (code at the failing input).  On the page table whose only level-1 table
has no present slot, and without a guard oracle, `GetFlatPageTableData` reports a
4K count of 512 and, given room, stores 512 records, although the number of
present level-1 entries is 0. -/
theorem GetFlatPageTableData_dead_slots :
    (callFlat deadLeafView ⟨0, 0, 0, 0, 0⟩ ⟨false, false, false, false, false⟩).Pte4KCount
      = some 512 ∧
    ((callFlat deadLeafView ⟨0, 0, 600, 0, 0⟩ ⟨false, false, true, false, false⟩).Pte4KEntries).length
      = 512 ∧
    (present4K deadLeafView).length = 0 := by
  decide

theorem callFlat_counts_unconditional_witness :
    ValidPairing ⟨0, 0, 0, 0, 0⟩ ⟨false, false, false, false, false⟩ ∧
    ValidPairing ⟨1, 0, 0, 2, 0⟩ ⟨true, false, false, true, false⟩ ∧
    (callFlat oneGigabyteView ⟨0, 0, 0, 0, 0⟩ ⟨false, false, false, false, false⟩).PdeCount
      = (callFlat oneGigabyteView ⟨1, 0, 0, 2, 0⟩ ⟨true, false, false, true, false⟩).PdeCount :=
  ⟨by decide, by decide,
    (callFlat_counts_unconditional oneGigabyteView ⟨0, 0, 0, 0, 0⟩ ⟨1, 0, 0, 2, 0⟩
      ⟨false, false, false, false, false⟩ ⟨true, false, false, true, false⟩
      (by decide) (by decide)).2.2.2.1⟩

theorem callFlat_stores_witness :
    ValidPairing ⟨1, 0, 0, 1, 0⟩ ⟨true, false, false, true, false⟩ ∧
    (callFlat oneGigabyteView ⟨1, 0, 0, 1, 0⟩ ⟨true, false, false, true, false⟩).PdeEntries
      = storesOf 1 (recordsPde oneGigabyteView) :=
  ⟨by decide,
    (callFlat_stores oneGigabyteView ⟨1, 0, 0, 1, 0⟩ ⟨true, false, false, true, false⟩
      (by decide)).1.2.2.2.1⟩

theorem callFlat_too_small_witness :
    ValidPairing ⟨1, 0, 0, 1, 0⟩ ⟨true, false, false, true, false⟩ ∧
    (callFlat oneGigabyteView ⟨1, 0, 0, 1, 0⟩ ⟨true, false, false, true, false⟩).PdeCount
      = some (recordsPde oneGigabyteView).length :=
  ⟨by decide,
    (callFlat_too_small oneGigabyteView ⟨1, 0, 0, 1, 0⟩ ⟨true, false, false, true, false⟩
      (by decide)).2.2.2.2.2.1⟩

set_option maxRecDepth 100000 in
theorem callFlat_guards_example :
    guardAddresses guardedView = [0x1000] ∧
    callFlat guardedView ⟨0, 0, 0, 0, 4⟩ ⟨false, false, false, false, true⟩
      = ⟨EFI_STATUS.EFI_SUCCESS, some 0, some 0, some 511, some 4, some 1,
          [], [], [], [], [(0, 0x1000)]⟩ ∧
    (callFlat (withoutOracle guardedView) ⟨0, 0, 0, 0, 4⟩
      ⟨false, false, false, false, true⟩).GuardCount = some 0 ∧
    (callFlat (withoutOracle guardedView) ⟨0, 0, 0, 0, 4⟩
      ⟨false, false, false, false, true⟩).Pte4KCount = some 512 := by
  decide

set_option maxRecDepth 100000 in
theorem callFlat_high_frame_example :
    tableOf ⟨true, false, 0x10000002, 0x10000002003⟩ = 0x2000 ∧
    callFlat highFrameView ⟨2, 0, 0, 2, 0⟩ ⟨true, false, false, true, false⟩
      = ⟨EFI_STATUS.EFI_SUCCESS, some 2, some 0, some 0, some 2, some 0,
          [(0, ⟨true, true, 0x40000, 0x40000083⟩), (1, ⟨true, true, 0x80000, 0x80000083⟩)],
          [], [], [(0, 0x1000), (1, 0x2000)], []⟩ := by
  decide

set_option maxRecDepth 100000 in
theorem callFlat_one_gigabyte_example :
    callFlat oneGigabyteView ⟨1, 0, 0, 2, 0⟩ ⟨true, false, false, true, false⟩
      = ⟨EFI_STATUS.EFI_SUCCESS, some 1, some 0, some 0, some 2, some 0,
          [(0, ⟨true, true, 0, 0x83⟩)], [], [], [(0, 0x1000), (1, 0x2000)], []⟩ := by
  decide

/-! ### The two-pass loader -/

theorem GetFlatPageTableDataCounts_count_only (v : PageTableView) :
    GetFlatPageTableDataCounts v ⟨0, 0, 0, 0, 0⟩ ⟨false, false, false, false, false⟩
      = ⟨EFI_STATUS.EFI_SUCCESS, trueCounts v, [], [], [], [], []⟩ := by
  rw [GetFlatPageTableDataCounts_valid v _ _ (by decide)]
  simp only [storesOf_zero]
  rw [if_neg (by simp [TooSmall])]
  rfl

theorem secondPassCounts_eq (v : PageTableView) :
    secondPassCounts v = firstPadding (trueCounts v) := by
  unfold secondPassCounts
  rw [GetFlatPageTableDataCounts_count_only]

theorem validPairing_of_allPresent (c : FlatCounts) (b : FlatBuffers)
    (h : allPresent b = true) : ValidPairing c b := by
  obtain ⟨b1, b2, b3, b4, b5⟩ := b
  simp only [allPresent, Bool.and_eq_true] at h
  obtain ⟨⟨⟨⟨h1, h2⟩, h3⟩, h4⟩, h5⟩ := h
  subst h1 h2 h3 h4 h5
  exact ⟨fun h => Bool.noConfusion h, fun h => Bool.noConfusion h, fun h => Bool.noConfusion h,
    fun h => Bool.noConfusion h, fun h => Bool.noConfusion h⟩

theorem allPresent_of_retry (c : FlatCounts) (b : FlatBuffers)
    (h : ValidPairing (retryPadding c) b) : allPresent b = true := by
  obtain ⟨b1, b2, b3, b4, b5⟩ := b
  obtain ⟨h1, h2, h3, h4, h5⟩ := h
  simp only [retryPadding] at h1 h2 h3 h4 h5
  simp only [allPresent, Bool.and_eq_true]
  refine ⟨⟨⟨⟨?_, ?_⟩, ?_⟩, ?_⟩, ?_⟩
  · cases b1
    · have := h1 rfl; omega
    · rfl
  · cases b2
    · have := h2 rfl; omega
    · rfl
  · cases b3
    · have := h3 rfl; omega
    · rfl
  · cases b4
    · have := h4 rfl; omega
    · rfl
  · cases b5
    · have := h5 rfl; omega
    · rfl

theorem storesOf_of_le {α : Type} (cap : Nat) (l : List α) (h : l.length ≤ cap) :
    storesOf cap l = l.enum := by
  unfold storesOf
  rw [List.take_of_length_le h]

theorem GetFlatPageTableDataCounts_status (v : PageTableView) (c : FlatCounts) (b : FlatBuffers) :
    (GetFlatPageTableDataCounts v c b).Status = EFI_STATUS.EFI_SUCCESS ∨
    (GetFlatPageTableDataCounts v c b).Status = EFI_STATUS.EFI_BUFFER_TOO_SMALL ∨
    (GetFlatPageTableDataCounts v c b).Status = EFI_STATUS.EFI_INVALID_PARAMETER := by
  by_cases hv : ValidPairing c b
  · rw [GetFlatPageTableDataCounts_valid v c b hv]
    dsimp only
    split
    · exact Or.inr (Or.inl rfl)
    · exact Or.inl rfl
  · rw [GetFlatPageTableDataCounts_invalid v c b hv]
    exact Or.inr (Or.inr rfl)

theorem loadDone_holds (v : PageTableView) (c : FlatCounts) (b : FlatBuffers)
    (hb : allPresent b = true)
    (hs : EFI_ERROR (GetFlatPageTableDataCounts v c b).Status = false) :
    (GetFlatPageTableDataCounts v c b).Status = EFI_STATUS.EFI_SUCCESS ∧
    loadDone c b (GetFlatPageTableDataCounts v c b)
      = ⟨true, trueCounts v, some ⟨c.Pte1GCount, (records1G v).enum⟩,
          some ⟨c.Pte2MCount, (records2M v).enum⟩, some ⟨c.Pte4KCount, (records4K v).enum⟩,
          some ⟨c.PdeCount, (recordsPde v).enum⟩, some ⟨c.GuardCount, (recordsGuard v).enum⟩⟩ ∧
    (records1G v).length ≤ c.Pte1GCount ∧ (records2M v).length ≤ c.Pte2MCount ∧
    (records4K v).length ≤ c.Pte4KCount ∧ (recordsPde v).length ≤ c.PdeCount ∧
    (recordsGuard v).length ≤ c.GuardCount := by
  have hv := validPairing_of_allPresent c b hb
  rw [GetFlatPageTableDataCounts_valid v c b hv] at hs ⊢
  obtain ⟨b1, b2, b3, b4, b5⟩ := b
  simp only [allPresent, Bool.and_eq_true] at hb
  obtain ⟨⟨⟨⟨h1, h2⟩, h3⟩, h4⟩, h5⟩ := hb
  subst h1 h2 h3 h4 h5
  dsimp only at hs ⊢
  by_cases ht : TooSmall true c.Pte1GCount (records1G v).length ∨
      TooSmall true c.Pte2MCount (records2M v).length ∨
      TooSmall true c.Pte4KCount (records4K v).length ∨
      TooSmall true c.PdeCount (recordsPde v).length ∨
      TooSmall true c.GuardCount (recordsGuard v).length
  · rw [if_pos ht] at hs
    exact absurd hs (by decide)
  · rw [if_neg ht]
    simp only [TooSmall, true_and, not_or, not_lt] at ht
    obtain ⟨l1, l2, l3, l4, l5⟩ := ht
    refine ⟨rfl, ?_, l1, l2, l3, l4, l5⟩
    simp only [loadDone, if_true, storesOf_of_le _ _ l1, storesOf_of_le _ _ l2,
      storesOf_of_le _ _ l3, storesOf_of_le _ _ l4, storesOf_of_le _ _ l5]
    rfl

theorem LoadFlatPageTableData_eq (v1 v2 v3 : PageTableView) (alloc1 alloc2 : FlatBuffers) :
    LoadFlatPageTableData v1 v2 v3 alloc1 alloc2
      = if allPresent alloc1 = false then loadError
        else if (GetFlatPageTableDataCounts v2 (secondPassCounts v1) alloc1).Status
            = EFI_STATUS.EFI_BUFFER_TOO_SMALL then
          if EFI_ERROR (GetFlatPageTableDataCounts v3
              (retryPadding (GetFlatPageTableDataCounts v2 (secondPassCounts v1) alloc1).Counts)
              alloc2).Status then loadError
          else loadDone
            (retryPadding (GetFlatPageTableDataCounts v2 (secondPassCounts v1) alloc1).Counts)
            alloc2
            (GetFlatPageTableDataCounts v3
              (retryPadding (GetFlatPageTableDataCounts v2 (secondPassCounts v1) alloc1).Counts)
              alloc2)
        else if EFI_ERROR (GetFlatPageTableDataCounts v2 (secondPassCounts v1) alloc1).Status then
          loadError
        else loadDone (secondPassCounts v1) alloc1
          (GetFlatPageTableDataCounts v2 (secondPassCounts v1) alloc1) := by
  unfold LoadFlatPageTableData
  rw [GetFlatPageTableDataCounts_count_only]
  have h : ¬ (EFI_ERROR EFI_STATUS.EFI_SUCCESS = true) := by decide
  simp only [if_neg h]

theorem LoadFlatPageTableData_same_view (v v3 : PageTableView) (alloc2 : FlatBuffers) :
    LoadFlatPageTableData v v v3 ⟨true, true, true, true, true⟩ alloc2
      = ⟨true, trueCounts v,
          some ⟨(records1G v).length + 15, (records1G v).enum⟩,
          some ⟨(records2M v).length + 15, (records2M v).enum⟩,
          some ⟨(records4K v).length + 15, (records4K v).enum⟩,
          some ⟨(recordsPde v).length + 15, (recordsPde v).enum⟩,
          some ⟨(recordsGuard v).length, (recordsGuard v).enum⟩⟩ := by
  have hall : allPresent ⟨true, true, true, true, true⟩ = true := by decide
  have hnot : ¬ (allPresent ⟨true, true, true, true, true⟩ = false) := by decide
  have hs : (GetFlatPageTableDataCounts v (secondPassCounts v)
      ⟨true, true, true, true, true⟩).Status = EFI_STATUS.EFI_SUCCESS := by
    rw [GetFlatPageTableDataCounts_valid v _ _ (validPairing_of_allPresent _ _ hall),
      secondPassCounts_eq]
    dsimp only
    rw [if_neg]
    simp only [TooSmall, firstPadding, trueCounts, true_and, not_or, not_lt]
    omega
  have he : EFI_ERROR (GetFlatPageTableDataCounts v (secondPassCounts v)
      ⟨true, true, true, true, true⟩).Status = false := by
    rw [hs]
    rfl
  rw [LoadFlatPageTableData_eq, if_neg hnot, if_neg (by rw [hs]; decide),
    if_neg (by rw [he]; decide), (loadDone_holds v _ _ hall he).2.1, secondPassCounts_eq]
  simp only [firstPadding, trueCounts]

/-- C21 (two-pass safety).  On a page table that does not change between the
passes, with the five first-round allocations succeeding, `LoadFlatPageTableData`
returns `TRUE` whatever the retry would have met (the retry is not used); the
counts are the true totals; the 4K buffer was allocated for exactly the true 4K
total plus 15 entries and holds all the 4K records, record `k` at index `k`; and
the same holds for the 1G, 2M and directory categories. -/
theorem LoadFlatPageTableData_unchanged (v v3 : PageTableView) (alloc2 : FlatBuffers) :
    (LoadFlatPageTableData v v v3 ⟨true, true, true, true, true⟩ alloc2).Return = true ∧
    (LoadFlatPageTableData v v v3 ⟨true, true, true, true, true⟩ alloc2).Counts
      = ⟨(records1G v).length, (records2M v).length, (records4K v).length,
          (recordsPde v).length, (recordsGuard v).length⟩ ∧
    (LoadFlatPageTableData v v v3 ⟨true, true, true, true, true⟩ alloc2).Pte4KEntries
      = some ⟨(records4K v).length + 15, (records4K v).enum⟩ ∧
    (LoadFlatPageTableData v v v3 ⟨true, true, true, true, true⟩ alloc2).Pte1GEntries
      = some ⟨(records1G v).length + 15, (records1G v).enum⟩ ∧
    (LoadFlatPageTableData v v v3 ⟨true, true, true, true, true⟩ alloc2).Pte2MEntries
      = some ⟨(records2M v).length + 15, (records2M v).enum⟩ ∧
    (LoadFlatPageTableData v v v3 ⟨true, true, true, true, true⟩ alloc2).PdeEntries
      = some ⟨(recordsPde v).length + 15, (recordsPde v).enum⟩ := by
  rw [LoadFlatPageTableData_same_view]
  dsimp only [trueCounts]
  exact ⟨rfl, rfl, rfl, rfl, rfl, rfl⟩

/-- C22 (failure leaves nothing behind).  Whenever `LoadFlatPageTableData` returns
`FALSE`, the five counts are 0 and the five buffer pointers are `NULL`. -/
theorem LoadFlatPageTableData_failure (v1 v2 v3 : PageTableView) (alloc1 alloc2 : FlatBuffers)
    (h : (LoadFlatPageTableData v1 v2 v3 alloc1 alloc2).Return = false) :
    LoadFlatPageTableData v1 v2 v3 alloc1 alloc2
      = ⟨false, ⟨0, 0, 0, 0, 0⟩, none, none, none, none, none⟩ := by
  rw [LoadFlatPageTableData_eq] at h ⊢
  split at h
  · rw [if_pos (by assumption)]
    rfl
  · rw [if_neg (by assumption)]
    split at h
    · rw [if_pos (by assumption)]
      split at h
      · rw [if_pos (by assumption)]
        rfl
      · exact absurd h (by simp [loadDone])
    · rw [if_neg (by assumption)]
      split at h
      · rw [if_pos (by assumption)]
        rfl
      · exact absurd h (by simp [loadDone])

theorem LoadFlatPageTableData_alloc_fails (v1 v2 v3 : PageTableView) (alloc1 alloc2 : FlatBuffers)
    (h : allPresent alloc1 = false) :
    (LoadFlatPageTableData v1 v2 v3 alloc1 alloc2).Return = false := by
  rw [LoadFlatPageTableData_eq, if_pos h]
  rfl

theorem LoadFlatPageTableData_failure_witness :
    (LoadFlatPageTableData emptyView emptyView emptyView ⟨true, true, false, true, true⟩
      ⟨true, true, true, true, true⟩).Return = false ∧
    LoadFlatPageTableData emptyView emptyView emptyView ⟨true, true, false, true, true⟩
      ⟨true, true, true, true, true⟩
      = ⟨false, ⟨0, 0, 0, 0, 0⟩, none, none, none, none, none⟩ :=
  ⟨LoadFlatPageTableData_alloc_fails _ _ _ _ _ (by decide),
    LoadFlatPageTableData_failure emptyView emptyView emptyView ⟨true, true, false, true, true⟩
      ⟨true, true, true, true, true⟩ (LoadFlatPageTableData_alloc_fails _ _ _ _ _ (by decide))⟩

theorem holdsAll_mk {α : Type} (l : List α) (n : Nat) (h : l.length ≤ n) :
    HoldsAll l (some ⟨n, l.enum⟩) :=
  ⟨⟨n, l.enum⟩, rfl, h, rfl⟩

/-- C23 (success returns true counts).  Whenever `LoadFlatPageTableData` returns
`TRUE`, with or without the retry, the five counts are the true totals that the
last call of `GetFlatPageTableData` saw, and each of the five buffers is there,
has room for at least that many entries and holds every counted record, record
`k` at index `k`. -/
theorem LoadFlatPageTableData_success (v1 v2 v3 : PageTableView) (alloc1 alloc2 : FlatBuffers)
    (h : (LoadFlatPageTableData v1 v2 v3 alloc1 alloc2).Return = true) :
    (LoadFlatPageTableData v1 v2 v3 alloc1 alloc2).Counts
      = trueCounts (lastPass v1 v2 v3 alloc1) ∧
    HoldsAll (records1G (lastPass v1 v2 v3 alloc1))
      (LoadFlatPageTableData v1 v2 v3 alloc1 alloc2).Pte1GEntries ∧
    HoldsAll (records2M (lastPass v1 v2 v3 alloc1))
      (LoadFlatPageTableData v1 v2 v3 alloc1 alloc2).Pte2MEntries ∧
    HoldsAll (records4K (lastPass v1 v2 v3 alloc1))
      (LoadFlatPageTableData v1 v2 v3 alloc1 alloc2).Pte4KEntries ∧
    HoldsAll (recordsPde (lastPass v1 v2 v3 alloc1))
      (LoadFlatPageTableData v1 v2 v3 alloc1 alloc2).PdeEntries ∧
    HoldsAll (recordsGuard (lastPass v1 v2 v3 alloc1))
      (LoadFlatPageTableData v1 v2 v3 alloc1 alloc2).GuardEntries := by
  have key : ∀ (v : PageTableView) (c : FlatCounts) (b : FlatBuffers), allPresent b = true →
      EFI_ERROR (GetFlatPageTableDataCounts v c b).Status = false →
      (loadDone c b (GetFlatPageTableDataCounts v c b)).Counts = trueCounts v ∧
      HoldsAll (records1G v) (loadDone c b (GetFlatPageTableDataCounts v c b)).Pte1GEntries ∧
      HoldsAll (records2M v) (loadDone c b (GetFlatPageTableDataCounts v c b)).Pte2MEntries ∧
      HoldsAll (records4K v) (loadDone c b (GetFlatPageTableDataCounts v c b)).Pte4KEntries ∧
      HoldsAll (recordsPde v) (loadDone c b (GetFlatPageTableDataCounts v c b)).PdeEntries ∧
      HoldsAll (recordsGuard v) (loadDone c b (GetFlatPageTableDataCounts v c b)).GuardEntries := by
    intro v c b hb he
    obtain ⟨_, e, l1, l2, l3, l4, l5⟩ := loadDone_holds v c b hb he
    rw [e]
    dsimp only
    exact ⟨Eq.refl _, holdsAll_mk _ _ l1, holdsAll_mk _ _ l2, holdsAll_mk _ _ l3,
      holdsAll_mk _ _ l4, holdsAll_mk _ _ l5⟩
  rw [LoadFlatPageTableData_eq] at h ⊢
  unfold lastPass
  by_cases ha : allPresent alloc1 = false
  · rw [if_pos ha] at h
    exact absurd h (by simp [loadError])
  · rw [if_neg ha] at h ⊢
    have ha1 : allPresent alloc1 = true := by simpa using ha
    by_cases ht : (GetFlatPageTableDataCounts v2 (secondPassCounts v1) alloc1).Status
        = EFI_STATUS.EFI_BUFFER_TOO_SMALL
    · rw [if_pos ht] at h ⊢
      rw [if_pos ht]
      by_cases he : EFI_ERROR (GetFlatPageTableDataCounts v3
          (retryPadding (GetFlatPageTableDataCounts v2 (secondPassCounts v1) alloc1).Counts)
          alloc2).Status = true
      · rw [if_pos he] at h
        exact absurd h (by simp [loadError])
      · rw [if_neg he]
        have he1 : EFI_ERROR (GetFlatPageTableDataCounts v3
          (retryPadding (GetFlatPageTableDataCounts v2 (secondPassCounts v1) alloc1).Counts)
          alloc2).Status = false := by simpa using he
        have hv : ValidPairing
            (retryPadding (GetFlatPageTableDataCounts v2 (secondPassCounts v1) alloc1).Counts)
            alloc2 := by
          by_contra hv
          rw [GetFlatPageTableDataCounts_invalid _ _ _ hv] at he1
          exact Bool.noConfusion he1
        exact key v3 _ alloc2 (allPresent_of_retry _ _ hv) he1
    · rw [if_neg ht] at h ⊢
      rw [if_neg ht]
      by_cases he : EFI_ERROR
          (GetFlatPageTableDataCounts v2 (secondPassCounts v1) alloc1).Status = true
      · rw [if_pos he] at h
        exact absurd h (by simp [loadError])
      · rw [if_neg he]
        exact key v2 _ alloc1 ha1 (by simpa using he)

theorem LoadFlatPageTableData_success_witness :
    (LoadFlatPageTableData emptyView emptyView emptyView ⟨true, true, true, true, true⟩
      ⟨true, true, true, true, true⟩).Return = true ∧
    (LoadFlatPageTableData emptyView emptyView emptyView ⟨true, true, true, true, true⟩
      ⟨true, true, true, true, true⟩).Counts
      = trueCounts (lastPass emptyView emptyView emptyView ⟨true, true, true, true, true⟩) :=
  ⟨by rw [LoadFlatPageTableData_same_view],
    (LoadFlatPageTableData_success emptyView emptyView emptyView ⟨true, true, true, true, true⟩
      ⟨true, true, true, true, true⟩ (by rw [LoadFlatPageTableData_same_view])).1⟩

set_option maxRecDepth 100000 in
/-- C24 (code at the failing input).  On the empty page table the first pass
reports the counts 0, 0, 0, 1 (the root) and 0; the capacities declared to the
second pass are 15, 15, 15, 16 and, for the guard category, 0 and not 15; and the
guard buffer that is returned was allocated for 0 entries. -/
theorem LoadFlatPageTableData_guard_margin :
    (GetFlatPageTableDataCounts emptyView ⟨0, 0, 0, 0, 0⟩
      ⟨false, false, false, false, false⟩).Counts = ⟨0, 0, 0, 1, 0⟩ ∧
    secondPassCounts emptyView = ⟨15, 15, 15, 16, 0⟩ ∧
    LoadFlatPageTableData emptyView emptyView emptyView ⟨true, true, true, true, true⟩
      ⟨true, true, true, true, true⟩
      = ⟨true, ⟨0, 0, 0, 1, 0⟩, some ⟨15, []⟩, some ⟨15, []⟩, some ⟨15, []⟩,
          some ⟨16, [(0, 0x1000)]⟩, some ⟨0, []⟩⟩ := by
  decide

/-! ### Merging twice, and the size of the merged map -/

theorem merged_chain :
    ∀ (runs : List (List EFI_GCD_MEMORY_SPACE_DESCRIPTOR))
      (outs : List EFI_GCD_MEMORY_SPACE_DESCRIPTOR),
      (∀ r ∈ runs, r ≠ []) → (∀ r ∈ runs, List.Chain' Mergeable r) →
      List.Chain' (fun r s => ∀ a ∈ r.getLast?, ∀ b ∈ s.head?, ¬ Mergeable a b) runs →
      runs.map mergeRun = outs.map some →
      List.Chain' (fun a b => ¬ Mergeable a b) outs := by
  intro runs
  induction runs with
  | nil =>
    intro outs _ _ _ hm
    cases outs with
    | nil => exact List.chain'_nil
    | cons o outs => simp at hm
  | cons r runs ih =>
    intro outs hne hch hsep hm
    cases outs with
    | nil => simp at hm
    | cons o1 outs =>
      simp only [List.map_cons, List.cons.injEq] at hm
      obtain ⟨hm1, hm2⟩ := hm
      have hsep2 : List.Chain' (fun r s => ∀ a ∈ r.getLast?, ∀ b ∈ s.head?, ¬ Mergeable a b)
          runs := by
        cases runs with
        | nil => exact List.chain'_nil
        | cons s runs => exact (List.chain'_cons.mp hsep).2
      have ih2 := ih outs (fun r hr => hne r (List.mem_cons_of_mem _ hr))
        (fun r hr => hch r (List.mem_cons_of_mem _ hr)) hsep2 hm2
      cases runs with
      | nil =>
        cases outs with
        | nil => exact List.chain'_singleton _
        | cons o2 outs => simp at hm2
      | cons s runs =>
        cases outs with
        | nil => simp at hm2
        | cons o2 outs =>
          rw [List.chain'_cons]
          refine ⟨?_, ih2⟩
          simp only [List.map_cons, List.cons.injEq] at hm2
          obtain ⟨hs, _⟩ := hm2
          have hrs := (List.chain'_cons.mp hsep).1
          cases r with
          | nil => exact absurd rfl (hne [] (List.mem_cons_self _ _))
          | cons h t =>
            cases s with
            | nil => exact absurd rfl (hne [] (List.mem_cons_of_mem _ (List.mem_cons_self _ _)))
            | cons h2 t2 =>
              simp only [mergeRun, Option.some.injEq] at hm1 hs
              obtain ⟨l, hl⟩ : ∃ l, (h :: t).getLast? = some l :=
                ⟨(h :: t).getLast (by simp), List.getLast?_eq_getLast _ _⟩
              obtain ⟨e1, e2⟩ := mergeable_chain_last h t (hch _ (List.mem_cons_self _ _)) l
                (by rw [hl]; exact rfl)
              intro hM
              apply hrs l (by rw [hl]; exact rfl) h2 (by simp)
              obtain ⟨m1, m2⟩ := hM
              rw [← hm1, ← hs] at m1 m2
              simp only at m1 m2
              refine ⟨by rw [e1]; exact m1, ?_⟩
              rw [e2, ← m2, Nat.add_mod_mod]

theorem mergeOuter_fixed (m : List EFI_GCD_MEMORY_SPACE_DESCRIPTOR)
    (hc : List.Chain' (fun a b => ¬ Mergeable a b) m) :
    ∀ (fuel : Nat) (pre rest out : List EFI_GCD_MEMORY_SPACE_DESCRIPTOR),
      m = pre ++ rest → rest.length < fuel →
      mergeOuter m.length m fuel pre.length out = some (out ++ rest) := by
  intro fuel
  induction fuel with
  | zero => intro pre rest out _ hf; omega
  | succ fuel ih =>
    intro pre rest out hm hf
    unfold mergeOuter
    cases rest with
    | nil =>
      have : ¬ pre.length < m.length := by rw [hm]; simp
      rw [if_neg this]
      simp
    | cons d rest =>
      have hlt : pre.length < m.length := by rw [hm]; simp
      rw [if_pos hlt]
      have hget : m[pre.length]? = some d := by
        rw [hm, List.getElem?_append_right (Nat.le_refl _)]
        simp
      rw [hget]
      simp only []
      have hin : mergeInner m.length m (m.length + 1) pre.length d = some (pre.length, d) := by
        unfold mergeInner
        cases rest with
        | nil =>
          have : ¬ pre.length + 1 < m.length := by rw [hm]; simp
          rw [if_neg this]
        | cons nx rest =>
          have h1 : pre.length + 1 < m.length := by rw [hm]; simp
          have hget2 : m[pre.length + 1]? = some nx := by
            rw [hm, List.getElem?_append_right (by omega)]
            simp
          rw [if_pos h1, hget2]
          simp only []
          have hnm : ¬ Mergeable d nx := by
            rw [hm] at hc
            exact (List.chain'_cons.mp (List.Chain'.right_of_append hc)).1
          unfold Mergeable at hnm
          rw [if_neg hnm]
      rw [hin]
      simp only []
      have hpre : pre.length + 1 = (pre ++ [d]).length := by simp
      rw [hpre, ih (pre ++ [d]) rest (out ++ [d]) (by rw [hm]; simp) (by simp at hf; omega)]
      simp

theorem length_le_flatten {α : Type} :
    ∀ (runs : List (List α)), (∀ r ∈ runs, r ≠ []) → runs.length ≤ runs.flatten.length := by
  intro runs
  induction runs with
  | nil => intro _; simp
  | cons r runs ih =>
    intro h
    have h1 : 0 < r.length := List.length_pos.mpr (h r (List.mem_cons_self _ _))
    have h2 := ih (fun s hs => h s (List.mem_cons_of_mem _ hs))
    simp only [List.flatten_cons, List.length_append, List.length_cons]
    omega

theorem merge_result (m : List EFI_GCD_MEMORY_SPACE_DESCRIPTOR)
    (hwf : ∀ d ∈ m, d.Length < U64) :
    ∃ outs, mergeOuter m.length m (m.length + 1) 0 [] = some outs ∧
      outs.length ≤ m.length ∧ (m ≠ [] → 1 ≤ outs.length) ∧
      List.Chain' (fun a b => ¬ Mergeable a b) outs := by
  obtain ⟨runs, outs, ⟨r1, r2, r3, r4⟩, _, h3, h4⟩ := mergeOuter_spec m hwf (m.length + 1) [] m []
    rfl (Nat.lt_succ_self _)
  simp only [List.length_nil, List.nil_append] at h4
  have hl : outs.length = runs.length := by
    have := congrArg List.length h3
    simpa using this.symm
  refine ⟨outs, h4, ?_, ?_, merged_chain runs outs r2 r3 r4 h3⟩
  · rw [hl, r1]
    exact length_le_flatten runs r2
  · intro hne
    rw [hl]
    cases runs with
    | nil => exact absurd r1 hne
    | cons r runs => simp

theorem MergeMemorySpaceMap_of_ge (m : List EFI_GCD_MEMORY_SPACE_DESCRIPTOR) (hN : 2 ≤ m.length)
    (outs : List EFI_GCD_MEMORY_SPACE_DESCRIPTOR)
    (h : mergeOuter m.length m (m.length + 1) 0 [] = some outs) (allocNew allocCopy : Bool) :
    MergeMemorySpaceMap allocNew allocCopy m.length (some m)
      = if allocNew = false then some (EFI_STATUS.EFI_OUT_OF_RESOURCES, m.length, some m)
        else if allocCopy = false then some (EFI_STATUS.EFI_OUT_OF_RESOURCES, outs.length, none)
        else some (EFI_STATUS.EFI_SUCCESS, outs.length, some outs) := by
  have hle : ¬ m.length ≤ 1 := by omega
  unfold MergeMemorySpaceMap
  simp only [if_neg hle, h]

/-- C25 (merge idempotence).  For an input of two or more descriptors with 64-bit
lengths (sorted or not), `MergeMemorySpaceMap` succeeds and leaves a count and a
map on which a second call of `MergeMemorySpaceMap` leaves the same count and the
same map; the second call returns success when the map has two or more
descriptors and `EFI_INVALID_PARAMETER`, touching nothing, when it has one. -/
theorem MergeMemorySpaceMap_idempotent (m : List EFI_GCD_MEMORY_SPACE_DESCRIPTOR)
    (hN : 2 ≤ m.length) (hwf : ∀ d ∈ m, d.Length < U64) :
    ∃ out, MergeMemorySpaceMap true true m.length (some m)
        = some (EFI_STATUS.EFI_SUCCESS, out.length, some out) ∧
      MergeMemorySpaceMap true true out.length (some out)
        = some (if out.length ≤ 1 then EFI_STATUS.EFI_INVALID_PARAMETER
            else EFI_STATUS.EFI_SUCCESS, out.length, some out) := by
  obtain ⟨outs, h1, _, _, h4⟩ := merge_result m hwf
  refine ⟨outs, ?_, ?_⟩
  · rw [MergeMemorySpaceMap_of_ge m hN outs h1]
    rfl
  · by_cases hle : outs.length ≤ 1
    · rw [if_pos hle]
      unfold MergeMemorySpaceMap
      simp only [if_pos hle]
    · rw [if_neg hle]
      have h2 := mergeOuter_fixed outs h4 (outs.length + 1) [] outs [] rfl (Nat.lt_succ_self _)
      simp only [List.length_nil, List.nil_append] at h2
      rw [MergeMemorySpaceMap_of_ge outs (by omega) outs h2]
      rfl

theorem MergeMemorySpaceMap_idempotent_witness :
    ∃ out, MergeMemorySpaceMap true true adjacentSpaceMap.length (some adjacentSpaceMap)
        = some (EFI_STATUS.EFI_SUCCESS, out.length, some out) ∧
      MergeMemorySpaceMap true true out.length (some out)
        = some (if out.length ≤ 1 then EFI_STATUS.EFI_INVALID_PARAMETER
            else EFI_STATUS.EFI_SUCCESS, out.length, some out) :=
  MergeMemorySpaceMap_idempotent adjacentSpaceMap (by decide) (by decide)

/-- C26 (merge never grows).  On an input of `N` descriptors with 64-bit lengths,
whenever `MergeMemorySpaceMap` returns success the count it leaves is at least 1
and at most `N`, and the map it leaves has that many descriptors; with two or more
descriptors and both allocations succeeding it does return success. -/
theorem MergeMemorySpaceMap_never_grows (m : List EFI_GCD_MEMORY_SPACE_DESCRIPTOR)
    (hwf : ∀ d ∈ m, d.Length < U64) (allocNew allocCopy : Bool) :
    (∀ n mp, MergeMemorySpaceMap allocNew allocCopy m.length (some m)
        = some (EFI_STATUS.EFI_SUCCESS, n, mp) →
      1 ≤ n ∧ n ≤ m.length ∧ ∃ out, mp = some out ∧ out.length = n) ∧
    (2 ≤ m.length → ∃ out, MergeMemorySpaceMap true true m.length (some m)
        = some (EFI_STATUS.EFI_SUCCESS, out.length, some out)) := by
  obtain ⟨outs, h1, h2, h3, _⟩ := merge_result m hwf
  constructor
  · intro n mp h
    by_cases hN : 2 ≤ m.length
    · rw [MergeMemorySpaceMap_of_ge m hN outs h1] at h
      have hne : m ≠ [] := by
        intro e
        rw [e] at hN
        simp at hN
      split at h
      · simp at h
      · split at h
        · simp at h
        · simp only [Option.some.injEq, Prod.mk.injEq, true_and] at h
          obtain ⟨e1, e2⟩ := h
          subst e1
          exact ⟨h3 hne, h2, outs, e2.symm, rfl⟩
    · have hle : m.length ≤ 1 := by omega
      unfold MergeMemorySpaceMap at h
      simp only [if_pos hle] at h
      simp at h
  · intro hN
    exact ⟨outs, by rw [MergeMemorySpaceMap_of_ge m hN outs h1]; rfl⟩

theorem MergeMemorySpaceMap_never_grows_witness :
    (2 ≤ adjacentSpaceMap.length) ∧
    ∃ out, MergeMemorySpaceMap true true adjacentSpaceMap.length (some adjacentSpaceMap)
        = some (EFI_STATUS.EFI_SUCCESS, out.length, some out) :=
  ⟨by decide, (MergeMemorySpaceMap_never_grows adjacentSpaceMap (by decide) true true).2
    (by decide)⟩

/-- C27 (as stated) fails in both directions: a sorted map of a single descriptor
is refused with `EFI_INVALID_PARAMETER`, and a map of two descriptors that is not
sorted by base address is accepted and returns success. -/
theorem MergeMemorySpaceMap_precondition_counterexample :
    MergeMemorySpaceMap true true 1 (some singleSpaceMap)
      = some (EFI_STATUS.EFI_INVALID_PARAMETER, 1, some singleSpaceMap) ∧
    MergeMemorySpaceMap true true 2 (some unsortedSpaceMap)
      = some (EFI_STATUS.EFI_SUCCESS, 2, some unsortedSpaceMap) := by
  decide

/-- C27 (merge precondition, amended).  `MergeMemorySpaceMap` returns
`EFI_INVALID_PARAMETER` exactly when the map is `NULL` or the count is at most 1,
and then leaves the count and the map as they were; the order of the descriptors
is not looked at.  On every map of two or more descriptors with 64-bit lengths it
returns success when both allocations succeed. -/
theorem MergeMemorySpaceMap_precondition (allocNew allocCopy : Bool) (N : Nat)
    (mp : Option (List EFI_GCD_MEMORY_SPACE_DESCRIPTOR)) :
    ((mp = none ∨ N ≤ 1) →
      MergeMemorySpaceMap allocNew allocCopy N mp
        = some (EFI_STATUS.EFI_INVALID_PARAMETER, N, mp)) ∧
    (∀ n mp1, MergeMemorySpaceMap allocNew allocCopy N mp
        = some (EFI_STATUS.EFI_INVALID_PARAMETER, n, mp1) → mp = none ∨ N ≤ 1) ∧
    (∀ m, mp = some m → N = m.length → 2 ≤ N → (∀ d ∈ m, d.Length < U64) →
      ∃ out, MergeMemorySpaceMap true true N mp
        = some (EFI_STATUS.EFI_SUCCESS, out.length, some out)) := by
  refine ⟨?_, ?_, ?_⟩
  · intro h
    unfold MergeMemorySpaceMap
    cases mp with
    | none => rfl
    | some m =>
      have hN : N ≤ 1 := by
        rcases h with h | h
        · cases h
        · exact h
      simp only [if_pos hN]
  · intro n mp1 h
    cases mp with
    | none => exact Or.inl rfl
    | some m =>
      right
      by_contra hN
      unfold MergeMemorySpaceMap at h
      simp only [if_neg hN] at h
      split at h
      · simp at h
      · split at h
        · simp at h
        · split at h <;> simp at h
  · intro m hm hN h2 hwf
    subst hm
    subst hN
    obtain ⟨outs, h1, _⟩ := merge_result m hwf
    exact ⟨outs, by rw [MergeMemorySpaceMap_of_ge m h2 outs h1]; rfl⟩

theorem MergeMemorySpaceMap_precondition_witness :
    ((some singleSpaceMap = none ∨ 1 ≤ 1) ∧
      MergeMemorySpaceMap true true 1 (some singleSpaceMap)
        = some (EFI_STATUS.EFI_INVALID_PARAMETER, 1, some singleSpaceMap)) ∧
    (2 ≤ 2 ∧ ∃ out, MergeMemorySpaceMap true true 2 (some unsortedSpaceMap)
        = some (EFI_STATUS.EFI_SUCCESS, out.length, some out)) :=
  ⟨⟨Or.inr (by decide),
    (MergeMemorySpaceMap_precondition true true 1 (some singleSpaceMap)).1 (Or.inr (by decide))⟩,
    ⟨by decide,
      (MergeMemorySpaceMap_precondition true true 2 (some unsortedSpaceMap)).2.2
        unsortedSpaceMap rfl rfl (by decide) (by decide)⟩⟩

/-! ### The synthetic entries of the gap fill -/

theorem FILL_eq_gapEntry (NONE Start Gap : Nat) :
    FILL_MEMORY_DESCRIPTOR_ENTRY NONE Start (EfiSizeToPages Gap) = gapEntry NONE Start Gap := by
  unfold FILL_MEMORY_DESCRIPTOR_ENTRY gapEntry
  rw [EfiSizeToPages_eq_ceil]

theorem fillBetween_eq_gapsBetween (NONE : Nat) :
    ∀ (l : List EFI_MEMORY_DESCRIPTOR),
      (∀ e ∈ l, e.PhysicalStart + e.NumberOfPages * 4096 < 2 ^ 64) →
      List.Chain' NoOverlap l →
      fillBetween NONE l = gapsBetween NONE l
  | [], _, _ => rfl
  | [a], _, _ => rfl
  | a :: b :: t, hl, hc => by
    have hab : NoOverlap a b := (List.chain'_cons.mp hc).1
    have ih := fillBetween_eq_gapsBetween NONE (b :: t)
      (fun e he => hl e (List.mem_cons_of_mem _ he)) (List.chain'_cons.mp hc).2
    have ha64 := hl a (by simp)
    have hb64 := hl b (by simp)
    have hE := entryEnd_exact a ha64
    have hbU : b.PhysicalStart < U64 := by
      unfold U64
      omega
    unfold NoOverlap at hab
    unfold fillBetween gapsBetween
    rw [hE]
    by_cases h : b.PhysicalStart = a.PhysicalStart + a.NumberOfPages * 4096
    · rw [if_neg (by simpa using h), if_neg (by omega), ih]
    · rw [if_pos h, if_pos (by omega), ih, FILL_eq_gapEntry, sub64_of_le _ _ hab hbU]

/-- C28 (as stated) fails.  For the one-page map at `0` and the address space
`[0, 0x1800)` the trailing synthetic entry fills a gap of `0x800` bytes, and its
page count is 1, not `0x800 / 4096 = 0`.  And between the overlapping neighbours
`[0, 0x2000)` and `[0x1000, 0x2000)`, where the second does not start above the
end of the first, an entry of `2^52 - 1` pages is inserted that fills no gap. -/
theorem FillInMemoryMap_synthetic_counterexample :
    (FillInMemoryMap 15 true true 48 (some onePageAt0) 48 0 0x1800
        = some (EFI_STATUS.EFI_SUCCESS, 96, some [⟨7, 0, 0, 1, 0⟩, ⟨15, 0x1000, 0, 1, 0⟩]) ∧
      (0x1800 - 0x1000) / 4096 = 0 ∧
      (⟨15, 0x1000, 0, 1, 0⟩ : EFI_MEMORY_DESCRIPTOR).NumberOfPages
        ≠ (0x1800 - 0x1000) / 4096) ∧
    (FillInMemoryMap 15 true true 96 (some overlappingMemoryMap) 48 0 0x2000
        = some (EFI_STATUS.EFI_SUCCESS, 144,
            some [⟨7, 0, 0, 2, 0⟩, ⟨15, 0x2000, 0, 2 ^ 52 - 1, 0⟩, ⟨7, 0x1000, 0, 1, 0⟩]) ∧
      ¬ NoOverlap ⟨7, 0, 0, 2, 0⟩ ⟨7, 0x1000, 0, 1, 0⟩) :=
  ⟨by decide, by decide⟩

/-- C28 (synthetic entries, amended).  On a non-empty memory map laid out at a
positive stride, whose entries end below `2^64` and do not overlap (each ends at
or below the start of the next), `FillInMemoryMap` succeeds and its result is the
input with a synthetic entry in every gap: a leading one at `StartOfAddressSpace`
when the first entry starts above it, one between two entries when the second
starts above the end of the first, and a trailing one at the end of the last entry
when `EndOfAddressSpace` is above it.  Every synthetic entry has the sentinel
type, attribute 0, virtual start 0, starts where the preceding coverage ends, and
has the size of its gap divided by 4096, rounded up, as its page count. -/
theorem FillInMemoryMap_synthetic (NONE D Start End : Nat) (first prev : EFI_MEMORY_DESCRIPTOR)
    (tl : List EFI_MEMORY_DESCRIPTOR) (hD : 0 < D)
    (hprev : (first :: tl).getLast? = some prev)
    (hwf : ∀ e ∈ first :: tl, e.PhysicalStart + e.NumberOfPages * 4096 < 2 ^ 64)
    (hno : List.Chain' NoOverlap (first :: tl)) :
    FillInMemoryMap NONE true true ((first :: tl).length * D) (some (first :: tl)) D Start End
      = some (EFI_STATUS.EFI_SUCCESS,
          (leadGap NONE first Start ++ gapsBetween NONE (first :: tl)
            ++ trailGap NONE prev End).length * D,
          some (leadGap NONE first Start ++ gapsBetween NONE (first :: tl)
            ++ trailGap NONE prev End)) := by
  rw [FillInMemoryMap_eq NONE D Start End first prev tl hD hprev,
    fillBetween_eq_gapsBetween NONE _ hwf hno]
  have e1 : fillLead NONE first Start = leadGap NONE first Start := by
    unfold fillLead leadGap
    rw [FILL_eq_gapEntry]
  have e2 : fillTrail NONE prev End = trailGap NONE prev End := by
    unfold fillTrail trailGap
    rw [FILL_eq_gapEntry, entryEnd_exact prev (hwf prev (List.mem_of_mem_getLast? hprev))]
  rw [e1, e2]

theorem FillInMemoryMap_synthetic_witness :
    FillInMemoryMap 15 true true (mapWithHole.length * 48) (some mapWithHole) 48 0 0x8000
      = some (EFI_STATUS.EFI_SUCCESS,
          (leadGap 15 ⟨7, 0x1000, 0, 2, 0⟩ 0 ++ gapsBetween 15 mapWithHole
            ++ trailGap 15 ⟨7, 0x5000, 0, 1, 0⟩ 0x8000).length * 48,
          some (leadGap 15 ⟨7, 0x1000, 0, 2, 0⟩ 0 ++ gapsBetween 15 mapWithHole
            ++ trailGap 15 ⟨7, 0x5000, 0, 1, 0⟩ 0x8000)) :=
  FillInMemoryMap_synthetic 15 48 0 0x8000 ⟨7, 0x1000, 0, 2, 0⟩ ⟨7, 0x5000, 0, 1, 0⟩
    [⟨7, 0x5000, 0, 1, 0⟩] (by decide) (by decide) (by decide) (by simp [NoOverlap])

theorem FillInMemoryMap_synthetic_example :
    leadGap 15 ⟨7, 0x1000, 0, 2, 0⟩ 0 ++ gapsBetween 15 mapWithHole
        ++ trailGap 15 ⟨7, 0x5000, 0, 1, 0⟩ 0x8000
      = [⟨15, 0, 0, 1, 0⟩, ⟨7, 0x1000, 0, 2, 0⟩, ⟨15, 0x3000, 0, 2, 0⟩, ⟨7, 0x5000, 0, 1, 0⟩,
          ⟨15, 0x6000, 0, 2, 0⟩] := by
  decide

/-! ### Errors of the gap fill -/

theorem FillInMemoryMap_copy_fails (NONE D Start End : Nat) (first : EFI_MEMORY_DESCRIPTOR)
    (tl : List EFI_MEMORY_DESCRIPTOR) (hD : 0 < D) :
    FillInMemoryMap NONE true false ((first :: tl).length * D) (some (first :: tl)) D Start End
      = some (EFI_STATUS.EFI_OUT_OF_RESOURCES, (first :: tl).length * D, some (first :: tl)) := by
  have hlen : (first :: tl).length ≤ (first :: tl).length * D := Nat.le_mul_of_pos_right _ hD
  have hS : ¬ ((first :: tl).length * D = 0 ∨ D = 0) := by
    simp only [List.length_cons] at hlen ⊢
    omega
  have hloop := fillLoop_eq NONE (first :: tl) D hD ((first :: tl).length * D + 1) []
    (first :: tl) (fillLead NONE first Start) rfl (by omega)
  have hne : fillBetween NONE (first :: tl) ≠ [] := by
    intro h
    have := fillBetween_head NONE (first :: tl)
    rw [h] at this
    simp at this
  obtain ⟨prev, hprev⟩ : ∃ prev, (first :: tl).getLast? = some prev :=
    ⟨(first :: tl).getLast (by simp), List.getLast?_eq_getLast _ _⟩
  have hlast : (fillLead NONE first Start ++ fillBetween NONE (first :: tl)).getLast?
      = some prev := by
    rw [List.getLast?_append_of_ne_nil _ hne, fillBetween_getLast, hprev]
  have h0 : (first :: tl)[0]? = some first := by simp
  have hb : ¬ (true = false) := by decide
  unfold FillInMemoryMap
  simp only [if_neg hS, if_neg hb, h0]
  unfold fillLead at hloop hlast
  simp only [List.length_nil] at hloop
  rw [hloop]
  simp only [hlast, if_true]

/-- C29 (gap fill is atomic on failure).  Whenever `FillInMemoryMap` returns a
status other than success, the size and the map it leaves are those it was called
with.  It returns `EFI_INVALID_PARAMETER` for a `NULL` map, a zero size or a zero
stride, and `EFI_OUT_OF_RESOURCES` when the first allocation fails, or when the
copy allocation fails on a non-empty map laid out at a positive stride. -/
theorem FillInMemoryMap_atomic (NONE : Nat) (allocNew allocCopy : Bool) (MemoryMapSize : Nat)
    (MemoryMap : Option (List EFI_MEMORY_DESCRIPTOR)) (D Start End : Nat) :
    (∀ st sz mp, FillInMemoryMap NONE allocNew allocCopy MemoryMapSize MemoryMap D Start End
        = some (st, sz, mp) → st ≠ EFI_STATUS.EFI_SUCCESS →
      sz = MemoryMapSize ∧ mp = MemoryMap) ∧
    (MemoryMap = none ∨ MemoryMapSize = 0 ∨ D = 0 →
      FillInMemoryMap NONE allocNew allocCopy MemoryMapSize MemoryMap D Start End
        = some (EFI_STATUS.EFI_INVALID_PARAMETER, MemoryMapSize, MemoryMap)) ∧
    (MemoryMap ≠ none → MemoryMapSize ≠ 0 → D ≠ 0 → allocNew = false →
      FillInMemoryMap NONE allocNew allocCopy MemoryMapSize MemoryMap D Start End
        = some (EFI_STATUS.EFI_OUT_OF_RESOURCES, MemoryMapSize, MemoryMap)) ∧
    (∀ first tl, MemoryMap = some (first :: tl) → MemoryMapSize = (first :: tl).length * D →
      0 < D → allocNew = true → allocCopy = false →
      FillInMemoryMap NONE allocNew allocCopy MemoryMapSize MemoryMap D Start End
        = some (EFI_STATUS.EFI_OUT_OF_RESOURCES, MemoryMapSize, MemoryMap)) := by
  refine ⟨?_, ?_, ?_, ?_⟩
  · intro st sz mp h hst
    unfold FillInMemoryMap at h
    cases MemoryMap with
    | none =>
      simp only [Option.some.injEq, Prod.mk.injEq] at h
      exact ⟨h.2.1.symm, h.2.2.symm⟩
    | some Old =>
      simp only at h
      split at h
      · simp only [Option.some.injEq, Prod.mk.injEq] at h
        exact ⟨h.2.1.symm, h.2.2.symm⟩
      · split at h
        · simp only [Option.some.injEq, Prod.mk.injEq] at h
          exact ⟨h.2.1.symm, h.2.2.symm⟩
        · split at h
          · cases h
          · split at h
            · cases h
            · split at h
              · cases h
              · split at h
                · simp only [Option.some.injEq, Prod.mk.injEq] at h
                  exact ⟨h.2.1.symm, h.2.2.symm⟩
                · simp only [Option.some.injEq, Prod.mk.injEq] at h
                  exact absurd h.1.symm hst
  · intro h
    unfold FillInMemoryMap
    cases MemoryMap with
    | none => rfl
    | some Old =>
      have h2 : MemoryMapSize = 0 ∨ D = 0 := by
        rcases h with h | h
        · cases h
        · exact h
      simp only [if_pos h2]
  · intro h1 h2 h3 h4
    unfold FillInMemoryMap
    cases MemoryMap with
    | none => exact absurd rfl h1
    | some Old =>
      have h5 : ¬ (MemoryMapSize = 0 ∨ D = 0) := by omega
      simp only [if_neg h5, if_pos h4]
  · intro first tl h1 h2 h3 h4 h5
    subst h1 h2 h4 h5
    exact FillInMemoryMap_copy_fails NONE D Start End first tl h3

theorem FillInMemoryMap_atomic_witness :
    FillInMemoryMap 15 true false 96 (some mapWithHole) 48 0 0x8000
      = some (EFI_STATUS.EFI_OUT_OF_RESOURCES, 96, some mapWithHole) ∧
    (EFI_STATUS.EFI_OUT_OF_RESOURCES ≠ EFI_STATUS.EFI_SUCCESS) ∧
    ((96 : Nat) = 96 ∧ some mapWithHole = some mapWithHole) :=
  ⟨by decide, by decide,
    (FillInMemoryMap_atomic 15 true false 96 (some mapWithHole) 48 0 0x8000).1
      EFI_STATUS.EFI_OUT_OF_RESOURCES 96 (some mapWithHole) (by decide) (by decide)⟩

/-! ### The sort rearranges its input -/

theorem swap_perm {α : Type} (m : List α) (i j : Nat) (hi : i < m.length) (hj : j < m.length)
    (hij : i ≠ j) : List.Perm ((m.set i m[j]).set j m[i]) m := by
  classical
  rw [List.perm_iff_count]
  intro x
  have hj2 : j < (m.set i m[j]).length := by simpa using hj
  rw [List.count_set _ _ _ _ hj2, List.count_set _ _ _ _ hi]
  have hg : (m.set i m[j])[j] = m[j] := by
    rw [List.getElem_set]
    simp [hij]
  rw [hg]
  have c1 : (if (m[i] == x) = true then 1 else 0) ≤ m.count x := by
    split
    · rename_i h
      have : m[i] = x := by simpa using h
      rw [← this]
      exact List.count_pos_iff.mpr (List.getElem_mem hi)
    · omega
  generalize (if (m[i] == x) = true then 1 else 0) = A at c1 ⊢
  generalize (if (m[j] == x) = true then 1 else 0) = B
  omega

theorem sortInner_perm {α : Type} (key : α → Nat) (S D i : Nat) :
    ∀ (fuel j : Nat) (m m1 : List α), i < j →
      sortInner key S D i fuel j m = some m1 → List.Perm m1 m := by
  intro fuel
  induction fuel with
  | zero =>
    intro j m m1 _ h
    simp [sortInner] at h
  | succ fuel ih =>
    intro j m m1 hij h
    unfold sortInner at h
    split at h
    · split at h
      · rename_i a b ha hb
        have hi : i < m.length := by
          rcases Nat.lt_or_ge i m.length with h1 | h1
          · exact h1
          · rw [List.getElem?_eq_none h1] at ha; cases ha
        have hj : j < m.length := by
          rcases Nat.lt_or_ge j m.length with h1 | h1
          · exact h1
          · rw [List.getElem?_eq_none h1] at hb; cases hb
        rw [List.getElem?_eq_getElem hi] at ha
        rw [List.getElem?_eq_getElem hj] at hb
        cases ha
        cases hb
        have := ih (j + 1) _ m1 (by omega) h
        split at this
        · exact this.trans (swap_perm m i j hi hj (by omega))
        · exact this
      · cases h
    · cases h
      exact List.Perm.refl _

theorem sortOuter_perm {α : Type} (key : α → Nat) (S D : Nat) :
    ∀ (fuel i : Nat) (m r : List α), sortOuter key S D fuel i m = some r → List.Perm r m := by
  intro fuel
  induction fuel with
  | zero =>
    intro i m r h
    simp [sortOuter] at h
  | succ fuel ih =>
    intro i m r h
    unfold sortOuter at h
    split at h
    · split at h
      · rename_i m1 h1
        exact (ih (i + 1) m1 r h).trans (sortInner_perm key S D i _ _ m m1 (by omega) h1)
      · cases h
    · cases h
      exact List.Perm.refl _

/-- C30 (as stated) fails: in the map whose first two entries start at `0x2000`
and whose third entry starts at `0`, the exchange of slot 0 with slot 2 carries
the first entry behind the second, so the two entries with equal start come out
in the opposite order; the same happens in `SortMemorySpaceMap`. -/
theorem SortMemoryMap_stable_counterexample :
    SortMemoryMap tiedMemoryMap (3 * 48) 48
      = some [⟨3, 0, 0, 1, 0⟩, ⟨2, 0x2000, 0, 1, 0⟩, ⟨1, 0x2000, 0, 1, 0⟩] ∧
    SortMemorySpaceMap tiedSpaceMap (3 * 56) 56
      = some [⟨0, 0x1000, 0, 0, EFI_GCD_MEMORY_TYPE.EfiGcdMemoryTypeSystemMemory, 0, 0⟩,
          ⟨0x2000, 0x2000, 0, 0, EFI_GCD_MEMORY_TYPE.EfiGcdMemoryTypeSystemMemory, 0, 0⟩,
          ⟨0x2000, 0x1000, 0, 0, EFI_GCD_MEMORY_TYPE.EfiGcdMemoryTypeSystemMemory, 0, 0⟩] := by
  decide

/-- C30 (sort order, amended).  For every input laid out at a positive stride,
`SortMemoryMap` returns a rearrangement of the input entries in which the start
addresses ascend, and so does `SortMemorySpaceMap`; nothing is said about the
relative order of two entries with equal start address. -/
theorem SortMemoryMap_rearranges :
    (∀ (MemoryMap : List EFI_MEMORY_DESCRIPTOR) (DescriptorSize : Nat), 0 < DescriptorSize →
      ∃ r, SortMemoryMap MemoryMap (MemoryMap.length * DescriptorSize) DescriptorSize = some r ∧
        List.Perm r MemoryMap ∧
        ∀ (p q : Nat) (a b : EFI_MEMORY_DESCRIPTOR), p < q → r[p]? = some a → r[q]? = some b →
          a.PhysicalStart ≤ b.PhysicalStart) ∧
    (∀ (MemoryMap : List EFI_GCD_MEMORY_SPACE_DESCRIPTOR) (DescriptorSize : Nat),
      0 < DescriptorSize →
      ∃ r, SortMemorySpaceMap MemoryMap (MemoryMap.length * DescriptorSize) DescriptorSize
          = some r ∧
        List.Perm r MemoryMap ∧
        ∀ (p q : Nat) (a b : EFI_GCD_MEMORY_SPACE_DESCRIPTOR), p < q → r[p]? = some a →
          r[q]? = some b → a.BaseAddress ≤ b.BaseAddress) := by
  constructor
  · intro m D hD
    have hnD : m.length ≤ m.length * D := Nat.le_mul_of_pos_right _ hD
    obtain ⟨r, h1, h2, h3⟩ := sortOuter_spec (fun e : EFI_MEMORY_DESCRIPTOR => e.PhysicalStart)
      m.length D hD (m.length * D + 1) 0 m rfl (Nat.zero_le _) (by omega)
      (by intro p q a b hp; omega)
    refine ⟨r, h1, sortOuter_perm _ _ _ _ _ _ _ h1, ?_⟩
    intro p q a b hpq ha hb
    have hlt : q < r.length := by
      rcases Nat.lt_or_ge q r.length with h | h
      · exact h
      · rw [List.getElem?_eq_none h] at hb; cases hb
    exact h3 p q a b hpq (by omega) ha hb
  · intro m D hD
    have hnD : m.length ≤ m.length * D := Nat.le_mul_of_pos_right _ hD
    obtain ⟨r, h1, h2, h3⟩ := sortOuter_spec
      (fun e : EFI_GCD_MEMORY_SPACE_DESCRIPTOR => e.BaseAddress)
      m.length D hD (m.length * D + 1) 0 m rfl (Nat.zero_le _) (by omega)
      (by intro p q a b hp; omega)
    refine ⟨r, h1, sortOuter_perm _ _ _ _ _ _ _ h1, ?_⟩
    intro p q a b hpq ha hb
    have hlt : q < r.length := by
      rcases Nat.lt_or_ge q r.length with h | h
      · exact h
      · rw [List.getElem?_eq_none h] at hb; cases hb
    exact h3 p q a b hpq (by omega) ha hb

theorem SortMemoryMap_rearranges_witness :
    (0 < 48) ∧ ∃ r, SortMemoryMap tiedMemoryMap (tiedMemoryMap.length * 48) 48 = some r ∧
      List.Perm r tiedMemoryMap ∧
      ∀ (p q : Nat) (a b : EFI_MEMORY_DESCRIPTOR), p < q → r[p]? = some a → r[q]? = some b →
        a.PhysicalStart ≤ b.PhysicalStart :=
  ⟨by decide, SortMemoryMap_rearranges.1 tiedMemoryMap 48 (by decide)⟩

/-! ### The sort call of the driver -/

theorem sortOuter_short {α : Type} (key : α → Nat) (N D : Nat) (hN : 0 < N) (hD : N ≤ D)
    (m : List α) : sortOuter key N D (N + 1) 0 m = some m := by
  obtain ⟨k, rfl⟩ : ∃ k, N = k + 1 := ⟨N - 1, by omega⟩
  have h1 : ¬ (1 * D < k + 1) := by omega
  have h0 : 0 * D < k + 1 := by omega
  unfold sortOuter
  rw [if_pos h0]
  have hin : sortInner key (k + 1) D 0 (k + 1 + 1) (0 + 1) m = some m := by
    unfold sortInner
    rw [if_neg h1]
  rw [hin]
  simp only []
  unfold sortOuter
  rw [if_neg h1]

/-- C31 (code at the failing input).  `MemoryMapDumpHandler` calls
`SortMemorySpaceMap (MemorySpaceMap, NumberOfDescriptors, sizeof (..))`, that is
with the number of descriptors where the byte size belongs.  For the space map of
the two descriptors at `0x4000` and `0` this call returns the map as it was, so
the array handed to `MergeMemorySpaceMap` starts with the base `0x4000` followed
by the base `0`; called with the byte size `2 * 56` the sort does put the
descriptor at `0` first. -/
theorem SortMemorySpaceMap_driver_call :
    SortMemorySpaceMap unsortedSpaceMap unsortedSpaceMap.length 56 = some unsortedSpaceMap ∧
    (unsortedSpaceMap.map fun d => d.BaseAddress) = [0x4000, 0] ∧
    (SortMemorySpaceMap unsortedSpaceMap (unsortedSpaceMap.length * 56) 56).map
      (fun r => r.map fun d => d.BaseAddress) = some [0, 0x4000] := by
  decide

theorem SortMemorySpaceMap_count_as_size (m : List EFI_GCD_MEMORY_SPACE_DESCRIPTOR)
    (N D : Nat) (hN : 0 < N) (hD : N ≤ D) : SortMemorySpaceMap m N D = some m :=
  sortOuter_short _ N D hN hD m

/-! ### The split of an entry -/

theorem dumpShrink_VirtualStart (e : EFI_MEMORY_DESCRIPTOR) (rem : Nat)
    (hv : e.VirtualStart < U64) : (dumpShrink e rem).VirtualStart = e.VirtualStart := by
  have h0 : sub64 rem rem = 0 := by
    unfold sub64
    rw [Nat.add_sub_cancel_left]
    exact Nat.mod_self _
  have h1 : EfiPagesToSize 0 = 0 := by decide
  simp only [dumpShrink, h0, h1, Nat.add_zero]
  split
  · exact Nat.mod_eq_of_lt hv
  · rfl

/-- C32 (code at the failing input).  The entry of two pages at physical `0` and
virtual `0x80000000` is resolved against system memory `[0, 0x1000)` followed by
MMIO `[0x1000, 0x2000)` with one page uncovered.  The split leaves the entry at
physical `0x1000` with one page and with its virtual start still `0x80000000`,
and the second record is printed with the virtual start `0x80000000`, not
`0x80001000`. -/
theorem dumpLoop_split_virtual :
    GetOverlappingMemorySpaceRegion (some twoTypeSpaceMap) 2 0 2
        EFI_GCD_MEMORY_TYPE.EfiGcdMemoryTypeMaximum
      = some (1, EFI_GCD_MEMORY_TYPE.EfiGcdMemoryTypeSystemMemory) ∧
    dumpShrink ⟨7, 0, 0x80000000, 2, 0⟩ 1 = ⟨7, 0x1000, 0x80000000, 1, 0⟩ ∧
    dumpLoop (some twoTypeSpaceMap) 2 48 48 10 0 mappedTwoPages
        EFI_GCD_MEMORY_TYPE.EfiGcdMemoryTypeMaximum []
      = some [⟨7, 0, 0x80000000, 1, 0, EFI_GCD_MEMORY_TYPE.EfiGcdMemoryTypeSystemMemory⟩,
          ⟨7, 0x1000, 0x80000000, 1, 0, EFI_GCD_MEMORY_TYPE.EfiGcdMemoryTypeMemoryMappedIo⟩] := by
  decide

/-! ### Termination of the reconciliation loop -/

/-- C33 (the reconciliation loop terminates).  For every classification array
whose descriptor ends are page-aligned: a lookup of `n > 0` pages at a
page-aligned start returns fewer than `n` pages, so a split leaves an entry with
fewer pages than it had; and for every memory map whose entries start
page-aligned, with 64-bit page counts, the `while` loop finishes: there is a
number of iterations `K` such that every fuel of at least `K` gives the same
list of records. -/
theorem dumpLoop_terminates (g : List EFI_GCD_MEMORY_SPACE_DESCRIPTOR)
    (mm : List EFI_MEMORY_DESCRIPTOR) (D : Nat) (ty : EFI_GCD_MEMORY_TYPE) (hD : 0 < D)
    (hg : ∀ d ∈ g, PageAligned (spaceEnd d))
    (hmm : ∀ e ∈ mm, PageAligned e.PhysicalStart ∧ e.NumberOfPages < U64) :
    (∀ (e : EFI_MEMORY_DESCRIPTOR) (ty0 : EFI_GCD_MEMORY_TYPE),
      PageAligned e.PhysicalStart → 0 < e.NumberOfPages →
      ∃ rem ty1, GetOverlappingMemorySpaceRegion (some g) g.length e.PhysicalStart
            e.NumberOfPages ty0 = some (rem, ty1) ∧
        rem < e.NumberOfPages ∧ (dumpShrink e rem).NumberOfPages < e.NumberOfPages) ∧
    (∃ K out, ∀ f, dumpLoop (some g) g.length (mm.length * D) D (f + K) 0 mm ty []
      = some out) := by
  constructor
  · intro e ty0 hal hn
    obtain ⟨rem, ty1, h1, h2, _⟩ := overlap_step g e.PhysicalStart e.NumberOfPages ty0 hal hn hg
    exact ⟨rem, ty1, h1, h2, h2⟩
  · obtain ⟨K, groups, h1, _⟩ := dumpLoop_run g hg D hD mm mm 0 ty [] rfl (Nat.zero_le _) hmm
    exact ⟨K, groups.flatten, fun f => by rw [h1 f]; simp⟩

theorem dumpLoop_terminates_witness :
    ∃ K out, ∀ f, dumpLoop (some twoTypeSpaceMap) twoTypeSpaceMap.length
        (mappedTwoPages.length * 48) 48 (f + K) 0 mappedTwoPages
        EFI_GCD_MEMORY_TYPE.EfiGcdMemoryTypeMaximum [] = some out :=
  (dumpLoop_terminates twoTypeSpaceMap mappedTwoPages 48
    EFI_GCD_MEMORY_TYPE.EfiGcdMemoryTypeMaximum (by decide) (by decide) (by decide)).2

/-! ### The size of the gap-fill result -/

theorem fillBetween_length (NONE : Nat) :
    ∀ (l : List EFI_MEMORY_DESCRIPTOR), l ≠ [] →
      l.length ≤ (fillBetween NONE l).length ∧ (fillBetween NONE l).length + 1 ≤ 2 * l.length
  | [], h => absurd rfl h
  | [a], _ => by simp [fillBetween]
  | a :: b :: t, _ => by
    have ih := fillBetween_length NONE (b :: t) (by simp)
    unfold fillBetween
    split
    · simp only [List.length_cons] at ih ⊢
      omega
    · simp only [List.length_cons] at ih ⊢
      omega

theorem fillLead_length (NONE : Nat) (first : EFI_MEMORY_DESCRIPTOR) (Start : Nat) :
    (fillLead NONE first Start).length ≤ 1 := by
  unfold fillLead
  split <;> simp

theorem fillTrail_length (NONE : Nat) (prev : EFI_MEMORY_DESCRIPTOR) (End : Nat) :
    (fillTrail NONE prev End).length ≤ 1 := by
  unfold fillTrail
  split <;> simp

/-- C34 (gap fill stays inside its scratch buffer).  On a memory map of `N >= 1`
entries laid out at a positive stride, `FillInMemoryMap` succeeds and its result,
which is what it wrote to the scratch buffer, has at least `N` and at most
`2 * N + 1` entries; so its byte size is below the `2 * MemoryMapSize +
2 * DescriptorSize` bytes of the allocation. -/
theorem FillInMemoryMap_bounded (NONE D Start End : Nat) (MemoryMap : List EFI_MEMORY_DESCRIPTOR)
    (hD : 0 < D) (hne : MemoryMap ≠ []) :
    ∃ r, FillInMemoryMap NONE true true (MemoryMap.length * D) (some MemoryMap) D Start End
        = some (EFI_STATUS.EFI_SUCCESS, r.length * D, some r) ∧
      MemoryMap.length ≤ r.length ∧ r.length ≤ 2 * MemoryMap.length + 1 ∧
      r.length * D < (MemoryMap.length * D) * 2 + D * 2 := by
  cases MemoryMap with
  | nil => exact absurd rfl hne
  | cons first tl =>
    obtain ⟨prev, hprev⟩ : ∃ prev, (first :: tl).getLast? = some prev :=
      ⟨(first :: tl).getLast (by simp), List.getLast?_eq_getLast _ _⟩
    have h1 := fillBetween_length NONE (first :: tl) (by simp)
    have h2 := fillLead_length NONE first Start
    have h3 := fillTrail_length NONE prev End
    refine ⟨_, FillInMemoryMap_eq NONE D Start End first prev tl hD hprev, ?_, ?_, ?_⟩
    · simp only [List.length_append]
      omega
    · simp only [List.length_append]
      omega
    · have hle : (fillLead NONE first Start ++ fillBetween NONE (first :: tl)
          ++ fillTrail NONE prev End).length ≤ 2 * (first :: tl).length + 1 := by
        simp only [List.length_append]
        omega
      have := Nat.mul_le_mul_right D hle
      have e : (2 * (first :: tl).length + 1) * D
          = (first :: tl).length * D * 2 + D := by ring
      rw [e] at this
      omega

theorem FillInMemoryMap_bounded_witness :
    ∃ r, FillInMemoryMap 15 true true (mapWithHole.length * 48) (some mapWithHole) 48 0 0x8000
        = some (EFI_STATUS.EFI_SUCCESS, r.length * 48, some r) ∧
      mapWithHole.length ≤ r.length ∧ r.length ≤ 2 * mapWithHole.length + 1 ∧
      r.length * 48 < (mapWithHole.length * 48) * 2 + 48 * 2 :=
  FillInMemoryMap_bounded 15 48 0 0x8000 mapWithHole (by decide) (by decide)

/-! ### Sorting only reorders -/

/-- C35 (sorting only reorders).  Whatever `SortMemoryMap` returns, for any byte
size and stride, is a permutation of the input descriptors, and so is whatever
`SortMemorySpaceMap` returns; and on an input laid out at a positive stride, with
its true byte size, both do return. -/
theorem SortMemoryMap_permutation :
    (∀ (m r : List EFI_MEMORY_DESCRIPTOR) (S D : Nat),
      SortMemoryMap m S D = some r → List.Perm r m) ∧
    (∀ (m r : List EFI_GCD_MEMORY_SPACE_DESCRIPTOR) (S D : Nat),
      SortMemorySpaceMap m S D = some r → List.Perm r m) ∧
    (∀ (m : List EFI_MEMORY_DESCRIPTOR) (D : Nat), 0 < D →
      ∃ r, SortMemoryMap m (m.length * D) D = some r ∧ List.Perm r m) ∧
    (∀ (m : List EFI_GCD_MEMORY_SPACE_DESCRIPTOR) (D : Nat), 0 < D →
      ∃ r, SortMemorySpaceMap m (m.length * D) D = some r ∧ List.Perm r m) := by
  refine ⟨?_, ?_, ?_, ?_⟩
  · intro m r S D h
    exact sortOuter_perm _ _ _ _ _ _ _ h
  · intro m r S D h
    exact sortOuter_perm _ _ _ _ _ _ _ h
  · intro m D hD
    have hnD : m.length ≤ m.length * D := Nat.le_mul_of_pos_right _ hD
    obtain ⟨r, h1, _⟩ := sortOuter_spec (fun e : EFI_MEMORY_DESCRIPTOR => e.PhysicalStart)
      m.length D hD (m.length * D + 1) 0 m rfl (Nat.zero_le _) (by omega)
      (by intro p q a b hp; omega)
    exact ⟨r, h1, sortOuter_perm _ _ _ _ _ _ _ h1⟩
  · intro m D hD
    have hnD : m.length ≤ m.length * D := Nat.le_mul_of_pos_right _ hD
    obtain ⟨r, h1, _⟩ := sortOuter_spec
      (fun e : EFI_GCD_MEMORY_SPACE_DESCRIPTOR => e.BaseAddress)
      m.length D hD (m.length * D + 1) 0 m rfl (Nat.zero_le _) (by omega)
      (by intro p q a b hp; omega)
    exact ⟨r, h1, sortOuter_perm _ _ _ _ _ _ _ h1⟩

theorem SortMemoryMap_permutation_witness :
    (0 < 56) ∧ ∃ r, SortMemorySpaceMap tiedSpaceMap (tiedSpaceMap.length * 56) 56 = some r ∧
      List.Perm r tiedSpaceMap :=
  ⟨by decide, SortMemoryMap_permutation.2.2.2 tiedSpaceMap 56 (by decide)⟩

/-! ### The slots of the level-1 tables -/

theorem flatMap_length_add {ι α β γ : Type} (k : Nat) (F : ι → List α) (G : ι → List β)
    (H : ι → List γ) :
    ∀ (l : List ι), (∀ x ∈ l, (F x).length + (G x).length = k * (H x).length) →
      (l.flatMap F).length + (l.flatMap G).length = k * (l.flatMap H).length := by
  intro l
  induction l with
  | nil => intro _; simp
  | cons a l ih =>
    intro h
    have h1 := h a (List.mem_cons_self _ _)
    have h2 := ih (fun x hx => h x (List.mem_cons_of_mem _ hx))
    simp only [List.flatMap_cons, List.length_append, Nat.mul_add]
    omega

theorem under4_length_add {α β γ : Type} (v : PageTableView) (k : Nat)
    (F : Nat → Nat → List α) (G : Nat → Nat → List β) (H : Nat → Nat → List γ)
    (h : ∀ i t, (F i t).length + (G i t).length = k * (H i t).length) :
    (under4 v F).length + (under4 v G).length = k * (under4 v H).length := by
  unfold under4
  apply flatMap_length_add
  intro i _
  by_cases hc : (v.Table v.Cr3 i).Present = false
  · simp only [if_pos hc, List.length_nil, Nat.mul_zero]
  · simp only [if_neg hc]
    exact h _ _

theorem under3_length_add {α β γ : Type} (v : PageTableView) (k : Nat)
    (F : Nat → Nat → Nat → List α) (G : Nat → Nat → Nat → List β)
    (H : Nat → Nat → Nat → List γ)
    (h : ∀ i j t, (F i j t).length + (G i j t).length = k * (H i j t).length) :
    (under3 v F).length + (under3 v G).length = k * (under3 v H).length := by
  unfold under3
  apply under4_length_add
  intro i4 t
  apply flatMap_length_add
  intro i _
  by_cases hc : (v.Table t i).Present = false ∨ (v.Table t i).MustBe1 = true
  · simp only [if_pos hc, List.length_nil, Nat.mul_zero]
  · simp only [if_neg hc]
    exact h _ _ _

theorem under2_length_add {α β γ : Type} (v : PageTableView) (k : Nat)
    (F : Nat → Nat → Nat → Nat → List α) (G : Nat → Nat → Nat → Nat → List β)
    (H : Nat → Nat → Nat → Nat → List γ)
    (h : ∀ i j l t, (F i j l t).length + (G i j l t).length = k * (H i j l t).length) :
    (under2 v F).length + (under2 v G).length = k * (under2 v H).length := by
  unfold under2
  apply under3_length_add
  intro i4 i3 t
  apply flatMap_length_add
  intro i _
  by_cases hc : (v.Table t i).Present = false ∨ (v.Table t i).MustBe1 = true
  · simp only [if_pos hc, List.length_nil, Nat.mul_zero]
  · simp only [if_neg hc]
    exact h _ _ _ _

theorem filter_not_add_filter {α : Type} (p : α → Bool) :
    ∀ (l : List α), (l.filter fun x => !p x).length + (l.filter p).length = l.length := by
  intro l
  induction l with
  | nil => rfl
  | cons a l ih =>
    cases hp : p a
    · rw [List.filter_cons_of_pos (by simp [hp]), List.filter_cons_of_neg (by simp [hp])]
      simp only [List.length_cons]
      omega
    · rw [List.filter_cons_of_neg (by simp [hp]), List.filter_cons_of_pos (by simp [hp])]
      simp only [List.length_cons]
      omega

theorem level1_slots (v : PageTableView) :
    (slots4K v).length + (guardAddresses v).length = 512 * (level1Tables v).length := by
  unfold slots4K guardAddresses level1Tables
  apply under2_length_add
  intro i4 i3 i2 t
  rw [List.length_map, List.length_map, filter_not_add_filter, List.length_range]
  rfl

theorem walkBody1_counts (v : PageTableView) (c : FlatCounts)
    (Index4 Index3 Index2 Pte4K : Nat) (st : WalkState) (Index1 : Nat) :
    (isGuardSlot v Index4 Index3 Index2 Pte4K Index1 = true →
      (walkBody1 v c Index4 Index3 Index2 Pte4K st Index1).MyGuardCount = st.MyGuardCount + 1 ∧
      (walkBody1 v c Index4 Index3 Index2 Pte4K st Index1).My4KCount = st.My4KCount) ∧
    (isGuardSlot v Index4 Index3 Index2 Pte4K Index1 = false →
      (walkBody1 v c Index4 Index3 Index2 Pte4K st Index1).My4KCount = st.My4KCount + 1 ∧
      (walkBody1 v c Index4 Index3 Index2 Pte4K st Index1).MyGuardCount = st.MyGuardCount) := by
  unfold isGuardSlot walkBody1
  by_cases hp : (v.Table Pte4K Index1).Present = false
  · rw [if_pos hp]
    by_cases hg : guardHit v (v.IndexToAddress Index4 Index3 Index2 Index1) = true
    · simp only [hg, if_true]
      simp [hp, addGuard]
    · simp only [if_neg hg]
      simp [hp, hg, add4K]
  · rw [if_neg hp]
    simp [hp, add4K]

/-- C36 (every level-1 slot is accounted for once).  For every valid call of
`GetFlatPageTableData`, the 4K count plus the guard count is 512 times the number
of level-1 tables that the walk visits; the 4K count is the number of slots of
those tables that are not guard slots and the guard count the number of guard
slots (not present and oracle true).  In the loop over a level-1 table every slot
adds one to exactly one of the two counters: a guard slot to the guard counter,
every other slot to the 4K counter. -/
theorem callFlat_level1_slots (v : PageTableView) (c : FlatCounts) (b : FlatBuffers)
    (h : ValidPairing c b) :
    (∃ n4K nGuard, (callFlat v c b).Pte4KCount = some n4K ∧
      (callFlat v c b).GuardCount = some nGuard ∧
      n4K + nGuard = 512 * (level1Tables v).length ∧
      n4K = (slots4K v).length ∧ nGuard = (guardAddresses v).length) ∧
    (∀ (Index4 Index3 Index2 Pte4K Index1 : Nat) (st : WalkState),
      (isGuardSlot v Index4 Index3 Index2 Pte4K Index1 = true →
        (walkBody1 v c Index4 Index3 Index2 Pte4K st Index1).MyGuardCount
          = st.MyGuardCount + 1 ∧
        (walkBody1 v c Index4 Index3 Index2 Pte4K st Index1).My4KCount = st.My4KCount) ∧
      (isGuardSlot v Index4 Index3 Index2 Pte4K Index1 = false →
        (walkBody1 v c Index4 Index3 Index2 Pte4K st Index1).My4KCount = st.My4KCount + 1 ∧
        (walkBody1 v c Index4 Index3 Index2 Pte4K st Index1).MyGuardCount
          = st.MyGuardCount)) := by
  refine ⟨⟨(slots4K v).length, (guardAddresses v).length, ?_, ?_, level1_slots v, rfl, rfl⟩, ?_⟩
  · rw [callFlat_valid v c b h, records4K_eq]
  · rw [callFlat_valid v c b h, recordsGuard_eq]
  · intro i4 i3 i2 t i1 st
    exact walkBody1_counts v c i4 i3 i2 t st i1

set_option maxRecDepth 100000 in
theorem callFlat_level1_slots_witness :
    ValidPairing ⟨0, 0, 0, 0, 4⟩ ⟨false, false, false, false, true⟩ ∧
    (level1Tables guardedView).length = 1 ∧
    ∃ n4K nGuard,
      (callFlat guardedView ⟨0, 0, 0, 0, 4⟩ ⟨false, false, false, false, true⟩).Pte4KCount
        = some n4K ∧
      (callFlat guardedView ⟨0, 0, 0, 0, 4⟩ ⟨false, false, false, false, true⟩).GuardCount
        = some nGuard ∧
      n4K + nGuard = 512 * (level1Tables guardedView).length :=
  ⟨by decide, by decide,
    match (callFlat_level1_slots guardedView ⟨0, 0, 0, 0, 4⟩
      ⟨false, false, false, false, true⟩ (by decide)).1 with
    | ⟨a, g, h1, h2, h3, _⟩ => ⟨a, g, h1, h2, h3⟩⟩

/-! ### Synthetic entries between overlapping neighbours -/

/-- C37 (code at the failing input).  In the sorted, page-aligned map whose first
entry `[0, 0x2000)` reaches over the start `0x1000` of the second, the second
entry does not start above the end of the first, yet `FillInMemoryMap` puts a
synthetic entry between the two: it starts at `0x2000` and has `2^52 - 1` pages,
the 64-bit wrap-around of `0x1000 - 0x2000`. -/
theorem FillInMemoryMap_overlap :
    FillInMemoryMap 15 true true (overlappingMemoryMap.length * 48) (some overlappingMemoryMap)
        48 0 0x2000
      = some (EFI_STATUS.EFI_SUCCESS, 144,
          some [⟨7, 0, 0, 2, 0⟩, ⟨15, 0x2000, 0, 2 ^ 52 - 1, 0⟩, ⟨7, 0x1000, 0, 1, 0⟩]) ∧
    entryEnd ⟨7, 0, 0, 2, 0⟩ = 0x2000 ∧
    ¬ ((⟨7, 0x1000, 0, 1, 0⟩ : EFI_MEMORY_DESCRIPTOR).PhysicalStart > entryEnd ⟨7, 0, 0, 2, 0⟩) := by
  decide

end PagingAudit
